import Mathlib

/-!
CPPPhysics: collision pipeline (GJK / EPA / contact manifold)

A shallow embedding of `src/collision.cpp` and `src/manifold.cpp`.

Conventions of the embedding

* `float` is idealised as an arbitrary linearly ordered field `K`; every
  concrete evaluation is carried out in `ℚ` on small integers, where the
  idealisation and IEEE arithmetic agree.  The two primitives that are not
  field operations, `sqrt` and `std::isnan`, are carried in a record `Num K`.
* C++ `throw`, undefined behaviour and the unbounded `while` of `epa` are made
  explicit through `Except Fault`.
* Pointers to stored support points are replaced by the stored values.
-/

deriving instance DecidableEq for Except

namespace CPPPhysics

/-! ## Vectors (the part of glm that the sources use) -/

/-- Three component vector, `glm::vec3`. -/
@[ext] structure Vec3 (K : Type) where
  x : K
  y : K
  z : K
deriving DecidableEq, Repr

/-- Four component vector, `glm::vec4` (only used for the debug colour). -/
structure Vec4 (K : Type) where
  x : K
  y : K
  z : K
  w : K
deriving DecidableEq, Repr

/-- Quaternion, `glm::quat`. -/
structure Quat (K : Type) where
  w : K
  x : K
  y : K
  z : K
deriving DecidableEq, Repr

/-- Six component vector of `includes.h`: a linear and an angular part. -/
structure Vec6 (K : Type) where
  linear : Vec3 K
  angular : Vec3 K
deriving DecidableEq, Repr

/-- The non-field primitives of floating point used by the sources. -/
structure Num (K : Type) where
  /-- the square root behind `glm::normalize` and `glm::length` -/
  sqrt : K → K
  /-- the test `std::isnan` -/
  isnan : K → Bool

section Vectors
variable {K : Type} [LinearOrderedField K]

instance : Zero (Vec3 K) := ⟨⟨0, 0, 0⟩⟩
instance : Inhabited (Vec3 K) := ⟨0⟩
instance : Add (Vec3 K) := ⟨fun a b => ⟨a.x + b.x, a.y + b.y, a.z + b.z⟩⟩
instance : Sub (Vec3 K) := ⟨fun a b => ⟨a.x - b.x, a.y - b.y, a.z - b.z⟩⟩
instance : Neg (Vec3 K) := ⟨fun a => ⟨-a.x, -a.y, -a.z⟩⟩

/-- Scalar multiple, `v * c` or `c * v` in glm. -/
def Vec3.scale (c : K) (v : Vec3 K) : Vec3 K := ⟨c * v.x, c * v.y, c * v.z⟩

/-- Division by a scalar, `v / c` in glm. -/
def Vec3.divs (v : Vec3 K) (c : K) : Vec3 K := ⟨v.x / c, v.y / c, v.z / c⟩

/-- The product `glm::dot`. -/
def dot (a b : Vec3 K) : K := a.x * b.x + a.y * b.y + a.z * b.z

/-- The product `glm::cross`. -/
def cross (a b : Vec3 K) : Vec3 K :=
  ⟨a.y * b.z - b.y * a.z, a.z * b.x - b.z * a.x, a.x * b.y - b.x * a.y⟩

/-- Squared length, `glm::length2`. -/
def length2 (v : Vec3 K) : K := dot v v

/-- Unit vector `glm::normalize`: `v * inversesqrt(dot(v, v))`. -/
def normalize (N : Num K) (v : Vec3 K) : Vec3 K := Vec3.scale (1 / N.sqrt (dot v v)) v

/-- Rotation of a vector by a quaternion, glm `operator*(quat, vec3)`:
`v + 2 * (w * (u × v) + u × (u × v))` with `u` the vector part. -/
def Quat.rotate (q : Quat K) (v : Vec3 K) : Vec3 K :=
  let u : Vec3 K := ⟨q.x, q.y, q.z⟩
  let uv := cross u v
  let uuv := cross u uv
  v + Vec3.scale 2 (Vec3.scale q.w uv + uuv)

/-- Inverse quaternion, `glm::inverse`: `conjugate(q) / dot(q, q)`. -/
def Quat.inverse (q : Quat K) : Quat K :=
  let n := q.w * q.w + q.x * q.x + q.y * q.y + q.z * q.z
  ⟨q.w / n, -q.x / n, -q.y / n, -q.z / n⟩

end Vectors

/-! ## Bodies, mesh and support points -/

/-- The part of `Rigid` that the collision code reads or writes. -/
structure Rigid (K : Type) where
  position : Vec3 K
  rotation : Quat K
  color : Vec4 K
  friction : K
deriving DecidableEq

/-- The static data of `Mesh` used by the collision code.  `Mesh::uniqueVerts` and
`Mesh::bestDot` are declared outside the sources at hand, so both are taken as given:
the hull vertices in model space and the oracle that picks a vertex for a direction. -/
structure Mesh (K : Type) where
  uniqueVerts : List (Vec3 K)
  bestDot : Vec3 K → Nat

/-- A point of the Minkowski difference with its witness indices, `SupportPoint`. -/
structure SupportPoint (K : Type) where
  indexA : Nat
  indexB : Nat
  mink : Vec3 K
deriving DecidableEq, Repr

/-- The ways a query can fail to return. -/
inductive Fault where
  /-- the `throw` of `handleSimplex` -/
  | simplexSize
  /-- one of the three `throw`s of `Polytope::buildFace` -/
  | nanVertex
  /-- an access the C++ standard leaves undefined (`front()` of an empty face set,
  `pts[3]` past the collected points) -/
  | undefinedBehaviour
  /-- the loop of `epa` has not finished within the allotted number of rounds -/
  | outOfFuel
deriving DecidableEq, Repr

section Support
variable {K : Type} [LinearOrderedField K]

instance : Inhabited (SupportPoint K) := ⟨⟨0, 0, 0⟩⟩

/-- Modelled from the spec: `buildModelMatrix` is not among the sources; the spec describes
it as the shape's full position and rotation transform, so a vertex is rotated by the
body's quaternion and then translated by its position. -/
def buildModelMatrix (body : Rigid K) (v : Vec3 K) : Vec3 K :=
  body.rotation.rotate v + body.position

/-- World position of a model-space vertex, `transform(const vec3&, Rigid*)`. -/
def transformVertex (vertex : Vec3 K) (body : Rigid K) : Vec3 K :=
  buildModelMatrix body vertex

/-- World position of hull vertex `index`, `transform(int, Rigid*)`. -/
def transform (mesh : Mesh K) (index : Nat) (body : Rigid K) : Vec3 K :=
  transformVertex (mesh.uniqueVerts.getD index 0) body

/-- Index of the support vertex of `body` along the world direction `dir`, `bestDot`. -/
def bestDot (mesh : Mesh K) (body : Rigid K) (dir : Vec3 K) : Nat :=
  let inv := body.rotation.inverse.rotate dir
  mesh.bestDot inv

/-- Support point of the Minkowski difference along `dir`, `getSupportPoint`. -/
def getSupportPoint (mesh : Mesh K) (bodyA bodyB : Rigid K) (dir : Vec3 K) : SupportPoint K :=
  let indexA := bestDot mesh bodyA dir
  let indexB := bestDot mesh bodyB (-dir)
  ⟨indexA, indexB, transform mesh indexA bodyA - transform mesh indexB bodyB⟩

/-- Projection `projectedDistance`. -/
def projectedDistance (normal point : Vec3 K) : K := dot normal point

/-- Test `sameDirection`. -/
def sameDirection (v1 v2 : Vec3 K) : Bool := decide (dot v1 v2 > 0)

/-- Test `hasNaN`. -/
def hasNaN (N : Num K) (v : Vec3 K) : Bool := N.isnan v.x || N.isnan v.y || N.isnan v.z

end Support

/-! ## Simplex and GJK -/

/-- Modelled from the spec: the class `Simplex` is declared outside the sources at hand.
It is an ordered sequence of support points; `add` appends (so that
`simplex[simplex.size() - 1]` is the point just added, as `gjk` uses it), `remove`
deletes the point at a position and closes the gap, and `simplex[i]` reads position `i`. -/
abbrev Simplex (K : Type) := List (SupportPoint K)

/-- The positions named by the `Index` enumeration. -/
abbrev Index.A : Nat := 0
/-- Second position. -/
abbrev Index.B : Nat := 1
/-- Third position. -/
abbrev Index.C : Nat := 2
/-- Fourth position. -/
abbrev Index.D : Nat := 3

/-- One round of the loop of `gjk`, with the `return` it takes. -/
inductive GjkStep (K : Type) where
  /-- `handleSimplex` reported containment: `return true` -/
  | detected (simplex : Simplex K) (dir : Vec3 K)
  /-- the new point failed the progress test: `return false` -/
  | separated (simplex : Simplex K) (dir : Vec3 K)
  /-- the loop goes on -/
  | next (simplex : Simplex K) (dir : Vec3 K)
deriving DecidableEq

/-- Which `return` of `gjk` was taken. -/
inductive GjkExit where
  | detected
  | noProgress
  | exhausted
deriving DecidableEq, Repr

/-- The outcome of `gjk`: the returned flag and the simplex left in the reference
argument, together with the final `dir`, the number of loop rounds entered, the number of
calls of `getSupportPoint` and the `return` taken (the last four are bookkeeping for the
proofs). -/
structure GjkRun (K : Type) where
  collided : Bool
  simplex : Simplex K
  dir : Vec3 K
  rounds : Nat
  calls : Nat
  exit : GjkExit
deriving DecidableEq

section GJK
variable {K : Type} [LinearOrderedField K]

/-- Method `Simplex::size`. -/
def Simplex.size (s : Simplex K) : Nat := s.length

/-- Method `Simplex::add`. -/
def Simplex.add (s : Simplex K) (p : SupportPoint K) : Simplex K := s ++ [p]

/-- Method `Simplex::remove`. -/
def Simplex.remove (s : Simplex K) (index : Nat) : Simplex K := s.eraseIdx index

/-- Access `simplex[i]`. -/
def Simplex.at (s : Simplex K) (i : Nat) : SupportPoint K := s.getD i default

/-- Case `simplex0`. -/
def simplex0 (simplex : Simplex K) (bodyA bodyB : Rigid K) (_dir : Vec3 K) :
    Bool × Simplex K × Vec3 K :=
  (false, simplex, bodyB.position - bodyA.position)

/-- Case `simplex1`: `dir *= -1`. -/
def simplex1 (simplex : Simplex K) (_bodyA _bodyB : Rigid K) (dir : Vec3 K) :
    Bool × Simplex K × Vec3 K :=
  (false, simplex, Vec3.scale (-1) dir)

/-- Case `simplex2`. -/
def simplex2 (simplex : Simplex K) (_bodyA _bodyB : Rigid K) (_dir : Vec3 K) :
    Bool × Simplex K × Vec3 K :=
  let vecBA := (simplex.at Index.A).mink - (simplex.at Index.B).mink
  let vecBo := -(simplex.at Index.B).mink
  (false, simplex, cross (cross vecBA vecBo) vecBA)

/-- Case `simplex3`. -/
def simplex3 (simplex : Simplex K) (_bodyA _bodyB : Rigid K) (_dir : Vec3 K) :
    Bool × Simplex K × Vec3 K :=
  let dir := cross ((simplex.at Index.B).mink - (simplex.at Index.C).mink)
    ((simplex.at Index.A).mink - (simplex.at Index.C).mink)
  let vecCo := -(simplex.at Index.C).mink
  (false, simplex, if dot dir vecCo < 0 then Vec3.scale (-1) dir else dir)

/-- Helper `simplex4check`: when the origin is beyond the face with the given normal,
drop the vertex at `index` and aim `dir` along the normal. -/
def simplex4check (normal Do : Vec3 K) (index : Nat) (simplex : Simplex K) (dir : Vec3 K) :
    Bool × Simplex K × Vec3 K :=
  if dot normal Do > 0 then
    let simplex1 := simplex.remove index
    let io := -(simplex1.at index).mink
    (true, simplex1, if dot normal io > 0 then normal else -normal)
  else (false, simplex, dir)

/-- Case `simplex4`: does the tetrahedron contain the origin. -/
def simplex4 (simplex : Simplex K) (_bodyA _bodyB : Rigid K) (dir : Vec3 K) :
    Bool × Simplex K × Vec3 K :=
  let DC := (simplex.at Index.C).mink - (simplex.at Index.D).mink
  let DB := (simplex.at Index.B).mink - (simplex.at Index.D).mink
  let DA := (simplex.at Index.A).mink - (simplex.at Index.D).mink
  let Do := -(simplex.at Index.D).mink
  let DCB := cross DC DB
  let DBA := cross DB DA
  let DAC := cross DA DC
  let r1 := simplex4check DCB Do Index.A simplex dir
  if r1.1 then (false, r1.2.1, r1.2.2) else
  let r2 := simplex4check DBA Do Index.C r1.2.1 r1.2.2
  if r2.1 then (false, r2.2.1, r2.2.2) else
  let r3 := simplex4check DAC Do Index.B r2.2.1 r2.2.2
  if r3.1 then (false, r3.2.1, r3.2.2) else
  (true, r3.2.1, r3.2.2)

/-- Dispatch `handleSimplex` on the size of the simplex. -/
def handleSimplex (simplex : Simplex K) (bodyA bodyB : Rigid K) (dir : Vec3 K) :
    Except Fault (Bool × Simplex K × Vec3 K) :=
  match simplex.size with
  | 0 => .ok (simplex0 simplex bodyA bodyB dir)
  | 1 => .ok (simplex1 simplex bodyA bodyB dir)
  | 2 => .ok (simplex2 simplex bodyA bodyB dir)
  | 3 => .ok (simplex3 simplex bodyA bodyB dir)
  | 4 => .ok (simplex4 simplex bodyA bodyB dir)
  | _ => .error Fault.simplexSize

/-- The body of the loop of `gjk`. -/
def gjkBody (mesh : Mesh K) (bodyA bodyB : Rigid K) (simplex : Simplex K) (dir : Vec3 K) :
    Except Fault (GjkStep K) :=
  match handleSimplex simplex bodyA bodyB dir with
  | .error e => .error e
  | .ok (detected, simplex1, dir1) =>
    if detected then .ok (.detected simplex1 dir1) else
    let simplex2 := simplex1.add (getSupportPoint mesh bodyA bodyB dir1)
    if dot (simplex2.at (simplex2.size - 1)).mink dir1 < 0 then .ok (.separated simplex2 dir1)
    else .ok (.next simplex2 dir1)

/-- The loop of `gjk` with `n` rounds left; `rounds` counts the rounds entered so far and
`calls` the support points computed so far. -/
def gjkLoop (mesh : Mesh K) (bodyA bodyB : Rigid K) :
    Nat → Simplex K → Vec3 K → Nat → Nat → Except Fault (GjkRun K)
  | 0, simplex, dir, rounds, calls => .ok ⟨false, simplex, dir, rounds, calls, .exhausted⟩
  | n + 1, simplex, dir, rounds, calls =>
    match gjkBody mesh bodyA bodyB simplex dir with
    | .error e => .error e
    | .ok (.detected s d) => .ok ⟨true, s, d, rounds + 1, calls, .detected⟩
    | .ok (.separated s d) => .ok ⟨false, s, d, rounds + 1, calls + 1, .noProgress⟩
    | .ok (.next s d) => gjkLoop mesh bodyA bodyB n s d (rounds + 1) (calls + 1)

/-- Function `gjk`.  The local `dir` is declared without a value; `dir0` stands for
whatever it holds before the first round. -/
def gjk (mesh : Mesh K) (bodyA bodyB : Rigid K) (simplex : Simplex K) (dir0 : Vec3 K) :
    Except Fault (GjkRun K) :=
  gjkLoop mesh bodyA bodyB 20 simplex dir0 0 0

/-- Do the next `n` rounds of the loop of `gjk` all go on, none of them reporting
containment, failing the progress test or throwing. -/
def allRoundsGoOn (mesh : Mesh K) (bodyA bodyB : Rigid K) : Nat → Simplex K → Vec3 K → Bool
  | 0, _, _ => true
  | n + 1, simplex, dir =>
    match gjkBody mesh bodyA bodyB simplex dir with
    | .ok (.next s d) => allRoundsGoOn mesh bodyA bodyB n s d
    | _ => false

/-- The states at the head of the loop of `gjk` that a run started in `(s0, d0)` can
reach. -/
inductive GjkReach (mesh : Mesh K) (bodyA bodyB : Rigid K) (s0 : Simplex K) (d0 : Vec3 K) :
    Simplex K → Vec3 K → Prop where
  | start : GjkReach mesh bodyA bodyB s0 d0 s0 d0
  | step {s d s1 d1} : GjkReach mesh bodyA bodyB s0 d0 s d →
      gjkBody mesh bodyA bodyB s d = .ok (.next s1 d1) → GjkReach mesh bodyA bodyB s0 d0 s1 d1

/-- The state at the head of the loop of `gjk` after `n` further rounds that all go on. -/
def gjkStateAfter (mesh : Mesh K) (bodyA bodyB : Rigid K) :
    Nat → Simplex K → Vec3 K → Option (Simplex K × Vec3 K)
  | 0, simplex, dir => some (simplex, dir)
  | n + 1, simplex, dir =>
    match gjkBody mesh bodyA bodyB simplex dir with
    | .ok (.next s d) => gjkStateAfter mesh bodyA bodyB n s d
    | _ => none

end GJK

/-! ## Polytope and EPA -/

/-- A triangle of the polytope, `Face`: its normal, its offset, and its three
vertices `sps[0]`, `sps[1]`, `sps[2]`. -/
structure Face (K : Type) where
  normal : Vec3 K
  distance : K
  s0 : SupportPoint K
  s1 : SupportPoint K
  s2 : SupportPoint K
deriving DecidableEq

/-- A directed edge, `Edge`: a pair of stored support points. -/
abbrev Edge (K : Type) := SupportPoint K × SupportPoint K

/-- The class `Polytope`: the stored support points `sps` (one per witness pair, here
in order of arrival), the faces `pq` by ascending distance, and the running sum
`vertTot`. -/
structure Polytope (K : Type) where
  sps : List (SupportPoint K)
  pq : List (Face K)
  vertTot : Vec3 K
deriving DecidableEq

/-- One contact of a manifold, `Contact`. -/
structure Contact (K : Type) where
  normal : Vec3 K
  depth : K
  rA : Vec3 K
  rB : Vec3 K
  t1 : Vec3 K
  t2 : Vec3 K
  JAn : Vec6 K
  JBn : Vec6 K
  JAt1 : Vec6 K
  JBt1 : Vec6 K
  JAt2 : Vec6 K
  JBt2 : Vec6 K
  k : K
  lambda : Vec3 K
  stick : Bool
  C0 : Vec3 K
deriving DecidableEq

section EPA
variable {K : Type} [LinearOrderedField K]

/-- The literal `1e-6f`. -/
def eps : K := 1 / 1000000

/-- Modelled from the spec: identity of support points is declared outside the sources at
hand; the spec defines it by the witness pair `(indexA, indexB)`. -/
def SupportPoint.sameKey (p q : SupportPoint K) : Bool :=
  decide (p.indexA = q.indexA) && decide (p.indexB = q.indexB)

/-- Lookup `sps.find(sp)`. -/
def Polytope.find (P : Polytope K) (sp : SupportPoint K) : Option (SupportPoint K) :=
  P.sps.find? (fun q => q.sameKey sp)

/-- Method `Polytope::add(const SupportPoint&)`: returns the stored point. -/
def Polytope.add (P : Polytope K) (sp : SupportPoint K) : SupportPoint K × Polytope K :=
  let P1 : Polytope K := { P with vertTot := P.vertTot + sp.mink }
  match P1.find sp with
  | some stored => (stored, P1)
  | none => (sp, { P1 with sps := P1.sps ++ [sp] })

/-- Modelled from the spec: the container type of `pq` is declared outside the sources at
hand; the spec describes a collection of faces ordered by ascending distance.  A new face
goes behind the faces that are not farther than it. -/
def pqInsert (face : Face K) : List (Face K) → List (Face K)
  | [] => [face]
  | g :: gs => if face.distance < g.distance then face :: g :: gs else g :: pqInsert face gs

/-- Method `Polytope::add(Face)`. -/
def Polytope.addFace (P : Polytope K) (face : Face K) : Polytope K :=
  { P with pq := pqInsert face P.pq }

/-- Method `Polytope::front`; there is none when the face set is empty. -/
def Polytope.front (P : Polytope K) : Option (Face K) := P.pq.head?

/-- Method `Polytope::buildFace`. -/
def Polytope.buildFace (N : Num K) (P : Polytope K) (pa pb pc : SupportPoint K) :
    Except Fault (Face K) :=
  let av := pa.mink
  let bv := pb.mink
  let cv := pc.mink
  if hasNaN N av then .error Fault.nanVertex else
  if hasNaN N bv then .error Fault.nanVertex else
  if hasNaN N cv then .error Fault.nanVertex else
  let n0 := cross (bv - av) (cv - av)
  let normal := if length2 n0 < eps then (⟨0, 1, 0⟩ : Vec3 K) else normalize N n0
  let distance := projectedDistance normal av
  let midpoint : Vec3 K :=
    if |dot normal av| < eps then P.vertTot.divs (P.sps.length : K) else 0
  if !sameDirection normal (av - midpoint) then
    .ok ⟨Vec3.scale (-1) normal, distance, pa, pc, pb⟩
  else
    .ok ⟨normal, distance, pa, pb, pc⟩

/-- Modelled from the spec: `Face::overrideEdge` is declared outside the sources at hand;
by the spec the vertex order of a face gives the direction of its edges, so edge `i`
runs from vertex `i` to vertex `i + 1` (cyclically). -/
def Face.overrideEdge (face : Face K) (i : Nat) : Edge K :=
  match i with
  | 0 => (face.s0, face.s1)
  | 1 => (face.s1, face.s2)
  | _ => (face.s2, face.s0)

/-- The body of the inner loop of `Polytope::insert` on the edge set: the reverse of
the edge, when present, is erased; otherwise the edge is inserted (a set holds it once).
The `std::set` is kept as a list without repetition, in order of arrival. -/
def toggleEdge (edges : List (Edge K)) (edge : Edge K) : List (Edge K) :=
  if (edge.2, edge.1) ∈ edges then edges.erase (edge.2, edge.1)
  else if edge ∈ edges then edges
  else edges ++ [edge]

/-- Is `face` turned towards the point `sp` (the test of the outer loop of `insert`). -/
def Face.visibleFrom (face : Face K) (sp : SupportPoint K) : Bool :=
  sameDirection face.normal (sp.mink - face.s0.mink)

/-- The outer loop of `Polytope::insert`: the faces that stay, and the horizon edges. -/
def scanFaces (sp : SupportPoint K) :
    List (Face K) → List (Edge K) → List (Face K) × List (Edge K)
  | [], edges => ([], edges)
  | face :: rest, edges =>
    if !face.visibleFrom sp then
      let r := scanFaces sp rest edges
      (face :: r.1, r.2)
    else
      let e0 := toggleEdge edges (face.overrideEdge 0)
      let e1 := toggleEdge e0 (face.overrideEdge 1)
      let e2 := toggleEdge e1 (face.overrideEdge 2)
      scanFaces sp rest e2

/-- The last loop of `Polytope::insert`: one new face per horizon edge. -/
def addHorizonFaces (N : Num K) (sp : SupportPoint K) :
    List (Edge K) → Polytope K → Except Fault (Polytope K)
  | [], P => .ok P
  | edge :: rest, P =>
    match P.buildFace N edge.1 edge.2 sp with
    | .error e => .error e
    | .ok face => addHorizonFaces N sp rest (P.addFace face)

/-- Method `Polytope::insert`: the returned flag and the polytope afterwards. -/
def Polytope.insert (N : Num K) (P : Polytope K) (spRef : SupportPoint K) :
    Except Fault (Bool × Polytope K) :=
  if (P.find spRef).isSome then .ok (true, P) else
  match P.front with
  | none => .error Fault.undefinedBehaviour
  | some front =>
    if projectedDistance front.normal spRef.mink - front.distance < eps then .ok (true, P) else
    let added := P.add spRef
    let sp := added.1
    let scanned := scanFaces sp added.2.pq []
    match addHorizonFaces N sp scanned.2 { added.2 with pq := scanned.1 } with
    | .error e => .error e
    | .ok P3 => .ok (false, P3)

/-- Constructor `Polytope::Polytope(const Simplex&)`.  The stored points are walked in
order of arrival; reading `pts[3]` when fewer than four were collected is undefined. -/
def Polytope.ofSimplex (N : Num K) (simplex : Simplex K) : Except Fault (Polytope K) :=
  let P0 : Polytope K := ⟨[], [], 0⟩
  let P1 := (P0.add (simplex.at 0)).2
  let P2 := (P1.add (simplex.at 1)).2
  let P3 := (P2.add (simplex.at 2)).2
  let P4 := (P3.add (simplex.at 3)).2
  match P4.sps.take 4 with
  | [p0, p1, p2, p3] =>
    match P4.buildFace N p0 p1 p2 with
    | .error e => .error e
    | .ok f0 =>
    let Q0 := P4.addFace f0
    match Q0.buildFace N p0 p1 p3 with
    | .error e => .error e
    | .ok f1 =>
    let Q1 := Q0.addFace f1
    match Q1.buildFace N p0 p2 p3 with
    | .error e => .error e
    | .ok f2 =>
    let Q2 := Q1.addFace f2
    match Q2.buildFace N p1 p2 p3 with
    | .error e => .error e
    | .ok f3 => .ok (Q2.addFace f3)
  | _ => .error Fault.undefinedBehaviour

/-- Function `epa`, with at most `fuel` rounds of its `while` loop; it returns `false`
and leaves the refined polytope behind the pointer. -/
def epa (N : Num K) (mesh : Mesh K) (bodyA bodyB : Rigid K) :
    Nat → Polytope K → Except Fault (Bool × Polytope K)
  | 0, _ => .error Fault.outOfFuel
  | fuel + 1, P =>
    match P.front with
    | none => .error Fault.undefinedBehaviour
    | some front =>
      let sp := getSupportPoint mesh bodyA bodyB front.normal
      match P.insert N sp with
      | .error e => .error e
      | .ok (true, P1) => .ok (false, P1)
      | .ok (false, P1) => epa N mesh bodyA bodyB fuel P1

/-- Method `Manifold::collide`: the returned count, the two bodies and the contact
array afterwards.  `barycentric` is declared outside the sources at hand and is taken
as given.  The test of `hasNaN` builds an exception object and drops it. -/
def collide (N : Num K) (mesh : Mesh K)
    (barycentric : Polytope K → Rigid K → Rigid K → Vec3 K × Vec3 K) (fuel : Nat)
    (bodyA bodyB : Rigid K) (contacts : Nat → Contact K) :
    Except Fault (Int × Rigid K × Rigid K × (Nat → Contact K)) :=
  match gjk mesh bodyA bodyB [] 0 with
  | .error e => .error e
  | .ok run =>
    if !run.collided then .ok (0, bodyA, bodyB, contacts) else
    match Polytope.ofSimplex N run.simplex with
    | .error e => .error e
    | .ok P0 =>
    match epa N mesh bodyA bodyB fuel P0 with
    | .error e => .error e
    | .ok (_, P) =>
    let A1 : Rigid K := { bodyA with color := ⟨1, 0, 0, 1⟩ }
    let B1 : Rigid K := { bodyB with color := ⟨1, 0, 0, 1⟩ }
    match P.front with
    | none => .error Fault.undefinedBehaviour
    | some front =>
    let _dropped : Option Fault := if hasNaN N front.normal then some Fault.nanVertex else none
    let penetration := Vec3.scale front.distance front.normal
    let A2 : Rigid K := { A1 with position := A1.position - penetration }
    let c0 : Contact K := { contacts 0 with normal := front.normal, depth := front.distance }
    let rs := barycentric P A2 B1
    let c1 : Contact K := { c0 with rA := rs.1 - A2.position, rB := rs.2 - B1.position }
    .ok (1, A2, B1, Function.update contacts 0 c1)

end EPA

/-! ## Manifold -/

/-- The part of `Manifold` (and of its base `Force`) that `initialize` touches: the two
bodies, the friction, the contact count and the contact array. -/
structure Manifold (K : Type) where
  bodyA : Rigid K
  bodyB : Rigid K
  friction : K
  numContacts : Int
  contacts : Nat → Contact K

section ManifoldOps
variable {K : Type} [LinearOrderedField K]

/-- The body of the loop of `Manifold::initialize` for one contact. -/
def initContact (N : Num K) (contact : Contact K) : Contact K :=
  let linIndep : Vec3 K :=
    if dot contact.normal ⟨0, 1, 0⟩ > 95 / 100 then ⟨1, 0, 0⟩ else ⟨0, 1, 0⟩
  let t1a := linIndep - Vec3.scale (dot linIndep contact.normal) contact.normal
  let t1 := normalize N t1a
  let t2 := cross t1 contact.normal
  { contact with
    t1 := t1
    t2 := t2
    k := 1000
    lambda := 0
    JAn := ⟨contact.normal, cross contact.rA contact.normal⟩
    JBn := ⟨-contact.normal, -cross contact.rB contact.normal⟩
    JAt1 := ⟨t1, cross contact.rA t1⟩
    JBt1 := ⟨-t1, -cross contact.rB t1⟩
    JAt2 := ⟨t2, cross contact.rA t2⟩
    JBt2 := ⟨-t2, -cross contact.rB t2⟩
    C0 := ⟨-contact.depth, 0, 0⟩
    stick := true }

/-- The loop of `Manifold::initialize` over the first `n` contacts. -/
def initContacts (N : Num K) (n : Nat) (contacts : Nat → Contact K) : Nat → Contact K :=
  (List.range n).foldl (fun cs i => Function.update cs i (initContact N (cs i))) contacts

/-- Method `Manifold::initialize`: the returned flag and the manifold afterwards. -/
def Manifold.initialize (N : Num K) (mesh : Mesh K)
    (barycentric : Polytope K → Rigid K → Rigid K → Vec3 K × Vec3 K) (fuel : Nat)
    (M : Manifold K) : Except Fault (Bool × Manifold K) :=
  let friction := N.sqrt (M.bodyA.friction * M.bodyB.friction)
  match collide N mesh barycentric fuel M.bodyA M.bodyB M.contacts with
  | .error e => .error e
  | .ok (numContacts, bodyA, bodyB, contacts) =>
    .ok (decide (numContacts > 0),
      ⟨bodyA, bodyB, friction, numContacts, initContacts N numContacts.toNat contacts⟩)
end ManifoldOps

/-! ## Concrete data for evaluation -/

/-- The eight corners of the cube `[-1, 1]³`. -/
def cubeVerts : List (Vec3 ℚ) :=
  [⟨-1, -1, -1⟩, ⟨1, -1, -1⟩, ⟨-1, 1, -1⟩, ⟨1, 1, -1⟩,
   ⟨-1, -1, 1⟩, ⟨1, -1, 1⟩, ⟨-1, 1, 1⟩, ⟨1, 1, 1⟩]

/-- A mesh over `ℚ` with a brute-force oracle: the first index whose vertex has the
largest dot product with the direction. -/
def bruteMesh (vs : List (Vec3 ℚ)) : Mesh ℚ :=
  ⟨vs, fun d => ((List.range vs.length).argmax (fun i => dot (vs.getD i 0) d)).getD 0⟩

/-- The cube mesh. -/
def cubeMesh : Mesh ℚ := bruteMesh cubeVerts

/-- A body at `p` with the identity rotation. -/
def bodyAt (p : Vec3 ℚ) : Rigid ℚ := ⟨p, ⟨1, 0, 0, 0⟩, ⟨0, 0, 0, 0⟩, 1⟩

/-- Newton iteration for the integer square root of `n` from the guess `x`, at most `fuel`
steps. -/
def sqrtIter (n : Nat) : Nat → Nat → Nat
  | 0, x => x
  | fuel + 1, x => if (x + n / x) / 2 < x then sqrtIter n fuel ((x + n / x) / 2) else x

/-- The integer square root, rounded down. -/
def natSqrt (n : Nat) : Nat := if n ≤ 1 then n else sqrtIter n n (n / 2)

/-- Square root on `ℚ` through the integer square roots of numerator and denominator: exact
on squares of rationals. -/
def ratSqrt (q : ℚ) : ℚ := mkRat (natSqrt q.num.toNat) (natSqrt q.den)

/-- The number system for evaluations: `ratSqrt`, and nothing is a NaN. -/
def ratNum : Num ℚ := ⟨ratSqrt, fun _ => false⟩

/-- A body at `p` turned by the quaternion `q`. -/
def bodyTurned (p : Vec3 ℚ) (q : Quat ℚ) : Rigid ℚ := ⟨p, q, ⟨0, 0, 0, 0⟩, 1⟩

/-- A contact with every field zero. -/
def zeroContact : Contact ℚ :=
  ⟨0, 0, 0, 0, 0, 0, ⟨0, 0⟩, ⟨0, 0⟩, ⟨0, 0⟩, ⟨0, 0⟩, ⟨0, 0⟩, ⟨0, 0⟩, 0, 0, false, 0⟩

/-- A stand-in for `barycentric` in evaluations. -/
def noBarycentric : Polytope ℚ → Rigid ℚ → Rigid ℚ → Vec3 ℚ × Vec3 ℚ := fun _ _ _ => (0, 0)

/-- The value of a computation that has returned, `d` otherwise. -/
def okOr {α : Type} (d : α) : Except Fault α → α
  | .ok a => a
  | .error _ => d

/-- Two overlapping cubes: the second is centred at `(-1, 1/2, 1/3)`. -/
def overlapB : Rigid ℚ := bodyAt ⟨-1, 1 / 2, 1 / 3⟩

/-- What `gjk` leaves on the two overlapping cubes. -/
def overlapRun : GjkRun ℚ :=
  ⟨true, [⟨0, 7, ⟨-1, -5 / 2, -7 / 3⟩⟩, ⟨2, 4, ⟨1, 3 / 2, -7 / 3⟩⟩,
    ⟨4, 0, ⟨1, -1 / 2, 5 / 3⟩⟩, ⟨6, 1, ⟨-1, 3 / 2, 5 / 3⟩⟩],
    ⟨-16, 8, 4⟩, 7, 6, .detected⟩

/-- The polytope seeded from that simplex. -/
def overlapSeed : Polytope ℚ :=
  ⟨[⟨0, 7, ⟨-1, -5 / 2, -7 / 3⟩⟩, ⟨2, 4, ⟨1, 3 / 2, -7 / 3⟩⟩,
    ⟨4, 0, ⟨1, -1 / 2, 5 / 3⟩⟩, ⟨6, 1, ⟨-1, 3 / 2, 5 / 3⟩⟩],
   [⟨⟨2 / 3, 2 / 3, 1 / 3⟩, -8 / 9, ⟨2, 4, ⟨1, 3 / 2, -7 / 3⟩⟩,
      ⟨6, 1, ⟨-1, 3 / 2, 5 / 3⟩⟩, ⟨4, 0, ⟨1, -1 / 2, 5 / 3⟩⟩⟩,
    ⟨⟨-16 / 19, 8 / 19, -8 / 19⟩, -44 / 57, ⟨0, 7, ⟨-1, -5 / 2, -7 / 3⟩⟩,
      ⟨6, 1, ⟨-1, 3 / 2, 5 / 3⟩⟩, ⟨2, 4, ⟨1, 3 / 2, -7 / 3⟩⟩⟩,
    ⟨⟨-8 / 13, -8 / 13, 8 / 13⟩, 28 / 39, ⟨0, 7, ⟨-1, -5 / 2, -7 / 3⟩⟩,
      ⟨4, 0, ⟨1, -1 / 2, 5 / 3⟩⟩, ⟨6, 1, ⟨-1, 3 / 2, 5 / 3⟩⟩⟩,
    ⟨⟨8 / 9, -4 / 9, -2 / 9⟩, 20 / 27, ⟨0, 7, ⟨-1, -5 / 2, -7 / 3⟩⟩,
      ⟨2, 4, ⟨1, 3 / 2, -7 / 3⟩⟩, ⟨4, 0, ⟨1, -1 / 2, 5 / 3⟩⟩⟩],
   ⟨0, 0, -4 / 3⟩⟩

/-- The polytope `epa` leaves on the two overlapping cubes. -/
def overlapEpa : Bool × Polytope ℚ :=
  (false,
   ⟨[⟨0, 7, ⟨-1, -5 / 2, -7 / 3⟩⟩,
     ⟨2, 4, ⟨1, 3 / 2, -7 / 3⟩⟩,
     ⟨4, 0, ⟨1, -1 / 2, 5 / 3⟩⟩,
     ⟨6, 1, ⟨-1, 3 / 2, 5 / 3⟩⟩,
     ⟨7, 0, ⟨3, 3 / 2, 5 / 3⟩⟩,
     ⟨2, 5, ⟨-1, 3 / 2, -7 / 3⟩⟩,
     ⟨4, 3, ⟨-1, -5 / 2, 5 / 3⟩⟩],
    [⟨⟨-1, 0, 0⟩, 1, ⟨0, 7, ⟨-1, -5 / 2, -7 / 3⟩⟩,
       ⟨6, 1, ⟨-1, 3 / 2, 5 / 3⟩⟩, ⟨2, 5, ⟨-1, 3 / 2, -7 / 3⟩⟩⟩,
     ⟨⟨-1, 0, 0⟩, 1, ⟨6, 1, ⟨-1, 3 / 2, 5 / 3⟩⟩,
       ⟨0, 7, ⟨-1, -5 / 2, -7 / 3⟩⟩, ⟨4, 3, ⟨-1, -5 / 2, 5 / 3⟩⟩⟩,
     ⟨⟨8 / 11, -8 / 11, 0⟩, 12 / 11, ⟨4, 0, ⟨1, -1 / 2, 5 / 3⟩⟩,
       ⟨0, 7, ⟨-1, -5 / 2, -7 / 3⟩⟩, ⟨7, 0, ⟨3, 3 / 2, 5 / 3⟩⟩⟩,
     ⟨⟨8 / 11, -8 / 11, 0⟩, 12 / 11, ⟨0, 7, ⟨-1, -5 / 2, -7 / 3⟩⟩,
       ⟨4, 0, ⟨1, -1 / 2, 5 / 3⟩⟩, ⟨4, 3, ⟨-1, -5 / 2, 5 / 3⟩⟩⟩,
     ⟨⟨16 / 19, -8 / 19, -8 / 19⟩, 68 / 57, ⟨0, 7, ⟨-1, -5 / 2, -7 / 3⟩⟩,
       ⟨2, 4, ⟨1, 3 / 2, -7 / 3⟩⟩, ⟨7, 0, ⟨3, 3 / 2, 5 / 3⟩⟩⟩,
     ⟨⟨0, 1, 0⟩, 3 / 2, ⟨2, 4, ⟨1, 3 / 2, -7 / 3⟩⟩,
       ⟨6, 1, ⟨-1, 3 / 2, 5 / 3⟩⟩, ⟨7, 0, ⟨3, 3 / 2, 5 / 3⟩⟩⟩,
     ⟨⟨0, 1, 0⟩, 3 / 2, ⟨6, 1, ⟨-1, 3 / 2, 5 / 3⟩⟩,
       ⟨2, 4, ⟨1, 3 / 2, -7 / 3⟩⟩, ⟨2, 5, ⟨-1, 3 / 2, -7 / 3⟩⟩⟩,
     ⟨⟨0, 0, 1⟩, 5 / 3, ⟨6, 1, ⟨-1, 3 / 2, 5 / 3⟩⟩,
       ⟨4, 0, ⟨1, -1 / 2, 5 / 3⟩⟩, ⟨7, 0, ⟨3, 3 / 2, 5 / 3⟩⟩⟩,
     ⟨⟨0, 0, 1⟩, 5 / 3, ⟨4, 0, ⟨1, -1 / 2, 5 / 3⟩⟩,
       ⟨6, 1, ⟨-1, 3 / 2, 5 / 3⟩⟩, ⟨4, 3, ⟨-1, -5 / 2, 5 / 3⟩⟩⟩,
     ⟨⟨0, 0, -1⟩, 7 / 3, ⟨2, 4, ⟨1, 3 / 2, -7 / 3⟩⟩,
       ⟨0, 7, ⟨-1, -5 / 2, -7 / 3⟩⟩, ⟨2, 5, ⟨-1, 3 / 2, -7 / 3⟩⟩⟩],
    ⟨1, 1 / 2, -1 / 3⟩⟩)

/-- A cube touching the cube at the origin along an edge, turned half a turn about X. -/
def edgeB : Rigid ℚ := bodyTurned ⟨2, 0, 2⟩ ⟨0, 1, 0, 0⟩

/-- The loop head of `gjk` on the two cubes touching along an edge, after seven rounds. -/
def edgeState : Simplex ℚ × Vec3 ℚ :=
  ([⟨6, 7, ⟨-4, 2, 0⟩⟩, ⟨7, 6, ⟨0, 2, 0⟩⟩,
   ⟨0, 0, ⟨-2, -2, -4⟩⟩, ⟨4, 4, ⟨-2, -2, 0⟩⟩],
   ⟨0, -16, 16⟩)

/-- Two overlapping cubes: the second is centred at `(1, 1/2, 1/3)`. -/
def deepB : Rigid ℚ := bodyAt ⟨1, 1 / 2, 1 / 3⟩

/-- What `gjk` leaves on the cubes `bodyAt 0` and `deepB`. -/
def deepRun : GjkRun ℚ :=
  ⟨true, [⟨7, 0, ⟨1, 3 / 2, 5 / 3⟩⟩, ⟨0, 7, ⟨-3, -5 / 2, -7 / 3⟩⟩,
    ⟨1, 6, ⟨1, -5 / 2, -7 / 3⟩⟩, ⟨2, 4, ⟨-1, 3 / 2, -7 / 3⟩⟩],
    ⟨0, 16, -16⟩, 5, 4, .detected⟩

/-- The polytope seeded from that simplex. -/
def deepSeed : Polytope ℚ :=
  ⟨[⟨7, 0, ⟨1, 3 / 2, 5 / 3⟩⟩, ⟨0, 7, ⟨-3, -5 / 2, -7 / 3⟩⟩,
    ⟨1, 6, ⟨1, -5 / 2, -7 / 3⟩⟩, ⟨2, 4, ⟨-1, 3 / 2, -7 / 3⟩⟩],
   [⟨⟨0, 0, -1⟩, -7 / 3, ⟨0, 7, ⟨-3, -5 / 2, -7 / 3⟩⟩,
      ⟨2, 4, ⟨-1, 3 / 2, -7 / 3⟩⟩, ⟨1, 6, ⟨1, -5 / 2, -7 / 3⟩⟩⟩,
    ⟨⟨-16 / 19, 8 / 19, 8 / 19⟩, -28 / 57, ⟨7, 0, ⟨1, 3 / 2, 5 / 3⟩⟩,
      ⟨2, 4, ⟨-1, 3 / 2, -7 / 3⟩⟩, ⟨0, 7, ⟨-3, -5 / 2, -7 / 3⟩⟩⟩,
    ⟨⟨0, -8 / 11, 8 / 11⟩, 4 / 33, ⟨7, 0, ⟨1, 3 / 2, 5 / 3⟩⟩,
      ⟨0, 7, ⟨-3, -5 / 2, -7 / 3⟩⟩, ⟨1, 6, ⟨1, -5 / 2, -7 / 3⟩⟩⟩,
    ⟨⟨16 / 19, 8 / 19, -8 / 19⟩, 44 / 57, ⟨7, 0, ⟨1, 3 / 2, 5 / 3⟩⟩,
      ⟨1, 6, ⟨1, -5 / 2, -7 / 3⟩⟩, ⟨2, 4, ⟨-1, 3 / 2, -7 / 3⟩⟩⟩],
   ⟨-2, -2, -16 / 3⟩⟩

/-- The polytope `epa` leaves on these cubes: the first support point lies on the plane
of the closest face. -/
def deepEpa : Bool × Polytope ℚ :=
  (false,
   ⟨[⟨7, 0, ⟨1, 3 / 2, 5 / 3⟩⟩,
     ⟨0, 7, ⟨-3, -5 / 2, -7 / 3⟩⟩,
     ⟨1, 6, ⟨1, -5 / 2, -7 / 3⟩⟩,
     ⟨2, 4, ⟨-1, 3 / 2, -7 / 3⟩⟩,
     ⟨0, 4, ⟨-1, -1 / 2, -7 / 3⟩⟩],
    [⟨⟨0, 0, -1⟩, -7 / 3, ⟨0, 7, ⟨-3, -5 / 2, -7 / 3⟩⟩,
       ⟨2, 4, ⟨-1, 3 / 2, -7 / 3⟩⟩, ⟨1, 6, ⟨1, -5 / 2, -7 / 3⟩⟩⟩,
     ⟨⟨-16 / 19, 8 / 19, 8 / 19⟩, -28 / 57, ⟨7, 0, ⟨1, 3 / 2, 5 / 3⟩⟩,
       ⟨2, 4, ⟨-1, 3 / 2, -7 / 3⟩⟩, ⟨0, 7, ⟨-3, -5 / 2, -7 / 3⟩⟩⟩,
     ⟨⟨0, -8 / 11, 8 / 11⟩, 4 / 33, ⟨7, 0, ⟨1, 3 / 2, 5 / 3⟩⟩,
       ⟨0, 7, ⟨-3, -5 / 2, -7 / 3⟩⟩, ⟨1, 6, ⟨1, -5 / 2, -7 / 3⟩⟩⟩,
     ⟨⟨16 / 19, 8 / 19, -8 / 19⟩, 44 / 57, ⟨7, 0, ⟨1, 3 / 2, 5 / 3⟩⟩,
       ⟨1, 6, ⟨1, -5 / 2, -7 / 3⟩⟩, ⟨2, 4, ⟨-1, 3 / 2, -7 / 3⟩⟩⟩],
    ⟨-3, -5 / 2, -23 / 3⟩⟩)

/-- The support points that `epa` hands to `insert` on the cubes `bodyAt 0`, `overlapB`. -/
def overlapPoints : List (SupportPoint ℚ) :=
  [⟨7, 0, ⟨3, 3 / 2, 5 / 3⟩⟩, ⟨2, 5, ⟨-1, 3 / 2, -7 / 3⟩⟩, ⟨4, 3, ⟨-1, -5 / 2, 5 / 3⟩⟩,
   ⟨0, 1, ⟨-1, -1 / 2, -1 / 3⟩⟩]

/-- Two overlapping cubes: the second is centred at `(1/5, -1/2, 1/3)`. -/
def lowB : Rigid ℚ := bodyAt ⟨1 / 5, -1 / 2, 1 / 3⟩

/-- A number system for exercising the NaN tests: it flags the value `-1`. -/
def markNum : Num ℚ := ⟨ratSqrt, fun x => decide (x = -1)⟩

/-- The manifold of the two overlapping cubes before `initialize`. -/
def overlapManifold : Manifold ℚ := ⟨bodyAt 0, overlapB, 0, 0, fun _ => zeroContact⟩

/-- What `initialize` returns on it. -/
def overlapInit : Bool × Manifold ℚ :=
  okOr (false, overlapManifold)
    ( Manifold.initialize ratNum cubeMesh noBarycentric 10 overlapManifold)

/-- The manifold of the cubes `bodyAt 0` and `lowB` before `initialize`. -/
def lowManifold : Manifold ℚ := ⟨bodyAt 0, lowB, 0, 0, fun _ => zeroContact⟩

/-- What `gjk` leaves on the cubes `bodyAt 0` and `lowB`. -/
def lowRun : GjkRun ℚ :=
  ⟨true, [⟨0, 7, ⟨-11 / 5, -3 / 2, -7 / 3⟩⟩, ⟨4, 1, ⟨-11 / 5, 1 / 2, 5 / 3⟩⟩,
    ⟨1, 0, ⟨9 / 5, 1 / 2, -1 / 3⟩⟩, ⟨5, 2, ⟨9 / 5, -3 / 2, 5 / 3⟩⟩],
    ⟨4, -16, 8⟩, 7, 6, .detected⟩

/-- The polytope seeded from that simplex, under `markNum`. -/
def lowSeed : Polytope ℚ :=
  ⟨[⟨0, 7, ⟨-11 / 5, -3 / 2, -7 / 3⟩⟩, ⟨4, 1, ⟨-11 / 5, 1 / 2, 5 / 3⟩⟩,
    ⟨1, 0, ⟨9 / 5, 1 / 2, -1 / 3⟩⟩, ⟨5, 2, ⟨9 / 5, -3 / 2, 5 / 3⟩⟩],
   [⟨⟨-8 / 19, -16 / 19, 8 / 19⟩, -344 / 285, ⟨0, 7, ⟨-11 / 5, -3 / 2, -7 / 3⟩⟩,
      ⟨5, 2, ⟨9 / 5, -3 / 2, 5 / 3⟩⟩, ⟨4, 1, ⟨-11 / 5, 1 / 2, 5 / 3⟩⟩⟩,
    ⟨⟨1 / 3, 2 / 3, 2 / 3⟩, -32 / 45, ⟨4, 1, ⟨-11 / 5, 1 / 2, 5 / 3⟩⟩,
      ⟨5, 2, ⟨9 / 5, -3 / 2, 5 / 3⟩⟩, ⟨1, 0, ⟨9 / 5, 1 / 2, -1 / 3⟩⟩⟩,
    ⟨⟨-2 / 9, 8 / 9, -4 / 9⟩, 26 / 135, ⟨0, 7, ⟨-11 / 5, -3 / 2, -7 / 3⟩⟩,
      ⟨4, 1, ⟨-11 / 5, 1 / 2, 5 / 3⟩⟩, ⟨1, 0, ⟨9 / 5, 1 / 2, -1 / 3⟩⟩⟩,
    ⟨⟨8 / 13, -8 / 13, -8 / 13⟩, 196 / 195, ⟨0, 7, ⟨-11 / 5, -3 / 2, -7 / 3⟩⟩,
      ⟨1, 0, ⟨9 / 5, 1 / 2, -1 / 3⟩⟩, ⟨5, 2, ⟨9 / 5, -3 / 2, 5 / 3⟩⟩⟩],
   ⟨-4 / 5, -2, 2 / 3⟩⟩

/-- The polytope `epa` leaves on these cubes, under `markNum`. -/
def lowEpa : Bool × Polytope ℚ :=
  (false,
   ⟨[⟨0, 7, ⟨-11 / 5, -3 / 2, -7 / 3⟩⟩,
     ⟨4, 1, ⟨-11 / 5, 1 / 2, 5 / 3⟩⟩,
     ⟨1, 0, ⟨9 / 5, 1 / 2, -1 / 3⟩⟩,
     ⟨5, 2, ⟨9 / 5, -3 / 2, 5 / 3⟩⟩,
     ⟨4, 3, ⟨-11 / 5, -3 / 2, 5 / 3⟩⟩,
     ⟨7, 0, ⟨9 / 5, 5 / 2, 5 / 3⟩⟩,
     ⟨2, 4, ⟨-1 / 5, 5 / 2, -7 / 3⟩⟩,
     ⟨1, 6, ⟨9 / 5, -3 / 2, -7 / 3⟩⟩],
    [⟨⟨0, -1, 0⟩, 3 / 2, ⟨0, 7, ⟨-11 / 5, -3 / 2, -7 / 3⟩⟩,
       ⟨5, 2, ⟨9 / 5, -3 / 2, 5 / 3⟩⟩, ⟨4, 3, ⟨-11 / 5, -3 / 2, 5 / 3⟩⟩⟩,
     ⟨⟨0, -1, 0⟩, 3 / 2, ⟨5, 2, ⟨9 / 5, -3 / 2, 5 / 3⟩⟩,
       ⟨0, 7, ⟨-11 / 5, -3 / 2, -7 / 3⟩⟩, ⟨1, 6, ⟨9 / 5, -3 / 2, -7 / 3⟩⟩⟩,
     ⟨⟨0, 0, 1⟩, 5 / 3, ⟨5, 2, ⟨9 / 5, -3 / 2, 5 / 3⟩⟩,
       ⟨4, 1, ⟨-11 / 5, 1 / 2, 5 / 3⟩⟩, ⟨4, 3, ⟨-11 / 5, -3 / 2, 5 / 3⟩⟩⟩,
     ⟨⟨0, 0, 1⟩, 5 / 3, ⟨4, 1, ⟨-11 / 5, 1 / 2, 5 / 3⟩⟩,
       ⟨5, 2, ⟨9 / 5, -3 / 2, 5 / 3⟩⟩, ⟨7, 0, ⟨9 / 5, 5 / 2, 5 / 3⟩⟩⟩,
     ⟨⟨-4 / 9, 8 / 9, 2 / 9⟩, 242 / 135, ⟨4, 1, ⟨-11 / 5, 1 / 2, 5 / 3⟩⟩,
       ⟨7, 0, ⟨9 / 5, 5 / 2, 5 / 3⟩⟩, ⟨2, 4, ⟨-1 / 5, 5 / 2, -7 / 3⟩⟩⟩,
     ⟨⟨1, 0, 0⟩, 9 / 5, ⟨5, 2, ⟨9 / 5, -3 / 2, 5 / 3⟩⟩,
       ⟨1, 0, ⟨9 / 5, 1 / 2, -1 / 3⟩⟩, ⟨7, 0, ⟨9 / 5, 5 / 2, 5 / 3⟩⟩⟩,
     ⟨⟨1, 0, 0⟩, 9 / 5, ⟨1, 0, ⟨9 / 5, 1 / 2, -1 / 3⟩⟩,
       ⟨5, 2, ⟨9 / 5, -3 / 2, 5 / 3⟩⟩, ⟨1, 6, ⟨9 / 5, -3 / 2, -7 / 3⟩⟩⟩,
     ⟨⟨-8 / 9, 4 / 9, -2 / 9⟩, 244 / 135, ⟨0, 7, ⟨-11 / 5, -3 / 2, -7 / 3⟩⟩,
       ⟨4, 1, ⟨-11 / 5, 1 / 2, 5 / 3⟩⟩, ⟨2, 4, ⟨-1 / 5, 5 / 2, -7 / 3⟩⟩⟩,
     ⟨⟨8 / 9, 4 / 9, -4 / 9⟩, 266 / 135, ⟨7, 0, ⟨9 / 5, 5 / 2, 5 / 3⟩⟩,
       ⟨1, 0, ⟨9 / 5, 1 / 2, -1 / 3⟩⟩, ⟨2, 4, ⟨-1 / 5, 5 / 2, -7 / 3⟩⟩⟩,
     ⟨⟨8 / 9, 4 / 9, -4 / 9⟩, 266 / 135, ⟨2, 4, ⟨-1 / 5, 5 / 2, -7 / 3⟩⟩,
       ⟨1, 0, ⟨9 / 5, 1 / 2, -1 / 3⟩⟩, ⟨1, 6, ⟨9 / 5, -3 / 2, -7 / 3⟩⟩⟩,
     ⟨⟨-1, 0, 0⟩, 11 / 5, ⟨4, 1, ⟨-11 / 5, 1 / 2, 5 / 3⟩⟩,
       ⟨0, 7, ⟨-11 / 5, -3 / 2, -7 / 3⟩⟩, ⟨4, 3, ⟨-11 / 5, -3 / 2, 5 / 3⟩⟩⟩,
     ⟨⟨0, 0, -1⟩, 7 / 3, ⟨0, 7, ⟨-11 / 5, -3 / 2, -7 / 3⟩⟩,
       ⟨2, 4, ⟨-1 / 5, 5 / 2, -7 / 3⟩⟩, ⟨1, 6, ⟨9 / 5, -3 / 2, -7 / 3⟩⟩⟩],
    ⟨2 / 5, 0, -2 / 3⟩⟩)

/-- The closest face of that polytope. -/
def lowFront : Face ℚ :=
  ⟨⟨0, -1, 0⟩, 3 / 2, ⟨0, 7, ⟨-11 / 5, -3 / 2, -7 / 3⟩⟩,
   ⟨5, 2, ⟨9 / 5, -3 / 2, 5 / 3⟩⟩, ⟨4, 3, ⟨-11 / 5, -3 / 2, 5 / 3⟩⟩⟩

/-- The loop head of `gjk` on the two overlapping cubes after the first round. -/
def overlapFirst : Simplex ℚ × Vec3 ℚ :=
  ([⟨6, 1, ⟨-1, 3 / 2, 5 / 3⟩⟩], ⟨-1, 1 / 2, 1 / 3⟩)

/-- What `gjk` leaves on two coincident cubes. -/
def sameRun : GjkRun ℚ :=
  ⟨true, [⟨0, 0, ⟨0, 0, 0⟩⟩, ⟨0, 0, ⟨0, 0, 0⟩⟩,
    ⟨0, 0, ⟨0, 0, 0⟩⟩, ⟨0, 0, ⟨0, 0, 0⟩⟩],
    ⟨0, 0, 0⟩, 5, 4, .detected⟩

/-- The directed edges of the faces turned towards `sp`, in the order in which the scan of
`Polytope::insert` meets them. -/
def visibleEdges {K : Type} [LinearOrderedField K] (sp : SupportPoint K) :
    List (Face K) → List (Edge K)
  | [] => []
  | face :: rest =>
    if face.visibleFrom sp then
      face.overrideEdge 0 :: face.overrideEdge 1 :: face.overrideEdge 2 :: visibleEdges sp rest
    else visibleEdges sp rest

/-- The horizon edge set that the scan of `Polytope::insert` ends with. -/
def horizonEdges {K : Type} [LinearOrderedField K] (sp : SupportPoint K) (pq : List (Face K)) :
    List (Edge K) :=
  (scanFaces sp pq []).2

/-- The first point that `epa` hands to `insert` on the two overlapping cubes. -/
def overlapPoint : SupportPoint ℚ := ⟨7, 0, ⟨3, 3 / 2, 5 / 3⟩⟩

/-- What that call of `insert` returns. -/
def overlapGrown : Bool × Polytope ℚ :=
  (false,
   ⟨[⟨0, 7, ⟨-1, -5 / 2, -7 / 3⟩⟩,
     ⟨2, 4, ⟨1, 3 / 2, -7 / 3⟩⟩,
     ⟨4, 0, ⟨1, -1 / 2, 5 / 3⟩⟩,
     ⟨6, 1, ⟨-1, 3 / 2, 5 / 3⟩⟩,
     ⟨7, 0, ⟨3, 3 / 2, 5 / 3⟩⟩],
    [⟨⟨-16 / 19, 8 / 19, -8 / 19⟩, -44 / 57, ⟨0, 7, ⟨-1, -5 / 2, -7 / 3⟩⟩,
       ⟨6, 1, ⟨-1, 3 / 2, 5 / 3⟩⟩, ⟨2, 4, ⟨1, 3 / 2, -7 / 3⟩⟩⟩,
     ⟨⟨-8 / 13, -8 / 13, 8 / 13⟩, 28 / 39, ⟨0, 7, ⟨-1, -5 / 2, -7 / 3⟩⟩,
       ⟨4, 0, ⟨1, -1 / 2, 5 / 3⟩⟩, ⟨6, 1, ⟨-1, 3 / 2, 5 / 3⟩⟩⟩,
     ⟨⟨8 / 11, -8 / 11, 0⟩, 12 / 11, ⟨4, 0, ⟨1, -1 / 2, 5 / 3⟩⟩,
       ⟨0, 7, ⟨-1, -5 / 2, -7 / 3⟩⟩, ⟨7, 0, ⟨3, 3 / 2, 5 / 3⟩⟩⟩,
     ⟨⟨16 / 19, -8 / 19, -8 / 19⟩, 68 / 57, ⟨0, 7, ⟨-1, -5 / 2, -7 / 3⟩⟩,
       ⟨2, 4, ⟨1, 3 / 2, -7 / 3⟩⟩, ⟨7, 0, ⟨3, 3 / 2, 5 / 3⟩⟩⟩,
     ⟨⟨0, 1, 0⟩, 3 / 2, ⟨2, 4, ⟨1, 3 / 2, -7 / 3⟩⟩,
       ⟨6, 1, ⟨-1, 3 / 2, 5 / 3⟩⟩, ⟨7, 0, ⟨3, 3 / 2, 5 / 3⟩⟩⟩,
     ⟨⟨0, 0, 1⟩, 5 / 3, ⟨6, 1, ⟨-1, 3 / 2, 5 / 3⟩⟩,
       ⟨4, 0, ⟨1, -1 / 2, 5 / 3⟩⟩, ⟨7, 0, ⟨3, 3 / 2, 5 / 3⟩⟩⟩],
    ⟨3, 3 / 2, 1 / 3⟩⟩)

/-- The reverse of a directed edge. -/
def revEdge {K : Type} (e : Edge K) : Edge K := (e.2, e.1)

/-- No edge of the set has its reverse in the set. -/
def NoReverse {K : Type} (edges : List (Edge K)) : Prop :=
  ∀ e ∈ edges, revEdge e ∉ edges

/-- The stored points carry pairwise different witness pairs, and every face has three
different stored points as its vertices. -/
def Polytope.WellFormed {K : Type} [LinearOrderedField K] (P : Polytope K) : Prop :=
  P.sps.Pairwise (fun p q => p.sameKey q = false) ∧
  ∀ f ∈ P.pq, (f.s0 ∈ P.sps ∧ f.s1 ∈ P.sps ∧ f.s2 ∈ P.sps) ∧
    f.s0 ≠ f.s1 ∧ f.s1 ≠ f.s2 ∧ f.s2 ≠ f.s0

/-- The witness pairs within range `n` that the polytope stores. -/
def storedKeys {K : Type} (n : Nat) (P : Polytope K) : Finset (Nat × Nat) :=
  ((P.sps.map (fun q => (q.indexA, q.indexB))).toFinset).filter (fun k => k.1 < n ∧ k.2 < n)

/-! ## Vocabulary of the specification -/

section Spec
variable {K : Type} [LinearOrderedField K]

/-- The quaternion has unit norm, so that it stands for a rotation. -/
def Quat.IsUnit (q : Quat K) : Prop := q.w * q.w + q.x * q.x + q.y * q.y + q.z * q.z = 1

/-- The oracle `Mesh::bestDot` returns the index of a hull vertex that maximises the dot
product with its argument. -/
def Mesh.Maximising (mesh : Mesh K) : Prop :=
  ∀ v : Vec3 K, mesh.bestDot v < mesh.uniqueVerts.length ∧
    ∀ i, i < mesh.uniqueVerts.length →
      dot (mesh.uniqueVerts.getD i 0) v ≤ dot (mesh.uniqueVerts.getD (mesh.bestDot v) 0) v

/-- The weighted sum of the points of `terms`, each paired with its weight. -/
def combo : List (K × Vec3 K) → Vec3 K
  | [] => 0
  | t :: rest => Vec3.scale t.1 t.2 + combo rest

/-- The point `x` is a convex combination of points of `S`: a weighted sum with weights
that are not negative and add up to one. -/
def InHull (S : Vec3 K → Prop) (x : Vec3 K) : Prop :=
  ∃ terms : List (K × Vec3 K),
    (∀ t ∈ terms, 0 ≤ t.1 ∧ S t.2) ∧ (terms.map Prod.fst).sum = 1 ∧ combo terms = x

/-- The world positions of the hull vertices of a body. -/
def worldVertex (mesh : Mesh K) (body : Rigid K) (p : Vec3 K) : Prop :=
  ∃ i, i < mesh.uniqueVerts.length ∧ p = transform mesh i body

/-- The pairwise differences of the world positions of the hull vertices of two bodies. -/
def minkVertex (mesh : Mesh K) (bodyA bodyB : Rigid K) (p : Vec3 K) : Prop :=
  ∃ i j, i < mesh.uniqueVerts.length ∧ j < mesh.uniqueVerts.length ∧
    p = transform mesh i bodyA - transform mesh j bodyB

/-- The point `x` lies in the closed tetrahedron spanned by `a`, `b`, `c`, `d`. -/
def InTetra (a b c d x : Vec3 K) : Prop :=
  ∃ wa wb wc wd : K, 0 ≤ wa ∧ 0 ≤ wb ∧ 0 ≤ wc ∧ 0 ≤ wd ∧ wa + wb + wc + wd = 1 ∧
    Vec3.scale wa a + Vec3.scale wb b + Vec3.scale wc c + Vec3.scale wd d = x

/-- The centroid used by `buildFace`: `vertTot / (float) sps.size()`. -/
def Polytope.centroid (P : Polytope K) : Vec3 K := P.vertTot.divs (P.sps.length : K)

/-- The normal of `face` does not point towards the reference point: the origin, or `c`
when the plane of the face passes within `1e-6` of the origin. -/
def Face.outwardFrom (c : Vec3 K) (face : Face K) : Prop :=
  0 ≤ dot face.normal
    (face.s0.mink - (if |dot face.normal face.s0.mink| < eps then c else 0))

/-- Successive calls of `Polytope::insert`, the returned flags dropped. -/
def insertAll (N : Num K) : Polytope K → List (SupportPoint K) → Except Fault (Polytope K)
  | P, [] => .ok P
  | P, sp :: rest =>
    match P.insert N sp with
    | .error e => .error e
    | .ok r => insertAll N r.2 rest

/-- The polytope has a stored point, and no face points towards its reference point. -/
def Polytope.Wound (P : Polytope K) : Prop :=
  P.sps ≠ [] ∧ ∀ f ∈ P.pq, f.outwardFrom P.centroid

/-- The sum of the `mink` vectors of a list of support points. -/
def minkSum : List (SupportPoint K) → Vec3 K
  | [] => 0
  | p :: ps => p.mink + minkSum ps

end Spec

/-! ## Theorems -/

section Lemmas
variable {K : Type} [LinearOrderedField K]

@[simp] theorem Vec3.zero_x : (0 : Vec3 K).x = 0 := rfl
@[simp] theorem Vec3.zero_y : (0 : Vec3 K).y = 0 := rfl
@[simp] theorem Vec3.zero_z : (0 : Vec3 K).z = 0 := rfl
@[simp] theorem Vec3.add_x (a b : Vec3 K) : (a + b).x = a.x + b.x := rfl
@[simp] theorem Vec3.add_y (a b : Vec3 K) : (a + b).y = a.y + b.y := rfl
@[simp] theorem Vec3.add_z (a b : Vec3 K) : (a + b).z = a.z + b.z := rfl
@[simp] theorem Vec3.sub_x (a b : Vec3 K) : (a - b).x = a.x - b.x := rfl
@[simp] theorem Vec3.sub_y (a b : Vec3 K) : (a - b).y = a.y - b.y := rfl
@[simp] theorem Vec3.sub_z (a b : Vec3 K) : (a - b).z = a.z - b.z := rfl
@[simp] theorem Vec3.neg_x (a : Vec3 K) : (-a).x = -a.x := rfl
@[simp] theorem Vec3.neg_y (a : Vec3 K) : (-a).y = -a.y := rfl
@[simp] theorem Vec3.neg_z (a : Vec3 K) : (-a).z = -a.z := rfl
@[simp] theorem Vec3.scale_x (c : K) (a : Vec3 K) : (a.scale c).x = c * a.x := rfl
@[simp] theorem Vec3.scale_y (c : K) (a : Vec3 K) : (a.scale c).y = c * a.y := rfl
@[simp] theorem Vec3.scale_z (c : K) (a : Vec3 K) : (a.scale c).z = c * a.z := rfl
@[simp] theorem Vec3.divs_x (c : K) (a : Vec3 K) : (a.divs c).x = a.x / c := rfl
@[simp] theorem Vec3.divs_y (c : K) (a : Vec3 K) : (a.divs c).y = a.y / c := rfl
@[simp] theorem Vec3.divs_z (c : K) (a : Vec3 K) : (a.divs c).z = a.z / c := rfl

theorem dot_add_left (a b c : Vec3 K) : dot (a + b) c = dot a c + dot b c := by
  simp only [dot, Vec3.add_x, Vec3.add_y, Vec3.add_z]; ring

theorem dot_sub_left (a b c : Vec3 K) : dot (a - b) c = dot a c - dot b c := by
  simp only [dot, Vec3.sub_x, Vec3.sub_y, Vec3.sub_z]; ring

theorem dot_neg_right (a b : Vec3 K) : dot a (-b) = -dot a b := by
  simp only [dot, Vec3.neg_x, Vec3.neg_y, Vec3.neg_z]; ring

/-- For a unit quaternion the inverse rotation is the adjoint of the rotation. -/
theorem rotate_adjoint (q : Quat K) (hq : q.IsUnit) (v d : Vec3 K) :
    dot (q.rotate v) d = dot v (q.inverse.rotate d) := by
  have hn : q.w * q.w + q.x * q.x + q.y * q.y + q.z * q.z = 1 := hq
  simp only [Quat.inverse, hn, div_one, Quat.rotate, dot, cross, Vec3.add_x, Vec3.add_y,
    Vec3.add_z, Vec3.scale_x, Vec3.scale_y, Vec3.scale_z]
  ring

/-- The world position of a vertex, projected on a direction. -/
theorem dot_transform (mesh : Mesh K) (body : Rigid K) (hq : body.rotation.IsUnit) (i : Nat)
    (d : Vec3 K) :
    dot (transform mesh i body) d
      = dot (mesh.uniqueVerts.getD i 0) (body.rotation.inverse.rotate d) + dot body.position d := by
  simp only [transform, transformVertex, buildModelMatrix, dot_add_left,
    rotate_adjoint body.rotation hq]

/-- The brute-force oracle maximises. -/
theorem bruteMesh_maximising (vs : List (Vec3 ℚ)) (hne : vs ≠ []) : (bruteMesh vs).Maximising := by
  intro v
  have hlen : 0 < vs.length := List.length_pos.mpr hne
  cases h : (List.range vs.length).argmax (fun i => dot (vs.getD i 0) v) with
  | none =>
    rw [List.argmax_eq_none] at h
    have := congrArg List.length h
    simp only [List.length_range, List.length_nil] at this
    omega
  | some m =>
    have hm : m < vs.length := List.mem_range.mp (List.argmax_mem h)
    have hb : (bruteMesh vs).bestDot v = m := by
      show ((List.range vs.length).argmax (fun i => dot (vs.getD i 0) v)).getD 0 = m
      rw [h]; rfl
    refine ⟨?_, ?_⟩
    · rw [hb]; exact hm
    · intro i hi
      rw [hb]
      exact List.le_of_mem_argmax (f := fun i => dot (vs.getD i 0) v) (List.mem_range.mpr hi) h

/-- Started on the empty simplex, `gjk` does not depend on the initial content of `dir`. -/
theorem gjk_empty_dir (mesh : Mesh K) (bodyA bodyB : Rigid K) (dir0 : Vec3 K) :
    gjk mesh bodyA bodyB [] dir0 = gjk mesh bodyA bodyB [] 0 := rfl

/-- A polytope returned by `epa` has a closest face. -/
theorem epa_front (N : Num K) (mesh : Mesh K) (bodyA bodyB : Rigid K) (fuel : Nat) :
    ∀ (P0 : Polytope K) (b : Bool) (P : Polytope K),
      epa N mesh bodyA bodyB fuel P0 = .ok (b, P) → ∃ front, P.front = some front := by
  induction fuel with
  | zero => intro P0 b P h; simp [epa] at h
  | succ n ih =>
    intro P0 b P h
    unfold epa at h
    cases hf : P0.front with
    | none => simp [hf] at h
    | some front =>
      simp only [hf] at h
      cases hi : P0.insert N (getSupportPoint mesh bodyA bodyB front.normal) with
      | error e => simp [hi] at h
      | ok r =>
        obtain ⟨flag, P1⟩ := r
        cases flag with
        | false => simp only [hi] at h; exact ih P1 b P h
        | true =>
          simp only [hi, Except.ok.injEq, Prod.mk.injEq] at h
          have hP : P1 = P0 := by
            unfold Polytope.insert at hi
            split at hi
            · simp only [Except.ok.injEq, Prod.mk.injEq] at hi; exact hi.2.symm
            · simp only [hf] at hi
              split at hi
              · simp only [Except.ok.injEq, Prod.mk.injEq] at hi; exact hi.2.symm
              · split at hi <;> simp at hi
          exact ⟨front, by rw [← h.2, hP, hf]⟩

/-- The three tests of `simplex4` written out. -/
theorem simplex4_eq (s : Simplex K) (bodyA bodyB : Rigid K) (dir : Vec3 K) :
    simplex4 s bodyA bodyB dir =
      if dot (cross ((s.at Index.C).mink - (s.at Index.D).mink)
          ((s.at Index.B).mink - (s.at Index.D).mink)) (-(s.at Index.D).mink) > 0 then
        (false, (simplex4check (cross ((s.at Index.C).mink - (s.at Index.D).mink)
          ((s.at Index.B).mink - (s.at Index.D).mink)) (-(s.at Index.D).mink) Index.A s dir).2)
      else if dot (cross ((s.at Index.B).mink - (s.at Index.D).mink)
          ((s.at Index.A).mink - (s.at Index.D).mink)) (-(s.at Index.D).mink) > 0 then
        (false, (simplex4check (cross ((s.at Index.B).mink - (s.at Index.D).mink)
          ((s.at Index.A).mink - (s.at Index.D).mink)) (-(s.at Index.D).mink) Index.C s dir).2)
      else if dot (cross ((s.at Index.A).mink - (s.at Index.D).mink)
          ((s.at Index.C).mink - (s.at Index.D).mink)) (-(s.at Index.D).mink) > 0 then
        (false, (simplex4check (cross ((s.at Index.A).mink - (s.at Index.D).mink)
          ((s.at Index.C).mink - (s.at Index.D).mink)) (-(s.at Index.D).mink) Index.B s dir).2)
      else (true, s, dir) := by
  unfold simplex4
  by_cases h1 : dot (cross ((s.at Index.C).mink - (s.at Index.D).mink)
          ((s.at Index.B).mink - (s.at Index.D).mink)) (-(s.at Index.D).mink) > 0
  · simp [simplex4check, h1]
  · by_cases h2 : dot (cross ((s.at Index.B).mink - (s.at Index.D).mink)
          ((s.at Index.A).mink - (s.at Index.D).mink)) (-(s.at Index.D).mink) > 0
    · simp [simplex4check, h1, h2]
    · by_cases h3 : dot (cross ((s.at Index.A).mink - (s.at Index.D).mink)
          ((s.at Index.C).mink - (s.at Index.D).mink)) (-(s.at Index.D).mink) > 0
      · simp [simplex4check, h1, h2, h3]
      · simp [simplex4check, h1, h2, h3]

/-- A successful `simplex4check` drops one point. -/
theorem simplex4check_length (normal Do : Vec3 K) (index : Nat) (s : Simplex K) (dir : Vec3 K)
    (h : dot normal Do > 0) (hi : index < s.length) :
    (simplex4check normal Do index s dir).2.1.length = s.length - 1 := by
  simp [simplex4check, h, Simplex.remove, List.length_eraseIdx, hi]

/-- Without reported containment `simplex4` drops one point; with it, the simplex stays. -/
theorem simplex4_length (s : Simplex K) (bodyA bodyB : Rigid K) (dir : Vec3 K)
    (hs : s.length = 4) :
    ((simplex4 s bodyA bodyB dir).1 = false → (simplex4 s bodyA bodyB dir).2.1.length = 3) ∧
    ((simplex4 s bodyA bodyB dir).1 = true → (simplex4 s bodyA bodyB dir).2.1 = s) := by
  rw [simplex4_eq]
  split_ifs with h1 h2 h3
  · refine ⟨fun _ => ?_, fun h => by simp at h⟩
    rw [simplex4check_length _ _ _ _ _ h1 (by rw [hs]; decide), hs]
  · refine ⟨fun _ => ?_, fun h => by simp at h⟩
    rw [simplex4check_length _ _ _ _ _ h2 (by rw [hs]; decide), hs]
  · refine ⟨fun _ => ?_, fun h => by simp at h⟩
    rw [simplex4check_length _ _ _ _ _ h3 (by rw [hs]; decide), hs]
  · exact ⟨fun h => by simp at h, fun _ => rfl⟩

/-- On a simplex of at most four points `handleSimplex` does not throw; when it does not
report containment it leaves at most three points. -/
theorem handleSimplex_ok (s : Simplex K) (bodyA bodyB : Rigid K) (d : Vec3 K)
    (hs : s.length ≤ 4) :
    ∃ det s1 d1, handleSimplex s bodyA bodyB d = .ok (det, s1, d1) ∧
      (det = false → s1.length ≤ 3) ∧ s1.length ≤ 4 := by
  unfold handleSimplex Simplex.size
  have hcases : s.length = 0 ∨ s.length = 1 ∨ s.length = 2 ∨ s.length = 3 ∨ s.length = 4 := by
    omega
  rcases hcases with h | h | h | h | h
  · rw [h]; exact ⟨_, _, _, rfl, fun _ => by simp [simplex0, h], by simp [simplex0, h]⟩
  · rw [h]; exact ⟨_, _, _, rfl, fun _ => by simp [simplex1, h], by simp [simplex1, h]⟩
  · rw [h]; exact ⟨_, _, _, rfl, fun _ => by simp [simplex2, h], by simp [simplex2, h]⟩
  · rw [h]; exact ⟨_, _, _, rfl, fun _ => by simp [simplex3, h], by simp [simplex3, h]⟩
  · rw [h]
    have h4 := simplex4_length s bodyA bodyB d h
    refine ⟨(simplex4 s bodyA bodyB d).1, (simplex4 s bodyA bodyB d).2.1,
      (simplex4 s bodyA bodyB d).2.2, rfl, fun hd => le_of_eq (h4.1 hd), ?_⟩
    cases hb : (simplex4 s bodyA bodyB d).1 with
    | false => rw [h4.1 hb]; decide
    | true => rw [h4.2 hb, h]


/-- On a simplex of at most four points a round of `gjk` does not throw, and the simplex it
leaves has at most four points. -/
theorem gjkBody_ok (mesh : Mesh K) (bodyA bodyB : Rigid K) (s : Simplex K) (d : Vec3 K)
    (hs : s.length ≤ 4) :
    (∃ s1 d1, gjkBody mesh bodyA bodyB s d = .ok (.detected s1 d1)) ∨
    (∃ s1 d1, gjkBody mesh bodyA bodyB s d = .ok (.separated s1 d1)) ∨
    (∃ s1 d1, gjkBody mesh bodyA bodyB s d = .ok (.next s1 d1) ∧ s1.length ≤ 4) := by
  obtain ⟨det, s1, d1, hh, h3, _⟩ := handleSimplex_ok s bodyA bodyB d hs
  unfold gjkBody
  rw [hh]
  cases det with
  | true => exact Or.inl ⟨s1, d1, rfl⟩
  | false =>
    have h3 := h3 rfl
    simp only [Bool.false_eq_true, if_false]
    split_ifs with hp
    · exact Or.inr (Or.inl ⟨_, _, rfl⟩)
    · refine Or.inr (Or.inr ⟨_, _, rfl, ?_⟩)
      simp only [Simplex.add, List.length_append, List.length_singleton]
      omega

/-- The loop of `gjk` returns on every simplex of at most four points, within the rounds
it was given; when all its rounds go on, it returns `false` after using all of them. -/
theorem gjkLoop_ok (mesh : Mesh K) (bodyA bodyB : Rigid K) :
    ∀ (n : Nat) (s : Simplex K) (d : Vec3 K) (r c : Nat), s.length ≤ 4 →
      ∃ run, gjkLoop mesh bodyA bodyB n s d r c = .ok run ∧
        run.rounds ≤ r + n ∧ run.calls ≤ c + n ∧
        (allRoundsGoOn mesh bodyA bodyB n s d = true →
          run.collided = false ∧ run.exit = .exhausted ∧ run.rounds = r + n ∧
            run.calls = c + n) := by
  intro n
  induction n with
  | zero => intro s d r c _; exact ⟨_, rfl, le_refl _, le_refl _, fun _ => ⟨rfl, rfl, rfl, rfl⟩⟩
  | succ n ih =>
    intro s d r c hs
    rcases gjkBody_ok mesh bodyA bodyB s d hs with ⟨s1, d1, h⟩ | ⟨s1, d1, h⟩ | ⟨s1, d1, h, hl⟩
    · refine ⟨⟨true, s1, d1, r + 1, c, .detected⟩, by simp only [gjkLoop, h], ?_, ?_, ?_⟩
      · show r + 1 ≤ r + (n + 1); omega
      · show c ≤ c + (n + 1); omega
      · intro hall; simp [allRoundsGoOn, h] at hall
    · refine ⟨⟨false, s1, d1, r + 1, c + 1, .noProgress⟩, by simp only [gjkLoop, h], ?_, ?_, ?_⟩
      · show r + 1 ≤ r + (n + 1); omega
      · show c + 1 ≤ c + (n + 1); omega
      · intro hall; simp [allRoundsGoOn, h] at hall
    · obtain ⟨run, hrun, hr, hc, hall⟩ := ih s1 d1 (r + 1) (c + 1) hl
      refine ⟨run, by simp only [gjkLoop, h, hrun], by omega, by omega, ?_⟩
      intro hgo
      simp only [allRoundsGoOn, h] at hgo
      obtain ⟨h1, h2, h3, h4⟩ := hall hgo
      exact ⟨h1, h2, by omega, by omega⟩

/-- Every loop head reached from a simplex of at most four points has at most four. -/
theorem gjkReach_length (mesh : Mesh K) (bodyA bodyB : Rigid K) (s0 : Simplex K) (d0 : Vec3 K)
    (h0 : s0.length ≤ 4) (s : Simplex K) (d : Vec3 K)
    (hr : GjkReach mesh bodyA bodyB s0 d0 s d) : s.length ≤ 4 := by
  induction hr with
  | start => exact h0
  | step _ hb ih =>
    rcases gjkBody_ok mesh bodyA bodyB _ _ ih with ⟨s1, d1, h⟩ | ⟨s1, d1, h⟩ | ⟨s1, d1, h, hl⟩
    · rw [h] at hb; simp at hb
    · rw [h] at hb; simp at hb
    · rw [h] at hb
      simp only [Except.ok.injEq, GjkStep.next.injEq] at hb
      rw [← hb.1]; exact hl

theorem dot_scale_left (c : K) (a b : Vec3 K) : dot (Vec3.scale c a) b = c * dot a b := by
  simp only [dot, Vec3.scale_x, Vec3.scale_y, Vec3.scale_z]; ring

theorem dot_zero_left (b : Vec3 K) : dot (0 : Vec3 K) b = 0 := by
  simp only [dot, Vec3.zero_x, Vec3.zero_y, Vec3.zero_z]; ring

/-- No hull vertex of a body lies farther along `d` than the one the oracle picks. -/
theorem transform_le_support (mesh : Mesh K) (body : Rigid K) (hmesh : mesh.Maximising)
    (hq : body.rotation.IsUnit) (d : Vec3 K) (i : Nat) (hi : i < mesh.uniqueVerts.length) :
    dot (transform mesh i body) d ≤ dot (transform mesh (bestDot mesh body d) body) d := by
  have h1 := (hmesh (body.rotation.inverse.rotate d)).2 i hi
  simp only [bestDot, dot_transform mesh body hq]
  linarith

/-- No difference of hull vertices lies farther along `d` than the support point. -/
theorem getSupportPoint_max (mesh : Mesh K) (bodyA bodyB : Rigid K) (d : Vec3 K)
    (hmesh : mesh.Maximising) (hA : bodyA.rotation.IsUnit) (hB : bodyB.rotation.IsUnit)
    (i j : Nat) (hi : i < mesh.uniqueVerts.length) (hj : j < mesh.uniqueVerts.length) :
    dot (transform mesh i bodyA - transform mesh j bodyB) d
      ≤ dot (getSupportPoint mesh bodyA bodyB d).mink d := by
  have h1 := transform_le_support mesh bodyA hmesh hA d i hi
  have h2 := transform_le_support mesh bodyB hmesh hB (-d) j hj
  simp only [dot_neg_right] at h2
  simp only [getSupportPoint, dot_sub_left]
  linarith

/-- A weighted sum of points that all lie below `c` along `d` lies below `c` times the
total weight. -/
theorem dot_combo_le (d : Vec3 K) (c : K) :
    ∀ terms : List (K × Vec3 K), (∀ t ∈ terms, 0 ≤ t.1 ∧ dot t.2 d ≤ c) →
      dot (combo terms) d ≤ c * (terms.map Prod.fst).sum := by
  intro terms
  induction terms with
  | nil => intro _; simp [combo, dot_zero_left]
  | cons t rest ih =>
    intro h
    have ht := h t (List.mem_cons_self _ _)
    have hr := ih (fun u hu => h u (List.mem_cons_of_mem _ hu))
    simp only [combo, dot_add_left, dot_scale_left, List.map_cons, List.sum_cons]
    nlinarith [mul_le_mul_of_nonneg_left ht.2 ht.1]

/-- A weighted sum of points that all lie above `c` along `d` lies above `c` times the
total weight. -/
theorem dot_combo_ge (d : Vec3 K) (c : K) :
    ∀ terms : List (K × Vec3 K), (∀ t ∈ terms, 0 ≤ t.1 ∧ c ≤ dot t.2 d) →
      c * (terms.map Prod.fst).sum ≤ dot (combo terms) d := by
  intro terms
  induction terms with
  | nil => intro _; simp [combo, dot_zero_left]
  | cons t rest ih =>
    intro h
    have ht := h t (List.mem_cons_self _ _)
    have hr := ih (fun u hu => h u (List.mem_cons_of_mem _ hu))
    simp only [combo, dot_add_left, dot_scale_left, List.map_cons, List.sum_cons]
    nlinarith [mul_le_mul_of_nonneg_left ht.2 ht.1]

/-- A round of `gjk` that ends on the progress test has found a support point behind the
origin along the search direction. -/
theorem gjkBody_separated (mesh : Mesh K) (bodyA bodyB : Rigid K) (s : Simplex K) (d : Vec3 K)
    (s2 : Simplex K) (d1 : Vec3 K)
    (h : gjkBody mesh bodyA bodyB s d = .ok (.separated s2 d1)) :
    dot (getSupportPoint mesh bodyA bodyB d1).mink d1 < 0 := by
  unfold gjkBody at h
  split at h
  · simp at h
  · next det s1 dd hh =>
    cases det with
    | true => simp at h
    | false =>
      have hlast : ((s1.add (getSupportPoint mesh bodyA bodyB dd)).at
          ((s1.add (getSupportPoint mesh bodyA bodyB dd)).size - 1))
            = getSupportPoint mesh bodyA bodyB dd := by
        simp [Simplex.at, Simplex.add, Simplex.size, List.getD_eq_getElem?_getD]
      simp only [Bool.false_eq_true, if_false, hlast] at h
      by_cases hp : dot (getSupportPoint mesh bodyA bodyB dd).mink dd < 0
      · simp only [hp, if_true, Except.ok.injEq, GjkStep.separated.injEq] at h
        rw [← h.2]; exact hp
      · simp [hp] at h

/-- When `gjk` leaves through the progress test, the support point along the final
direction lies behind the origin. -/
theorem gjkLoop_noProgress (mesh : Mesh K) (bodyA bodyB : Rigid K) :
    ∀ (n : Nat) (s : Simplex K) (d : Vec3 K) (r c : Nat) (run : GjkRun K),
      gjkLoop mesh bodyA bodyB n s d r c = .ok run → run.exit = .noProgress →
      run.collided = false ∧ dot (getSupportPoint mesh bodyA bodyB run.dir).mink run.dir < 0 := by
  intro n
  induction n with
  | zero =>
    intro s d r c run h he
    simp only [gjkLoop, Except.ok.injEq] at h
    rw [← h] at he; simp at he
  | succ n ih =>
    intro s d r c run h he
    unfold gjkLoop at h
    split at h
    · simp at h
    · simp only [Except.ok.injEq] at h
      rw [← h] at he; simp at he
    · next s1 d1 hb =>
      simp only [Except.ok.injEq] at h
      rw [← h]
      exact ⟨rfl, gjkBody_separated mesh bodyA bodyB s d s1 d1 hb⟩
    · exact ih _ _ _ _ run h he

/-- When `simplex4` reports containment, none of its three tests has fired. -/
theorem simplex4_true (pa pb pc pd : SupportPoint K) (bodyA bodyB : Rigid K) (dir : Vec3 K)
    (h : (simplex4 [pa, pb, pc, pd] bodyA bodyB dir).1 = true) :
    dot (cross (pc.mink - pd.mink) (pb.mink - pd.mink)) (-pd.mink) ≤ 0 ∧
    dot (cross (pb.mink - pd.mink) (pa.mink - pd.mink)) (-pd.mink) ≤ 0 ∧
    dot (cross (pa.mink - pd.mink) (pc.mink - pd.mink)) (-pd.mink) ≤ 0 := by
  rw [simplex4_eq] at h
  have e0 : Simplex.at [pa, pb, pc, pd] Index.A = pa := rfl
  have e1 : Simplex.at [pa, pb, pc, pd] Index.B = pb := rfl
  have e2 : Simplex.at [pa, pb, pc, pd] Index.C = pc := rfl
  have e3 : Simplex.at [pa, pb, pc, pd] Index.D = pd := rfl
  rw [e0, e1, e2, e3] at h
  split_ifs at h with h1 h2 h3
  exact ⟨not_lt.mp h1, not_lt.mp h2, not_lt.mp h3⟩

/-- Cramer's rule for the origin in the frame of a tetrahedron: the four weights, before
division by the volume. -/
theorem tetra_weights (a b c e : Vec3 K) :
    -dot (cross (c - e) (b - e)) (-e) + -dot (cross (a - e) (c - e)) (-e)
        + -dot (cross (b - e) (a - e)) (-e) + dot (cross (b - c) (a - c)) (-c)
      = dot (cross (b - c) (a - c)) (e - c) ∧
    Vec3.scale (-dot (cross (c - e) (b - e)) (-e)) a
        + Vec3.scale (-dot (cross (a - e) (c - e)) (-e)) b
        + Vec3.scale (-dot (cross (b - e) (a - e)) (-e)) c
        + Vec3.scale (dot (cross (b - c) (a - c)) (-c)) e = 0 := by
  refine ⟨?_, ?_⟩
  · simp only [dot, cross, Vec3.sub_x, Vec3.sub_y, Vec3.sub_z, Vec3.neg_x, Vec3.neg_y, Vec3.neg_z]
    ring
  · ext
    · simp only [dot, cross, Vec3.sub_x, Vec3.sub_y, Vec3.sub_z, Vec3.neg_x, Vec3.neg_y,
        Vec3.neg_z, Vec3.add_x, Vec3.scale_x, Vec3.zero_x]
      ring
    · simp only [dot, cross, Vec3.sub_x, Vec3.sub_y, Vec3.sub_z, Vec3.neg_x, Vec3.neg_y,
        Vec3.neg_z, Vec3.add_y, Vec3.scale_y, Vec3.zero_y]
      ring
    · simp only [dot, cross, Vec3.sub_x, Vec3.sub_y, Vec3.sub_z, Vec3.neg_x, Vec3.neg_y,
        Vec3.neg_z, Vec3.add_z, Vec3.scale_z, Vec3.zero_z]
      ring

/-- Weights that are not negative and add up to a positive volume, with weighted sum zero,
put the origin in the closed tetrahedron. -/
theorem inTetra_of_weights (a b c e : Vec3 K) (na nb nc ne vol : K) (hvol : 0 < vol)
    (ha : 0 ≤ na) (hb : 0 ≤ nb) (hc : 0 ≤ nc) (he : 0 ≤ ne) (hsum : na + nb + nc + ne = vol)
    (hzero : Vec3.scale na a + Vec3.scale nb b + Vec3.scale nc c + Vec3.scale ne e = 0) :
    InTetra a b c e 0 := by
  have hne : vol ≠ 0 := ne_of_gt hvol
  refine ⟨na / vol, nb / vol, nc / vol, ne / vol, div_nonneg ha hvol.le, div_nonneg hb hvol.le,
    div_nonneg hc hvol.le, div_nonneg he hvol.le, ?_, ?_⟩
  · rw [← add_div, ← add_div, ← add_div, hsum, div_self hne]
  · have hx := congrArg Vec3.x hzero
    have hy := congrArg Vec3.y hzero
    have hz := congrArg Vec3.z hzero
    simp only [Vec3.add_x, Vec3.scale_x, Vec3.zero_x, Vec3.add_y, Vec3.scale_y, Vec3.zero_y,
      Vec3.add_z, Vec3.scale_z, Vec3.zero_z] at hx hy hz
    ext
    · simp only [Vec3.add_x, Vec3.scale_x, Vec3.zero_x]
      field_simp
      linarith
    · simp only [Vec3.add_y, Vec3.scale_y, Vec3.zero_y]
      field_simp
      linarith
    · simp only [Vec3.add_z, Vec3.scale_z, Vec3.zero_z]
      field_simp
      linarith

theorem dot_scale_neg_one (a b : Vec3 K) : dot (Vec3.scale (-1) a) b = -dot a b := by
  rw [dot_scale_left]; ring

/-- The shape of a face returned by `buildFace`: some normal `n`, kept when it points away
from the reference point and reversed otherwise, with the distance taken before. -/
theorem buildFace_form (N : Num K) (P : Polytope K) (pa pb pc : SupportPoint K) (f : Face K)
    (h : P.buildFace N pa pb pc = .ok f) :
    ∃ n : Vec3 K,
      (¬ (dot n (pa.mink - (if |dot n pa.mink| < eps then P.centroid else 0)) > 0) ∧
        f = ⟨Vec3.scale (-1) n, dot n pa.mink, pa, pc, pb⟩) ∨
      (dot n (pa.mink - (if |dot n pa.mink| < eps then P.centroid else 0)) > 0 ∧
        f = ⟨n, dot n pa.mink, pa, pb, pc⟩) := by
  unfold Polytope.buildFace at h
  dsimp only at h
  by_cases h1 : hasNaN N pa.mink = true
  · simp [h1] at h
  by_cases h2 : hasNaN N pb.mink = true
  · simp [h1, h2] at h
  by_cases h3 : hasNaN N pc.mink = true
  · simp [h1, h2, h3] at h
  simp only [h1, h2, h3, if_false] at h
  generalize (if length2 (cross (pb.mink - pa.mink) (pc.mink - pa.mink)) < eps
    then (⟨0, 1, 0⟩ : Vec3 K)
    else normalize N (cross (pb.mink - pa.mink) (pc.mink - pa.mink))) = n at h
  refine ⟨n, ?_⟩
  by_cases h4 : dot n (pa.mink - (if |dot n pa.mink| < eps then P.centroid else 0)) > 0
  · right
    refine ⟨h4, ?_⟩
    have hs : sameDirection n
        (pa.mink - (if |dot n pa.mink| < eps then P.vertTot.divs (P.sps.length : K) else 0))
          = true := by
      simpa [sameDirection, Polytope.centroid] using h4
    simp only [hs, Bool.not_true, Bool.false_eq_true, if_false, Except.ok.injEq,
      projectedDistance] at h
    exact h.symm
  · left
    refine ⟨h4, ?_⟩
    have hs : sameDirection n
        (pa.mink - (if |dot n pa.mink| < eps then P.vertTot.divs (P.sps.length : K) else 0))
          = false := by
      simpa [sameDirection, Polytope.centroid] using h4
    simp only [hs, Bool.not_false, if_true, Bool.false_eq_true, if_false, Except.ok.injEq,
      projectedDistance] at h
    exact h.symm

/-- The face made by `buildFace` does not point towards the reference point in use when
it is made. -/
theorem buildFace_outward (N : Num K) (P : Polytope K) (pa pb pc : SupportPoint K) (f : Face K)
    (h : P.buildFace N pa pb pc = .ok f) : f.outwardFrom P.centroid := by
  obtain ⟨n, ⟨h4, hf⟩ | ⟨h4, hf⟩⟩ := buildFace_form N P pa pb pc f h
  · rw [hf]
    simp only [Face.outwardFrom, dot_scale_neg_one, abs_neg]
    linarith [not_lt.mp h4]
  · rw [hf]
    exact le_of_lt h4

/-- Without NaN `buildFace` returns a face. -/
theorem buildFace_ok (N : Num K) (hnan : ∀ x, N.isnan x = false) (P : Polytope K)
    (pa pb pc : SupportPoint K) : ∃ f, P.buildFace N pa pb pc = .ok f := by
  unfold Polytope.buildFace
  simp only [hasNaN, hnan, Bool.or_self, Bool.false_eq_true, if_false]
  split_ifs <;> exact ⟨_, rfl⟩

theorem dot_sub_right (a b c : Vec3 K) : dot a (b - c) = dot a b - dot a c := by
  simp only [dot, Vec3.sub_x, Vec3.sub_y, Vec3.sub_z]; ring

theorem dot_add_right (a b c : Vec3 K) : dot a (b + c) = dot a b + dot a c := by
  simp only [dot, Vec3.add_x, Vec3.add_y, Vec3.add_z]; ring

theorem dot_zero_right (a : Vec3 K) : dot a (0 : Vec3 K) = 0 := by
  simp only [dot, Vec3.zero_x, Vec3.zero_y, Vec3.zero_z]; ring

theorem dot_divs_right (a b : Vec3 K) (c : K) : dot a (b.divs c) = dot a b / c := by
  simp only [dot, Vec3.divs_x, Vec3.divs_y, Vec3.divs_z]; ring

/-- The faces after `pq.insert(face)`. -/
theorem mem_pqInsert (g f : Face K) : ∀ l : List (Face K), f ∈ pqInsert g l ↔ f = g ∨ f ∈ l := by
  intro l
  induction l with
  | nil => simp [pqInsert]
  | cons a l ih =>
    unfold pqInsert
    split_ifs
    · simp
    · simp only [List.mem_cons, ih]
      tauto

/-- The faces that the scan of `insert` keeps are old faces not turned towards the point. -/
theorem scanFaces_mem (sp : SupportPoint K) (f : Face K) :
    ∀ (l : List (Face K)) (edges : List (Edge K)),
      f ∈ (scanFaces sp l edges).1 → f ∈ l ∧ f.visibleFrom sp = false := by
  intro l
  induction l with
  | nil => intro edges h; simp [scanFaces] at h
  | cons a l ih =>
    intro edges h
    unfold scanFaces at h
    split_ifs at h with hv
    · simp only [List.mem_cons] at h
      rcases h with h | h
      · rw [h]
        exact ⟨List.mem_cons_self _ _, by simpa using hv⟩
      · exact ⟨List.mem_cons_of_mem _ (ih edges h).1, (ih edges h).2⟩
    · exact ⟨List.mem_cons_of_mem _ (ih _ h).1, (ih _ h).2⟩

/-- The last loop of `insert` leaves the points and their sum alone, and every face it adds
does not point towards the reference point. -/
theorem addHorizonFaces_spec (N : Num K) (sp : SupportPoint K) :
    ∀ (edges : List (Edge K)) (P P1 : Polytope K),
      addHorizonFaces N sp edges P = .ok P1 →
      P1.sps = P.sps ∧ P1.vertTot = P.vertTot ∧
        ∀ f ∈ P1.pq, f ∈ P.pq ∨ f.outwardFrom P.centroid := by
  intro edges
  induction edges with
  | nil =>
    intro P P1 h
    simp only [addHorizonFaces, Except.ok.injEq] at h
    rw [← h]
    exact ⟨rfl, rfl, fun f hf => Or.inl hf⟩
  | cons e rest ih =>
    intro P P1 h
    unfold addHorizonFaces at h
    split at h
    · simp at h
    · next face hface =>
      obtain ⟨h1, h2, h3⟩ := ih (P.addFace face) P1 h
      refine ⟨h1, h2, fun f hf => ?_⟩
      rcases h3 f hf with hm | ho
      · simp only [Polytope.addFace, mem_pqInsert] at hm
        rcases hm with hm | hm
        · right; rw [hm]; exact buildFace_outward N P _ _ _ face hface
        · exact Or.inl hm
      · exact Or.inr ho

/-- A face that does not point towards the old centroid and is not turned towards the new
point does not point towards the new centroid. -/
theorem outwardFrom_step (f : Face K) (V p : Vec3 K) (k : Nat) (hk : 1 ≤ k)
    (hold : f.outwardFrom (V.divs (k : K))) (hnv : dot f.normal (p - f.s0.mink) ≤ 0) :
    f.outwardFrom ((V + p).divs ((k + 1 : Nat) : K)) := by
  unfold Face.outwardFrom at hold ⊢
  split_ifs at hold ⊢ with hc
  · have hkpos : (0 : K) < (k : K) := by exact_mod_cast hk
    have hk1 : (0 : K) < ((k + 1 : Nat) : K) := by exact_mod_cast Nat.succ_pos k
    rw [dot_sub_right, dot_divs_right] at hold ⊢
    rw [dot_sub_right] at hnv
    rw [dot_add_right, sub_nonneg, div_le_iff₀ hk1]
    rw [sub_nonneg, div_le_iff₀ hkpos] at hold
    push_cast
    nlinarith
  · exact hold

/-- `insert` on a point whose witness pair is stored. -/
theorem insert_found (N : Num K) (P : Polytope K) (sp : SupportPoint K)
    (h : (P.find sp).isSome = true) : P.insert N sp = .ok (true, P) := by
  unfold Polytope.insert
  simp only [h, if_true]

/-- `insert` on a new point when the face set is empty. -/
theorem insert_nofront (N : Num K) (P : Polytope K) (sp : SupportPoint K)
    (h : (P.find sp).isSome = false) (hf : P.front = none) :
    P.insert N sp = .error Fault.undefinedBehaviour := by
  unfold Polytope.insert
  simp only [h, hf, Bool.false_eq_true, if_false]

/-- `insert` on a new point that lies no farther than `1e-6` beyond the closest face. -/
theorem insert_close (N : Num K) (P : Polytope K) (sp : SupportPoint K) (front : Face K)
    (h : (P.find sp).isSome = false) (hf : P.front = some front)
    (hc : projectedDistance front.normal sp.mink - front.distance < eps) :
    P.insert N sp = .ok (true, P) := by
  unfold Polytope.insert
  simp only [h, hf, hc, Bool.false_eq_true, if_false, if_true]

/-- `insert` on a new point that lies farther: the point is stored, the faces turned
towards it are dropped and one face per horizon edge is added. -/
theorem insert_grow (N : Num K) (P : Polytope K) (sp : SupportPoint K) (front : Face K)
    (h : (P.find sp).isSome = false) (hf : P.front = some front)
    (hc : ¬ projectedDistance front.normal sp.mink - front.distance < eps) :
    P.insert N sp =
      match addHorizonFaces N sp (scanFaces sp P.pq []).2
          ⟨P.sps ++ [sp], (scanFaces sp P.pq []).1, P.vertTot + sp.mink⟩ with
      | .error e => .error e
      | .ok P3 => .ok (false, P3) := by
  have hnone : P.find sp = none := by
    cases hx : P.find sp with
    | none => rfl
    | some x => rw [hx] at h; simp at h
  have hadd : P.add sp
      = (sp, { sps := P.sps ++ [sp], pq := P.pq, vertTot := P.vertTot + sp.mink }) := by
    simp only [Polytope.add, Polytope.find] at hnone ⊢
    rw [hnone]
  unfold Polytope.insert
  simp only [h, hf, hc, Bool.false_eq_true, if_false, hadd]

/-- A converged `insert` leaves the polytope as it was. -/
theorem insert_true (N : Num K) (P P1 : Polytope K) (sp : SupportPoint K)
    (h : P.insert N sp = .ok (true, P1)) : P1 = P := by
  cases h1 : (P.find sp).isSome with
  | true =>
    rw [insert_found N P sp h1] at h
    simp only [Except.ok.injEq, Prod.mk.injEq, true_and] at h; exact h.symm
  | false =>
    cases hf : P.front with
    | none => rw [insert_nofront N P sp h1 hf] at h; simp at h
    | some front =>
      by_cases hc : projectedDistance front.normal sp.mink - front.distance < eps
      · rw [insert_close N P sp front h1 hf hc] at h
        simp only [Except.ok.injEq, Prod.mk.injEq, true_and] at h; exact h.symm
      · rw [insert_grow N P sp front h1 hf hc] at h
        split at h <;> simp at h

/-- `Polytope::insert` keeps the winding invariant. -/
theorem insert_wound (N : Num K) (P P1 : Polytope K) (sp : SupportPoint K) (b : Bool)
    (hP : P.Wound) (h : P.insert N sp = .ok (b, P1)) : P1.Wound := by
  cases b with
  | true => rw [insert_true N P P1 sp h]; exact hP
  | false =>
    cases h1 : (P.find sp).isSome with
    | true => rw [insert_found N P sp h1] at h; simp at h
    | false =>
      cases hf : P.front with
      | none => rw [insert_nofront N P sp h1 hf] at h; simp at h
      | some front =>
        by_cases hc : projectedDistance front.normal sp.mink - front.distance < eps
        · rw [insert_close N P sp front h1 hf hc] at h; simp at h
        · rw [insert_grow N P sp front h1 hf hc] at h
          split at h
          · simp at h
          · next P3 hadd =>
            simp only [Except.ok.injEq, Prod.mk.injEq, true_and] at h
            rw [← h]
            obtain ⟨e1, e2, e3⟩ := addHorizonFaces_spec N sp _ _ _ hadd
            simp only at e1 e2 e3
            have hlen : 1 ≤ P.sps.length := by
              rcases hl : P.sps with _ | ⟨a, l⟩
              · exact absurd hl hP.1
              · simp
            have hcen :
                P3.centroid = (P.vertTot + sp.mink).divs ((P.sps.length + 1 : Nat) : K) := by
              simp only [Polytope.centroid, e1, e2, List.length_append, List.length_singleton]
            refine ⟨by rw [e1]; simp, fun f hf => ?_⟩
            rcases e3 f hf with hm | ho
            · obtain ⟨hold, hvis⟩ := scanFaces_mem sp f _ _ hm
              rw [hcen]
              refine outwardFrom_step f P.vertTot sp.mink P.sps.length hlen (hP.2 f hold) ?_
              simpa [Face.visibleFrom, sameDirection] using hvis
            · rw [hcen]
              simpa [Polytope.centroid, List.length_append] using ho

/-- Storing a point leaves the faces alone. -/
theorem add_pq (Q : Polytope K) (p : SupportPoint K) : (Q.add p).2.pq = Q.pq := by
  simp only [Polytope.add]
  split <;> rfl

/-- The constructor establishes the winding invariant. -/
theorem ofSimplex_wound (N : Num K) (s : Simplex K) (P : Polytope K)
    (h : Polytope.ofSimplex N s = .ok P) : P.Wound := by
  unfold Polytope.ofSimplex at h
  dsimp only at h
  have h4pq : (((((⟨[], [], 0⟩ : Polytope K).add (s.at 0)).2.add (s.at 1)).2.add
      (s.at 2)).2.add (s.at 3)).2.pq = [] := by
    rw [add_pq, add_pq, add_pq, add_pq]
  generalize (((((⟨[], [], 0⟩ : Polytope K).add (s.at 0)).2.add (s.at 1)).2.add
      (s.at 2)).2.add (s.at 3)).2 = P4 at h h4pq
  split at h
  · next p0 p1 p2 p3 htake =>
    have hne : P4.sps ≠ [] := by
      intro hnil
      rw [hnil] at htake
      simp at htake
    split at h
    · simp at h
    · next f0 hf0 =>
      split at h
      · simp at h
      · next f1 hf1 =>
        split at h
        · simp at h
        · next f2 hf2 =>
          split at h
          · simp at h
          · next f3 hf3 =>
            have o0 : f0.outwardFrom P4.centroid := buildFace_outward N P4 p0 p1 p2 f0 hf0
            have o1 : f1.outwardFrom P4.centroid :=
              buildFace_outward N (P4.addFace f0) p0 p1 p3 f1 hf1
            have o2 : f2.outwardFrom P4.centroid :=
              buildFace_outward N ((P4.addFace f0).addFace f1) p0 p2 p3 f2 hf2
            have o3 : f3.outwardFrom P4.centroid :=
              buildFace_outward N (((P4.addFace f0).addFace f1).addFace f2) p1 p2 p3 f3 hf3
            simp only [Except.ok.injEq] at h
            rw [← h]
            refine ⟨hne, fun f hf => ?_⟩
            simp only [Polytope.addFace, mem_pqInsert, h4pq, List.not_mem_nil, or_false] at hf
            show f.outwardFrom P4.centroid
            rcases hf with hf | hf | hf | hf
            · rw [hf]; exact o3
            · rw [hf]; exact o2
            · rw [hf]; exact o1
            · rw [hf]; exact o0
  · simp at h

/-- Any sequence of calls of `insert` keeps the winding invariant. -/
theorem insertAll_wound (N : Num K) :
    ∀ (sps : List (SupportPoint K)) (P P1 : Polytope K), P.Wound →
      insertAll N P sps = .ok P1 → P1.Wound := by
  intro sps
  induction sps with
  | nil =>
    intro P P1 hP h
    simp only [insertAll, Except.ok.injEq] at h
    rw [← h]; exact hP
  | cons sp rest ih =>
    intro P P1 hP h
    unfold insertAll at h
    split at h
    · simp at h
    · next r hr => exact ih r.2 P1 (insert_wound N P r.2 sp r.1 hP hr) h

/-- Without NaN the last loop of `insert` returns. -/
theorem addHorizonFaces_ok (N : Num K) (hnan : ∀ x, N.isnan x = false) (sp : SupportPoint K) :
    ∀ (edges : List (Edge K)) (P : Polytope K), ∃ P1, addHorizonFaces N sp edges P = .ok P1 := by
  intro edges
  induction edges with
  | nil => intro P; exact ⟨P, rfl⟩
  | cons e rest ih =>
    intro P
    obtain ⟨f, hf⟩ := buildFace_ok N hnan P e.1 e.2 sp
    obtain ⟨P1, h1⟩ := ih (P.addFace f)
    exact ⟨P1, by simp only [addHorizonFaces, hf, h1]⟩

/-- The states computed by `gjkStateAfter` are reached. -/
theorem gjkStateAfter_reach (mesh : Mesh K) (bodyA bodyB : Rigid K) (s0 : Simplex K)
    (d0 : Vec3 K) :
    ∀ (n : Nat) (s : Simplex K) (d : Vec3 K) (r : Simplex K × Vec3 K),
      GjkReach mesh bodyA bodyB s0 d0 s d →
      gjkStateAfter mesh bodyA bodyB n s d = some r →
      GjkReach mesh bodyA bodyB s0 d0 r.1 r.2 := by
  intro n
  induction n with
  | zero =>
    intro s d r hr h
    simp only [gjkStateAfter, Option.some.injEq] at h
    rw [← h]; exact hr
  | succ n ih =>
    intro s d r hr h
    unfold gjkStateAfter at h
    split at h
    · next s1 d1 hb => exact ih s1 d1 r (GjkReach.step hr hb) h
    · simp at h

/-- The loop of `initialize` rewrites exactly the first `n` contacts. -/
theorem initContacts_apply (N : Num K) (n : Nat) (contacts : Nat → Contact K) (i : Nat) :
    initContacts N n contacts i = if i < n then initContact N (contacts i) else contacts i := by
  induction n with
  | zero => simp [initContacts]
  | succ n ih =>
    unfold initContacts at ih ⊢
    rw [List.range_succ, List.foldl_append]
    simp only [List.foldl_cons, List.foldl_nil]
    by_cases hin : i = n
    · subst hin
      simp only [Function.update_same, Nat.lt_succ_self, if_true]
      rw [ih]
      simp
    · rw [Function.update_noteq hin, ih]
      have : i < n + 1 ↔ i < n := by omega
      simp only [this]

/-- The contacts after `initialize` are the contacts of `collide`, the first `numContacts`
of them passed through the loop body. -/
theorem initialize_contacts (N : Num K) (mesh : Mesh K)
    (barycentric : Polytope K → Rigid K → Rigid K → Vec3 K × Vec3 K) (fuel : Nat)
    (M M1 : Manifold K) (b : Bool) (h : Manifold.initialize N mesh barycentric fuel M = .ok (b, M1))
    (i : Nat) (hi : (i : Int) < M1.numContacts) :
    ∃ c : Contact K, M1.contacts i = initContact N c := by
  unfold Manifold.initialize at h
  dsimp only at h
  split at h
  · simp at h
  · next nc a1 b1 cs hc =>
    simp only [Except.ok.injEq, Prod.mk.injEq] at h
    obtain ⟨_, hM⟩ := h
    subst hM
    simp only at hi ⊢
    refine ⟨cs i, ?_⟩
    rw [initContacts_apply]
    have : i < nc.toNat := by omega
    simp [this]

theorem cross_neg_left (a b : Vec3 K) : cross (-a) b = -cross a b := by
  ext <;> simp only [cross, Vec3.neg_x, Vec3.neg_y, Vec3.neg_z] <;> ring

/-- A computation that has returned equals `ok` of its value. -/
theorem eq_ok_okOr {α : Type} (d : α) (r : Except Fault α) (h : r.toBool = true) :
    r = .ok (okOr d r) := by
  cases r with
  | error e => simp [Except.toBool] at h
  | ok a => rfl

/-- What `collide` returns once `gjk` has reported intersection, the polytope is seeded and
`epa` has returned a polytope with a closest face. -/
theorem collide_eq (N : Num K) (mesh : Mesh K)
    (barycentric : Polytope K → Rigid K → Rigid K → Vec3 K × Vec3 K) (fuel : Nat)
    (bodyA bodyB : Rigid K) (contacts : Nat → Contact K) (run : GjkRun K)
    (P0 P : Polytope K) (b : Bool) (front : Face K)
    (hgjk : gjk mesh bodyA bodyB [] 0 = .ok run) (hyes : run.collided = true)
    (hseed : Polytope.ofSimplex N run.simplex = .ok P0)
    (hepa : epa N mesh bodyA bodyB fuel P0 = .ok (b, P)) (hfront : P.front = some front) :
    ∃ r, collide N mesh barycentric fuel bodyA bodyB contacts = .ok r ∧ r.1 = 1 ∧
      r.2.1.position = bodyA.position - Vec3.scale front.distance front.normal ∧
      (r.2.2.2 0).normal = front.normal ∧ (r.2.2.2 0).depth = front.distance := by
  simp only [collide, hgjk, hyes, hseed, hepa, hfront]
  refine ⟨_, rfl, rfl, rfl, ?_, ?_⟩ <;> simp

/-- The double cross product `(u × v) × u`, projected on `v`, is the squared length of
`u × v`. -/
theorem dot_double_cross (u v : Vec3 K) : dot (cross (cross u v) u) v = length2 (cross u v) := by
  simp only [length2, dot, cross]; ring

theorem length2_nonneg (v : Vec3 K) : 0 ≤ length2 v := by
  simp only [length2, dot]
  nlinarith [mul_self_nonneg v.x, mul_self_nonneg v.y, mul_self_nonneg v.z]

theorem scale_neg_one (v : Vec3 K) : Vec3.scale (-1) v = -v := by
  ext <;> simp only [Vec3.scale_x, Vec3.scale_y, Vec3.scale_z, Vec3.neg_x, Vec3.neg_y,
    Vec3.neg_z] <;> ring

/-- Reversing a vector reverses its unit vector. -/
theorem normalize_neg (N : Num K) (v : Vec3 K) :
    normalize N (-v) = Vec3.scale (-1) (normalize N v) := by
  have hd : dot (-v) (-v) = dot v v := by
    simp only [dot, Vec3.neg_x, Vec3.neg_y, Vec3.neg_z]; ring
  simp only [normalize, hd]
  ext <;> simp only [Vec3.scale_x, Vec3.scale_y, Vec3.scale_z, Vec3.neg_x, Vec3.neg_y,
    Vec3.neg_z] <;> ring

theorem cross_swap (a b : Vec3 K) : cross b a = -cross a b := by
  ext <;> simp only [cross, Vec3.neg_x, Vec3.neg_y, Vec3.neg_z] <;> ring

/-- The run of `gjk` on the cubes `bodyAt 0` and `lowB`. -/
theorem lowRun_eq : gjk cubeMesh (bodyAt 0) lowB [] 0 = .ok lowRun ∧ lowRun.collided = true := by
  decide!

/-- The seeding and the run of `epa` on these cubes, under `markNum`. -/
theorem lowEpa_eq :
    Polytope.ofSimplex markNum lowRun.simplex = .ok lowSeed ∧
    epa markNum cubeMesh (bodyAt 0) lowB 10 lowSeed = .ok lowEpa ∧
    lowEpa.2.front = some lowFront := by
  decide!

/-- The face made by `buildFace` depends on the polytope through its points and their sum
only. -/
theorem buildFace_congr (N : Num K) (P Q : Polytope K) (pa pb pc : SupportPoint K)
    (h1 : P.sps = Q.sps) (h2 : P.vertTot = Q.vertTot) :
    P.buildFace N pa pb pc = Q.buildFace N pa pb pc := by
  simp only [Polytope.buildFace, h1, h2]

/-- The faces after `pq.insert(face)`, as a collection. -/
theorem pqInsert_perm (g : Face K) : ∀ l : List (Face K), (pqInsert g l).Perm (g :: l) := by
  intro l
  induction l with
  | nil => exact List.Perm.refl _
  | cons a l ih =>
    unfold pqInsert
    split_ifs
    · exact List.Perm.refl _
    · exact (List.Perm.cons a ih).trans (List.Perm.swap g a l)

/-- The last loop of `insert` adds exactly one face per edge, built by `buildFace` from the
edge and the new point. -/
theorem addHorizonFaces_perm (N : Num K) (sp : SupportPoint K) :
    ∀ (edges : List (Edge K)) (P P1 : Polytope K),
      addHorizonFaces N sp edges P = .ok P1 →
      P1.sps = P.sps ∧ P1.vertTot = P.vertTot ∧
        ∃ faces : List (Face K),
          List.Forall₂ (fun e f => P.buildFace N e.1 e.2 sp = .ok f) edges faces ∧
          P1.pq.Perm (faces ++ P.pq) := by
  intro edges
  induction edges with
  | nil =>
    intro P P1 h
    simp only [addHorizonFaces, Except.ok.injEq] at h
    rw [← h]
    exact ⟨rfl, rfl, [], List.Forall₂.nil, List.Perm.refl _⟩
  | cons e rest ih =>
    intro P P1 h
    unfold addHorizonFaces at h
    split at h
    · simp at h
    · next face hface =>
      obtain ⟨h1, h2, faces, hall, hperm⟩ := ih (P.addFace face) P1 h
      refine ⟨h1, h2, face :: faces, List.Forall₂.cons hface ?_, ?_⟩
      · refine List.Forall₂.imp ?_ hall
        intro a b hab
        rw [← hab]
        exact buildFace_congr N _ _ _ _ _ rfl rfl
      · refine hperm.trans ?_
        simp only [Polytope.addFace]
        refine (List.Perm.append_left faces (pqInsert_perm face P.pq)).trans ?_
        exact List.perm_middle

/-- The faces that the scan of `insert` keeps are the faces not turned towards the point. -/
theorem scanFaces_fst (sp : SupportPoint K) :
    ∀ (l : List (Face K)) (edges : List (Edge K)),
      (scanFaces sp l edges).1 = l.filter (fun f => !f.visibleFrom sp) := by
  intro l
  induction l with
  | nil => intro edges; rfl
  | cons a l ih =>
    intro edges
    unfold scanFaces
    by_cases hv : a.visibleFrom sp = true
    · simp only [hv, Bool.not_true, Bool.false_eq_true, if_false, List.filter_cons_of_neg,
        not_false_eq_true, ih]
    · have hv2 : a.visibleFrom sp = false := by simpa using hv
      simp only [hv2, Bool.not_false, if_true, ih, List.filter_cons_of_pos]

/-- The edge set that the scan of `insert` ends with is the edges of the faces turned
towards the point, passed one after the other through the loop body. -/
theorem scanFaces_snd (sp : SupportPoint K) :
    ∀ (l : List (Face K)) (edges : List (Edge K)),
      (scanFaces sp l edges).2 = (visibleEdges sp l).foldl toggleEdge edges := by
  intro l
  induction l with
  | nil => intro edges; rfl
  | cons a l ih =>
    intro edges
    unfold scanFaces visibleEdges
    by_cases hv : a.visibleFrom sp = true
    · simp only [hv, Bool.not_true, Bool.false_eq_true, if_false, if_true, ih, List.foldl_cons]
    · have hv2 : a.visibleFrom sp = false := by simpa using hv
      simp only [hv2, Bool.not_false, if_true, ih, Bool.false_eq_true, if_false]

/-- Every member of the second list of a pointwise relation has a partner in the first. -/
theorem forall₂_mem_right {α β : Type} {R : α → β → Prop} {l1 : List α} {l2 : List β}
    (h : List.Forall₂ R l1 l2) : ∀ b ∈ l2, ∃ a ∈ l1, R a b := by
  induction h with
  | nil => intro b hb; simp at hb
  | cons hab _ ih =>
    intro b hb
    rcases List.mem_cons.mp hb with hb | hb
    · exact ⟨_, List.mem_cons_self _ _, hb ▸ hab⟩
    · obtain ⟨a, ha, hr⟩ := ih b hb
      exact ⟨a, List.mem_cons_of_mem _ ha, hr⟩

/-- What a call of `insert` that returns `false` does. -/
theorem insert_false_spec (N : Num K) (P P1 : Polytope K) (sp : SupportPoint K)
    (h : P.insert N sp = .ok (false, P1)) :
    (∀ q ∈ P.sps, q.sameKey sp = false) ∧
    P1.sps = P.sps ++ [sp] ∧ P1.vertTot = P.vertTot + sp.mink ∧
    ∃ faces : List (Face K),
      List.Forall₂ (fun e f => P1.buildFace N e.1 e.2 sp = .ok f) (horizonEdges sp P.pq) faces ∧
      P1.pq.Perm (faces ++ P.pq.filter (fun f => !f.visibleFrom sp)) := by
  cases h1 : (P.find sp).isSome with
  | true => rw [insert_found N P sp h1] at h; simp at h
  | false =>
    have hkey : ∀ q ∈ P.sps, q.sameKey sp = false := by
      intro q hq
      have hnone : P.find sp = none := by
        cases hx : P.find sp with
        | none => rfl
        | some x => rw [hx] at h1; simp at h1
      simp only [Polytope.find, List.find?_eq_none] at hnone
      simpa using hnone q hq
    cases hf : P.front with
    | none => rw [insert_nofront N P sp h1 hf] at h; simp at h
    | some front =>
      by_cases hc : projectedDistance front.normal sp.mink - front.distance < eps
      · rw [insert_close N P sp front h1 hf hc] at h; simp at h
      · rw [insert_grow N P sp front h1 hf hc] at h
        split at h
        · simp at h
        · next P3 hadd =>
          simp only [Except.ok.injEq, Prod.mk.injEq, true_and] at h
          subst h
          obtain ⟨e1, e2, faces, hall, hperm⟩ := addHorizonFaces_perm N sp _ _ _ hadd
          simp only at e1 e2 hperm
          refine ⟨hkey, e1, e2, faces, ?_, ?_⟩
          · refine List.Forall₂.imp ?_ hall
            intro a b hab
            rw [← hab]
            exact buildFace_congr N _ _ _ _ _ e1 e2
          · rw [scanFaces_fst] at hperm
            exact hperm

omit [LinearOrderedField K] in
theorem revEdge_ne (e : Edge K) (h : e.1 ≠ e.2) : revEdge e ≠ e := by
  intro hr
  exact h (congrArg Prod.fst hr).symm

/-- One pass of the loop body keeps the edge set free of reversed pairs. -/
theorem toggleEdge_noReverse (S : List (Edge K)) (e : Edge K) (he : e.1 ≠ e.2)
    (hS : NoReverse S) : NoReverse (toggleEdge S e) := by
  unfold toggleEdge
  split_ifs with h1 h2
  · intro x hx hr
    exact hS x (List.mem_of_mem_erase hx) (List.mem_of_mem_erase hr)
  · exact hS
  · intro x hx hr
    rcases List.mem_append.mp hx with hx | hx
    · rcases List.mem_append.mp hr with hr | hr
      · exact hS x hx hr
      · have : revEdge x = e := by simpa using hr
        have hx2 : x = revEdge e := by rw [← this]; rfl
        rw [hx2] at hx
        exact h1 hx
    · have hxe : x = e := by simpa using hx
      rw [hxe] at hr
      rcases List.mem_append.mp hr with hr | hr
      · exact h1 hr
      · have : revEdge e = e := by simpa using hr
        exact revEdge_ne e he this

/-- Passing proper edges through the loop body keeps the edge set free of reversed pairs. -/
theorem foldl_toggleEdge_noReverse :
    ∀ (L : List (Edge K)) (S : List (Edge K)), (∀ e ∈ L, e.1 ≠ e.2) → NoReverse S →
      NoReverse (L.foldl toggleEdge S) := by
  intro L
  induction L with
  | nil => intro S _ hS; exact hS
  | cons e L ih =>
    intro S hL hS
    exact ih _ (fun x hx => hL x (List.mem_cons_of_mem _ hx))
      (toggleEdge_noReverse S e (hL e (List.mem_cons_self _ _)) hS)

/-- After passing a list of different proper edges through the loop body, the set holds each
edge once, and it holds exactly the edges of the list whose reverse is not in the list. -/
theorem foldl_toggleEdge_boundary (L : List (Edge K)) (hproper : ∀ e ∈ L, e.1 ≠ e.2)
    (hnodup : L.Nodup) :
    (L.foldl toggleEdge []).Nodup ∧
    ∀ x, x ∈ L.foldl toggleEdge [] ↔ (x ∈ L ∧ revEdge x ∉ L) := by
  induction L using List.reverseRecOn with
  | nil => simp
  | append_singleton L e ih =>
    have hp : ∀ x ∈ L, x.1 ≠ x.2 := fun x hx => hproper x (List.mem_append_left _ hx)
    have hnd : L.Nodup := (List.nodup_append.mp hnodup).1
    have heL : e ∉ L := by
      intro h
      exact (List.nodup_append.mp hnodup).2.2 h (List.mem_singleton_self e)
    have hee : e.1 ≠ e.2 := hproper e (List.mem_append_right _ (List.mem_singleton_self e))
    obtain ⟨ihn, ihm⟩ := ih hp hnd
    rw [List.foldl_append]
    simp only [List.foldl_cons, List.foldl_nil]
    generalize L.foldl toggleEdge [] = S at ihn ihm
    unfold toggleEdge
    split_ifs with h1 h2
    · -- the reverse is stored: erase it
      have hrL : revEdge e ∈ L := ((ihm _).mp h1).1
      refine ⟨ihn.erase _, fun x => ?_⟩
      rw [ihn.mem_erase_iff, ihm]
      simp only [List.mem_append, List.mem_singleton]
      constructor
      · rintro ⟨hne, hxL, hrx⟩
        refine ⟨Or.inl hxL, ?_⟩
        rintro (h | h)
        · exact hrx h
        · apply hne
          rw [← h]; rfl
      · rintro ⟨hx, hrx⟩
        rcases hx with hx | hx
        · refine ⟨?_, hx, fun h => hrx (Or.inl h)⟩
          intro hxe
          apply hrx
          right
          rw [hxe]; rfl
        · exfalso
          apply hrx
          left
          rw [hx]; exact hrL
    · exact absurd ((ihm _).mp h2).1 heL
    · -- neither the edge nor its reverse is stored: insert it
      have hrL : revEdge e ∉ L := by
        intro h
        by_cases hS : revEdge e ∈ S
        · exact h1 hS
        · have := (ihm (revEdge e)).not.mp hS
          simp only [not_and, not_not] at this
          exact heL (this h)
      refine ⟨List.Nodup.append ihn (List.nodup_singleton e) ?_, fun x => ?_⟩
      · intro a ha hb
        rw [List.mem_singleton] at hb
        rw [hb] at ha
        exact h2 ha
      · simp only [List.mem_append, List.mem_singleton, ihm]
        constructor
        · rintro (⟨hxL, hrx⟩ | hxe)
          · refine ⟨Or.inl hxL, ?_⟩
            rintro (h | h)
            · exact hrx h
            · apply hrL
              have : x = revEdge e := by rw [← h]; rfl
              rw [← this]; exact hxL
          · rw [hxe]
            refine ⟨Or.inr rfl, ?_⟩
            rintro (h | h)
            · exact hrL h
            · exact revEdge_ne e hee h
        · rintro ⟨hx, hrx⟩
          rcases hx with hx | hx
          · exact Or.inl ⟨hx, fun h => hrx (Or.inl h)⟩
          · exact Or.inr hx

/-- Whatever the loop body leaves in the edge set was there before or was passed in. -/
theorem foldl_toggleEdge_subset :
    ∀ (L : List (Edge K)) (S : List (Edge K)) (x : Edge K),
      x ∈ L.foldl toggleEdge S → x ∈ S ∨ x ∈ L := by
  intro L
  induction L with
  | nil => intro S x h; exact Or.inl h
  | cons e L ih =>
    intro S x h
    rcases ih _ x h with h | h
    · unfold toggleEdge at h
      split_ifs at h
      · exact Or.inl (List.mem_of_mem_erase h)
      · exact Or.inl h
      · rcases List.mem_append.mp h with h | h
        · exact Or.inl h
        · right
          rw [List.mem_singleton.mp h]
          exact List.mem_cons_self _ _
    · exact Or.inr (List.mem_cons_of_mem _ h)

omit [LinearOrderedField K] in
/-- A point has its own witness pair. -/
theorem sameKey_self (p : SupportPoint K) : p.sameKey p = true := by
  simp [SupportPoint.sameKey]

omit [LinearOrderedField K] in
/-- Points with different witness pairs are different. -/
theorem ne_of_sameKey_false (p q : SupportPoint K) (h : p.sameKey q = false) : p ≠ q := by
  intro hpq
  rw [hpq, sameKey_self] at h
  exact Bool.noConfusion h

/-- Storing a point keeps the witness pairs of the stored points pairwise different. -/
theorem add_pairwise (P : Polytope K) (p : SupportPoint K)
    (h : P.sps.Pairwise (fun p q => p.sameKey q = false)) :
    (P.add p).2.sps.Pairwise (fun p q => p.sameKey q = false) := by
  unfold Polytope.add
  dsimp only
  split
  · exact h
  · next hnone =>
    simp only [Polytope.find, List.find?_eq_none] at hnone
    refine List.pairwise_append.mpr ⟨h, List.pairwise_singleton _ _, ?_⟩
    intro a ha b hb
    rw [List.mem_singleton.mp hb]
    simpa using hnone a ha

/-- The edges of the faces of a well-formed polytope join two different stored points. -/
theorem visibleEdges_proper (sp : SupportPoint K) (sps : List (SupportPoint K)) :
    ∀ (l : List (Face K)),
      (∀ f ∈ l, (f.s0 ∈ sps ∧ f.s1 ∈ sps ∧ f.s2 ∈ sps) ∧ f.s0 ≠ f.s1 ∧ f.s1 ≠ f.s2 ∧ f.s2 ≠ f.s0) →
      ∀ e ∈ visibleEdges sp l, e.1 ≠ e.2 ∧ e.1 ∈ sps ∧ e.2 ∈ sps := by
  intro l
  induction l with
  | nil => intro _ e he; simp [visibleEdges] at he
  | cons a l ih =>
    intro hl e he
    have ha := hl a (List.mem_cons_self _ _)
    have hrest := ih (fun f hf => hl f (List.mem_cons_of_mem _ hf))
    unfold visibleEdges at he
    split_ifs at he
    · simp only [List.mem_cons] at he
      rcases he with he | he | he | he
      · rw [he]; exact ⟨ha.2.1, ha.1.1, ha.1.2.1⟩
      · rw [he]; exact ⟨ha.2.2.1, ha.1.2.1, ha.1.2.2⟩
      · rw [he]; exact ⟨ha.2.2.2, ha.1.2.2, ha.1.1⟩
      · exact hrest e he
    · exact hrest e he

/-- `Polytope::insert` keeps the polytope well-formed. -/
theorem insert_wellFormed (N : Num K) (P P1 : Polytope K) (sp : SupportPoint K) (b : Bool)
    (hP : P.WellFormed) (h : P.insert N sp = .ok (b, P1)) : P1.WellFormed := by
  cases b with
  | true => rw [insert_true N P P1 sp h]; exact hP
  | false =>
    obtain ⟨hkey, hsps, _, faces, hall, hperm⟩ := insert_false_spec N P P1 sp h
    have hspnot : sp ∉ P.sps := by
      intro hin
      have := hkey sp hin
      rw [sameKey_self] at this
      exact Bool.noConfusion this
    refine ⟨?_, fun f hf => ?_⟩
    · rw [hsps]
      refine List.pairwise_append.mpr ⟨hP.1, List.pairwise_singleton _ _, ?_⟩
      intro a ha b hb
      rw [List.mem_singleton.mp hb]
      exact hkey a ha
    · rw [hsps]
      rcases List.mem_append.mp (hperm.mem_iff.mp hf) with hnew | hold
      · obtain ⟨e, he, hb⟩ := forall₂_mem_right hall f hnew
        have hev : e ∈ visibleEdges sp P.pq := by
          unfold horizonEdges at he
          rw [scanFaces_snd] at he
          rcases foldl_toggleEdge_subset _ _ _ he with h0 | h0
          · simp at h0
          · exact h0
        obtain ⟨hne, h1, h2⟩ := visibleEdges_proper sp P.sps P.pq hP.2 e hev
        have hs1 : sp ≠ e.1 := fun hh => hspnot (hh ▸ h1)
        have hs2 : sp ≠ e.2 := fun hh => hspnot (hh ▸ h2)
        obtain ⟨n, ⟨_, hform⟩ | ⟨_, hform⟩⟩ := buildFace_form N P1 e.1 e.2 sp f hb
        · rw [hform]
          exact ⟨⟨List.mem_append_left _ h1, by simp, List.mem_append_left _ h2⟩,
            fun hh => hs1 hh.symm, hs2, fun hh => hne hh.symm⟩
        · rw [hform]
          exact ⟨⟨List.mem_append_left _ h1, List.mem_append_left _ h2, by simp⟩,
            hne, fun hh => hs2 hh.symm, hs1⟩
      · have hold2 := hP.2 f (List.mem_of_mem_filter hold)
        exact ⟨⟨List.mem_append_left _ hold2.1.1, List.mem_append_left _ hold2.1.2.1,
          List.mem_append_left _ hold2.1.2.2⟩, hold2.2⟩

/-- Any sequence of calls of `insert` keeps the polytope well-formed. -/
theorem insertAll_wellFormed (N : Num K) :
    ∀ (sps : List (SupportPoint K)) (P P1 : Polytope K), P.WellFormed →
      insertAll N P sps = .ok P1 → P1.WellFormed := by
  intro sps
  induction sps with
  | nil =>
    intro P P1 hP h
    simp only [insertAll, Except.ok.injEq] at h
    rw [← h]; exact hP
  | cons sp rest ih =>
    intro P P1 hP h
    unfold insertAll at h
    split at h
    · simp at h
    · next r hr => exact ih r.2 P1 (insert_wellFormed N P r.2 sp r.1 hP hr) h

/-- The constructor makes a well-formed polytope. -/
theorem ofSimplex_wellFormed (N : Num K) (s : Simplex K) (P : Polytope K)
    (h : Polytope.ofSimplex N s = .ok P) : P.WellFormed := by
  unfold Polytope.ofSimplex at h
  dsimp only at h
  have h4pq : (((((⟨[], [], 0⟩ : Polytope K).add (s.at 0)).2.add (s.at 1)).2.add
      (s.at 2)).2.add (s.at 3)).2.pq = [] := by
    rw [add_pq, add_pq, add_pq, add_pq]
  have h4pw : (((((⟨[], [], 0⟩ : Polytope K).add (s.at 0)).2.add (s.at 1)).2.add
      (s.at 2)).2.add (s.at 3)).2.sps.Pairwise (fun p q => p.sameKey q = false) :=
    add_pairwise _ _ (add_pairwise _ _ (add_pairwise _ _ (add_pairwise _ _ List.Pairwise.nil)))
  generalize (((((⟨[], [], 0⟩ : Polytope K).add (s.at 0)).2.add (s.at 1)).2.add
      (s.at 2)).2.add (s.at 3)).2 = P4 at h h4pq h4pw
  split at h
  · next p0 p1 p2 p3 htake =>
    have hsub : [p0, p1, p2, p3].Sublist P4.sps := htake ▸ List.take_sublist 4 P4.sps
    have hpw := h4pw.sublist hsub
    simp only [List.pairwise_cons, List.mem_cons, List.mem_singleton, forall_eq_or_imp,
      forall_eq, List.not_mem_nil, IsEmpty.forall_iff, implies_true, List.Pairwise.nil,
      and_true] at hpw
    obtain ⟨⟨h01, h02, h03⟩, ⟨h12, h13⟩, h23⟩ := hpw
    have m0 : p0 ∈ P4.sps := hsub.subset (by simp)
    have m1 : p1 ∈ P4.sps := hsub.subset (by simp)
    have m2 : p2 ∈ P4.sps := hsub.subset (by simp)
    have m3 : p3 ∈ P4.sps := hsub.subset (by simp)
    have n01 := ne_of_sameKey_false _ _ h01
    have n02 := ne_of_sameKey_false _ _ h02
    have n03 := ne_of_sameKey_false _ _ h03
    have n12 := ne_of_sameKey_false _ _ h12
    have n13 := ne_of_sameKey_false _ _ h13
    have n23 := ne_of_sameKey_false _ _ h23
    split at h
    · simp at h
    · next f0 hf0 =>
      split at h
      · simp at h
      · next f1 hf1 =>
        split at h
        · simp at h
        · next f2 hf2 =>
          split at h
          · simp at h
          · next f3 hf3 =>
            obtain ⟨_, ⟨_, e0⟩ | ⟨_, e0⟩⟩ := buildFace_form N _ _ _ _ f0 hf0 <;>
            obtain ⟨_, ⟨_, e1⟩ | ⟨_, e1⟩⟩ := buildFace_form N _ _ _ _ f1 hf1 <;>
            obtain ⟨_, ⟨_, e2⟩ | ⟨_, e2⟩⟩ := buildFace_form N _ _ _ _ f2 hf2 <;>
            obtain ⟨_, ⟨_, e3⟩ | ⟨_, e3⟩⟩ := buildFace_form N _ _ _ _ f3 hf3 <;>
            · simp only [Except.ok.injEq] at h
              rw [← h]
              refine ⟨h4pw, fun f hf => ?_⟩
              simp only [Polytope.addFace, mem_pqInsert, h4pq, List.not_mem_nil, or_false] at hf
              show (f.s0 ∈ P4.sps ∧ f.s1 ∈ P4.sps ∧ f.s2 ∈ P4.sps) ∧ _
              rcases hf with hf | hf | hf | hf
              · rw [hf, e3]
                exact ⟨⟨by assumption, by assumption, by assumption⟩, by assumption,
                  by first | assumption | exact Ne.symm ‹_›,
                  by first | assumption | exact Ne.symm ‹_›⟩
              · rw [hf, e2]
                exact ⟨⟨by assumption, by assumption, by assumption⟩, by assumption,
                  by first | assumption | exact Ne.symm ‹_›,
                  by first | assumption | exact Ne.symm ‹_›⟩
              · rw [hf, e1]
                exact ⟨⟨by assumption, by assumption, by assumption⟩, by assumption,
                  by first | assumption | exact Ne.symm ‹_›,
                  by first | assumption | exact Ne.symm ‹_›⟩
              · rw [hf, e0]
                exact ⟨⟨by assumption, by assumption, by assumption⟩, by assumption,
                  by first | assumption | exact Ne.symm ‹_›,
                  by first | assumption | exact Ne.symm ‹_›⟩
  · simp at h

/-- The edges listed by `visibleEdges` are the three edges of each face turned towards the
point. -/
theorem mem_visibleEdges (sp : SupportPoint K) (e : Edge K) :
    ∀ l : List (Face K), e ∈ visibleEdges sp l ↔
      ∃ f ∈ l, f.visibleFrom sp = true ∧
        (e = f.overrideEdge 0 ∨ e = f.overrideEdge 1 ∨ e = f.overrideEdge 2) := by
  intro l
  induction l with
  | nil => simp [visibleEdges]
  | cons a l ih =>
    unfold visibleEdges
    split_ifs with hv
    · simp only [List.mem_cons, ih, exists_eq_or_imp, hv, true_and, or_assoc]
    · simp only [ih, List.mem_cons, exists_eq_or_imp, hv, Bool.false_eq_true, false_and,
        false_or]

omit [LinearOrderedField K] in
/-- There are at most `n * n` witness pairs within range. -/
theorem storedKeys_card_le (n : Nat) (P : Polytope K) : (storedKeys n P).card ≤ n * n := by
  have hsub : storedKeys n P ⊆ Finset.range n ×ˢ Finset.range n := by
    intro k hk
    simp only [storedKeys, Finset.mem_filter] at hk
    simp only [Finset.mem_product, Finset.mem_range]
    exact hk.2
  calc (storedKeys n P).card ≤ (Finset.range n ×ˢ Finset.range n).card :=
        Finset.card_le_card hsub
    _ = n * n := by simp

/-- A call of `insert` that returns `false` for a point within range stores one more
witness pair. -/
theorem insert_false_keys (N : Num K) (n : Nat) (P P1 : Polytope K) (sp : SupportPoint K)
    (hA : sp.indexA < n) (hB : sp.indexB < n) (h : P.insert N sp = .ok (false, P1)) :
    (storedKeys n P1).card = (storedKeys n P).card + 1 := by
  obtain ⟨hkey, hsps, _⟩ := insert_false_spec N P P1 sp h
  have hnew : (sp.indexA, sp.indexB) ∉ storedKeys n P := by
    intro hin
    simp only [storedKeys, Finset.mem_filter, List.mem_toFinset, List.mem_map] at hin
    obtain ⟨⟨q, hq, hqk⟩, _⟩ := hin
    have := hkey q hq
    simp only [Prod.mk.injEq] at hqk
    simp [SupportPoint.sameKey, hqk.1, hqk.2] at this
  have heq : storedKeys n P1 = insert (sp.indexA, sp.indexB) (storedKeys n P) := by
    ext k
    simp only [storedKeys, hsps, List.map_append, List.map_cons, List.map_nil,
      List.toFinset_append, Finset.mem_filter, Finset.mem_union, List.mem_toFinset,
      List.mem_map, List.toFinset_cons, List.toFinset_nil, Finset.mem_insert,
      Finset.not_mem_empty, or_false]
    constructor
    · rintro ⟨h1 | h1, h2⟩
      · exact Or.inr ⟨h1, h2⟩
      · exact Or.inl h1
    · rintro (h1 | ⟨h1, h2⟩)
      · rw [h1]; exact ⟨Or.inr rfl, hA, hB⟩
      · exact ⟨Or.inl h1, h2⟩
  rw [heq, Finset.card_insert_of_not_mem hnew]

/-- Without NaN `insert` either returns or meets an empty face set. -/
theorem insert_result (N : Num K) (hnan : ∀ x, N.isnan x = false) (P : Polytope K)
    (sp : SupportPoint K) :
    (∃ r, P.insert N sp = .ok r) ∨ P.insert N sp = .error Fault.undefinedBehaviour := by
  cases h1 : (P.find sp).isSome with
  | true => exact Or.inl ⟨_, insert_found N P sp h1⟩
  | false =>
    cases hf : P.front with
    | none => exact Or.inr (insert_nofront N P sp h1 hf)
    | some front =>
      by_cases hc : projectedDistance front.normal sp.mink - front.distance < eps
      · exact Or.inl ⟨_, insert_close N P sp front h1 hf hc⟩
      · obtain ⟨P3, h3⟩ := addHorizonFaces_ok N hnan sp (scanFaces sp P.pq []).2
          ⟨P.sps ++ [sp], (scanFaces sp P.pq []).1, P.vertTot + sp.mink⟩
        exact Or.inl ⟨(false, P3), by rw [insert_grow N P sp front h1 hf hc, h3]⟩

/-- Without NaN and with an oracle within range, `epa` with enough rounds for the witness
pairs not yet stored returns, unless it meets an empty face set. -/
theorem epa_result (N : Num K) (hnan : ∀ x, N.isnan x = false) (mesh : Mesh K)
    (hrange : ∀ v, mesh.bestDot v < mesh.uniqueVerts.length) (bodyA bodyB : Rigid K) :
    ∀ (fuel : Nat) (P : Polytope K),
      mesh.uniqueVerts.length * mesh.uniqueVerts.length + 1
        ≤ fuel + (storedKeys mesh.uniqueVerts.length P).card →
      (∃ P1, epa N mesh bodyA bodyB fuel P = .ok (false, P1)) ∨
        epa N mesh bodyA bodyB fuel P = .error Fault.undefinedBehaviour := by
  intro fuel
  induction fuel with
  | zero =>
    intro P h
    have := storedKeys_card_le mesh.uniqueVerts.length P
    omega
  | succ fuel ih =>
    intro P h
    unfold epa
    cases hf : P.front with
    | none => exact Or.inr rfl
    | some front =>
      simp only
      rcases insert_result N hnan P (getSupportPoint mesh bodyA bodyB front.normal) with
        ⟨⟨b, P1⟩, hr⟩ | hr
      · rw [hr]
        cases b with
        | true => exact Or.inl ⟨P1, rfl⟩
        | false =>
          simp only
          apply ih
          have hk := insert_false_keys N mesh.uniqueVerts.length P P1 _
            (hrange _) (hrange _) hr
          omega
      · rw [hr]
        exact Or.inr rfl

/-- The run of `gjk` on two unit cubes ten units apart on the X axis. -/
theorem farRun_eq :
    gjk cubeMesh (bodyAt 0) (bodyAt ⟨10, 0, 0⟩) [] 0
      = .ok ⟨false, [⟨1, 0, ⟨-8, 0, 0⟩⟩], ⟨10, 0, 0⟩, 1, 1, .noProgress⟩ := by
  decide!

/-- The run of `gjk` on the two overlapping cubes. -/
theorem overlapRun_eq : gjk cubeMesh (bodyAt 0) overlapB [] 0 = .ok overlapRun := by
  decide!

/-- The constructor on the simplex of that run. -/
theorem overlapSeed_eq : Polytope.ofSimplex ratNum overlapRun.simplex = .ok overlapSeed := by
  decide!

/-- The run of `epa` on the two overlapping cubes. -/
theorem overlapEpa_eq :
    epa ratNum cubeMesh (bodyAt 0) overlapB 10 overlapSeed = .ok overlapEpa := by
  decide!

/-- The points of that run of `epa`, inserted one after the other. -/
theorem overlapAll_eq : insertAll ratNum overlapSeed overlapPoints = .ok overlapEpa.2 := by
  decide!

/-- The first insertion of that run of `epa`. -/
theorem overlapGrown_eq : overlapSeed.insert ratNum overlapPoint = .ok overlapGrown := by
  decide!

/-- The horizon of that insertion has four edges. -/
theorem overlapHorizon_length : (horizonEdges overlapPoint overlapSeed.pq).length = 4 := by
  decide!

/-- The loop head of `gjk` on the two overlapping cubes after the first round. -/
theorem overlapFirst_eq :
    gjkStateAfter cubeMesh (bodyAt 0) overlapB 1 [] 0 = some overlapFirst := by
  decide!

/-- On the two cubes touching along an edge all 20 rounds of `gjk` go on. -/
theorem edge_goOn : allRoundsGoOn cubeMesh (bodyAt 0) edgeB 20 [] 0 = true := by
  decide!

/-- The loop head of `gjk` on the two cubes touching along an edge, after seven rounds. -/
theorem edgeState_eq : gjkStateAfter cubeMesh (bodyAt 0) edgeB 7 [] 0 = some edgeState := by
  decide!

/-- The run of `gjk` on the cubes `bodyAt 0` and `deepB`. -/
theorem deepRun_eq : gjk cubeMesh (bodyAt 0) deepB [] 0 = .ok deepRun := by
  decide!

/-- The constructor on the simplex of that run. -/
theorem deepSeed_eq : Polytope.ofSimplex ratNum deepRun.simplex = .ok deepSeed := by
  decide!

/-- The run of `epa` on the cubes `bodyAt 0` and `deepB`. -/
theorem deepEpa_eq : epa ratNum cubeMesh (bodyAt 0) deepB 10 deepSeed = .ok deepEpa := by
  decide!

/-- The run of `gjk` on two coincident cubes. -/
theorem sameRun_eq : gjk cubeMesh (bodyAt 0) (bodyAt 0) [] 0 = .ok sameRun := by
  decide!

/-- The seeding and the run of `epa` on the cubes `bodyAt 0` and `lowB`, under `ratNum`. -/
theorem lowEpa_rat :
    Polytope.ofSimplex ratNum lowRun.simplex = .ok lowSeed ∧
    epa ratNum cubeMesh (bodyAt 0) lowB 10 lowSeed = .ok lowEpa := by
  decide!

/-- `hasNaN` under `markNum` flags the normal of the closest face on the cubes `bodyAt 0`
and `lowB`. -/
theorem lowFront_nan : hasNaN markNum lowFront.normal = true := by
  decide!

/-- The cross product of two edges of a triangle in the plane `y = -1` is long enough for
`buildFace`. -/
theorem unitTriangle_length :
    (eps : ℚ) ≤ length2 (cross ((⟨0, -1, 1⟩ : Vec3 ℚ) - ⟨0, -1, 0⟩) (⟨1, -1, 0⟩ - ⟨0, -1, 0⟩)) := by
  decide!

/-- What `initialize` makes of the result of `collide`. -/
theorem initialize_of_collide (N : Num K) (mesh : Mesh K)
    (barycentric : Polytope K → Rigid K → Rigid K → Vec3 K × Vec3 K) (fuel : Nat)
    (M : Manifold K) (r : Int × Rigid K × Rigid K × (Nat → Contact K))
    (h : collide N mesh barycentric fuel M.bodyA M.bodyB M.contacts = .ok r) :
    Manifold.initialize N mesh barycentric fuel M
      = .ok (decide (r.1 > 0), ⟨r.2.1, r.2.2.1, N.sqrt (M.bodyA.friction * M.bodyB.friction),
          r.1, initContacts N r.1.toNat r.2.2.2⟩) := by
  unfold Manifold.initialize
  rw [h]

/-- The sum of the vectors of a list of points with one more point at its end. -/
theorem minkSum_append_single (l : List (SupportPoint K)) (p : SupportPoint K) :
    minkSum (l ++ [p]) = minkSum l + p.mink := by
  induction l with
  | nil =>
    ext <;> simp [minkSum]
  | cons a l ih =>
    show a.mink + minkSum (l ++ [p]) = a.mink + minkSum l + p.mink
    rw [ih]
    ext <;> simp only [Vec3.add_x, Vec3.add_y, Vec3.add_z] <;> ring

/-- After `n` calls, `Polytope::add` has stored at most `n` points, and when it has stored
`n` the running sum is the sum of the stored points. -/
theorem add_count (Q : Polytope K) (p : SupportPoint K) (n : Nat)
    (h : Q.sps.length ≤ n ∧ (Q.sps.length = n → Q.vertTot = minkSum Q.sps)) :
    (Q.add p).2.sps.length ≤ n + 1 ∧
      ((Q.add p).2.sps.length = n + 1 → (Q.add p).2.vertTot = minkSum (Q.add p).2.sps) := by
  unfold Polytope.add
  dsimp only
  split
  · refine ⟨Nat.le_succ_of_le h.1, fun hl => ?_⟩
    have hl1 : Q.sps.length = n + 1 := hl
    have := h.1
    omega
  · refine ⟨by simp only [List.length_append, List.length_singleton]; omega, fun hl => ?_⟩
    simp only [List.length_append, List.length_singleton] at hl
    rw [minkSum_append_single, h.2 (by omega)]

/-- The constructor returns a polytope with four stored points whose running sum is the sum
of these points. -/
theorem ofSimplex_sum (N : Num K) (s : Simplex K) (P : Polytope K)
    (h : Polytope.ofSimplex N s = .ok P) :
    P.sps.length = 4 ∧ P.vertTot = minkSum P.sps := by
  unfold Polytope.ofSimplex at h
  dsimp only at h
  have h4 := add_count _ (s.at 3) 3 (add_count _ (s.at 2) 2 (add_count _ (s.at 1) 1
    (add_count (⟨[], [], 0⟩ : Polytope K) (s.at 0) 0 ⟨Nat.le_refl _, fun _ => rfl⟩)))
  generalize (((((⟨[], [], 0⟩ : Polytope K).add (s.at 0)).2.add (s.at 1)).2.add
      (s.at 2)).2.add (s.at 3)).2 = P4 at h h4
  split at h
  · next p0 p1 p2 p3 htake =>
    have hlen : P4.sps.length = 4 := by
      have := congrArg List.length htake
      simp only [List.length_take, List.length_cons, List.length_nil] at this
      omega
    split at h
    · simp at h
    · next f0 hf0 =>
      split at h
      · simp at h
      · next f1 hf1 =>
        split at h
        · simp at h
        · next f2 hf2 =>
          split at h
          · simp at h
          · next f3 hf3 =>
            simp only [Except.ok.injEq] at h
            subst h
            exact ⟨hlen, h4.2 hlen⟩
  · simp at h

/-- `Polytope::insert` keeps the running sum equal to the sum of the stored points. -/
theorem insert_sum (N : Num K) (P P1 : Polytope K) (sp : SupportPoint K) (b : Bool)
    (hP : P.vertTot = minkSum P.sps) (h : P.insert N sp = .ok (b, P1)) :
    P.sps.length ≤ P1.sps.length ∧ P1.vertTot = minkSum P1.sps := by
  cases b with
  | true => rw [insert_true N P P1 sp h]; exact ⟨Nat.le_refl _, hP⟩
  | false =>
    obtain ⟨_, hsps, htot, _⟩ := insert_false_spec N P P1 sp h
    rw [hsps, htot, minkSum_append_single, hP]
    exact ⟨by simp, rfl⟩

/-- Any sequence of calls of `insert` keeps the running sum equal to the sum of the stored
points. -/
theorem insertAll_sum (N : Num K) :
    ∀ (sps : List (SupportPoint K)) (P P1 : Polytope K), P.vertTot = minkSum P.sps →
      insertAll N P sps = .ok P1 → P.sps.length ≤ P1.sps.length ∧ P1.vertTot = minkSum P1.sps := by
  intro sps
  induction sps with
  | nil =>
    intro P P1 hP h
    simp only [insertAll, Except.ok.injEq] at h
    rw [← h]; exact ⟨Nat.le_refl _, hP⟩
  | cons sp rest ih =>
    intro P P1 hP h
    unfold insertAll at h
    split at h
    · simp at h
    · next r hr =>
      obtain ⟨h1, h2⟩ := insert_sum N P r.2 sp r.1 hP hr
      obtain ⟨h3, h4⟩ := ih r.2 P1 h2 h
      exact ⟨Nat.le_trans h1 h3, h4⟩

/-- What `initialize` returns on the two overlapping cubes: one contact. -/
theorem overlapInit_eq :
    Manifold.initialize ratNum cubeMesh noBarycentric 10 overlapManifold = .ok overlapInit ∧
    ((0 : Nat) : Int) < overlapInit.2.numContacts := by
  obtain ⟨r, hr, h1, _⟩ := collide_eq ratNum cubeMesh noBarycentric 10
    (bodyAt 0) overlapB (fun _ => zeroContact) overlapRun overlapSeed overlapEpa.2
    overlapEpa.1 _ overlapRun_eq rfl overlapSeed_eq overlapEpa_eq rfl
  have hI := initialize_of_collide ratNum cubeMesh noBarycentric 10 overlapManifold r hr
  refine ⟨?_, ?_⟩
  · rw [overlapInit, hI]
    rfl
  · have : overlapInit.2.numContacts = r.1 := by
      rw [overlapInit, hI]
      rfl
    rw [this, h1]
    decide

/-- The tangent frame of the contact that `initialize` makes on the two overlapping cubes. -/
theorem overlapInit_frame :
    (overlapInit.2.contacts 0).normal = ⟨-1, 0, 0⟩ ∧ (overlapInit.2.contacts 0).t1 = ⟨0, 1, 0⟩ ∧
    (overlapInit.2.contacts 0).t2 = ⟨0, 0, 1⟩ := by
  decide!

end Lemmas

section Claims
variable {K : Type} [LinearOrderedField K]

/-- C1: when `gjk` reports no intersection, `Manifold::collide` returns 0 and hands back
both bodies (their positions in particular) and the contact array as they were. -/
theorem collide_no_intersection (N : Num K) (mesh : Mesh K)
    (barycentric : Polytope K → Rigid K → Rigid K → Vec3 K × Vec3 K) (fuel : Nat)
    (bodyA bodyB : Rigid K) (contacts : Nat → Contact K) (dir0 : Vec3 K) (run : GjkRun K)
    (hgjk : gjk mesh bodyA bodyB [] dir0 = .ok run) (hno : run.collided = false) :
    collide N mesh barycentric fuel bodyA bodyB contacts = .ok (0, bodyA, bodyB, contacts) := by
  rw [gjk_empty_dir] at hgjk
  simp [collide, hgjk, hno]

/-- C1, at two unit cubes ten units apart on the X axis. -/
theorem collide_no_intersection_witness :
    gjk cubeMesh (bodyAt 0) (bodyAt ⟨10, 0, 0⟩) [] 0
        = .ok ⟨false, [⟨1, 0, ⟨-8, 0, 0⟩⟩], ⟨10, 0, 0⟩, 1, 1, .noProgress⟩ ∧
      collide ratNum cubeMesh noBarycentric 5 (bodyAt 0) (bodyAt ⟨10, 0, 0⟩) (fun _ => zeroContact)
        = .ok (0, bodyAt 0, bodyAt ⟨10, 0, 0⟩, fun _ => zeroContact) :=
  ⟨farRun_eq, collide_no_intersection ratNum cubeMesh noBarycentric 5 (bodyAt 0)
    (bodyAt ⟨10, 0, 0⟩) (fun _ => zeroContact) 0
    ⟨false, [⟨1, 0, ⟨-8, 0, 0⟩⟩], ⟨10, 0, 0⟩, 1, 1, .noProgress⟩ farRun_eq rfl⟩

/-- C2: when `gjk` reports intersection, the polytope is built and `epa` returns, then
`Manifold::collide` returns 1, body A is moved by minus normal times distance of the
closest face of the refined polytope, body B keeps its position, and `contacts[0]`
carries that face's normal and distance. -/
theorem collide_intersection (N : Num K) (mesh : Mesh K)
    (barycentric : Polytope K → Rigid K → Rigid K → Vec3 K × Vec3 K) (fuel : Nat)
    (bodyA bodyB : Rigid K) (contacts : Nat → Contact K) (dir0 : Vec3 K) (run : GjkRun K)
    (P0 P : Polytope K) (b : Bool)
    (hgjk : gjk mesh bodyA bodyB [] dir0 = .ok run) (hyes : run.collided = true)
    (hseed : Polytope.ofSimplex N run.simplex = .ok P0)
    (hepa : epa N mesh bodyA bodyB fuel P0 = .ok (b, P)) :
    ∃ front r,
      P.front = some front ∧
      collide N mesh barycentric fuel bodyA bodyB contacts = .ok r ∧
      r.1 = 1 ∧
      r.2.1.position = bodyA.position - Vec3.scale front.distance front.normal ∧
      r.2.2.1.position = bodyB.position ∧
      (r.2.2.2 0).normal = front.normal ∧ (r.2.2.2 0).depth = front.distance := by
  obtain ⟨front, hfront⟩ := epa_front N mesh bodyA bodyB fuel P0 b P hepa
  rw [gjk_empty_dir] at hgjk
  refine ⟨front, ?_⟩
  simp only [collide, hgjk, hyes, hseed, hepa, hfront]
  refine ⟨_, trivial, rfl, rfl, rfl, rfl, ?_, ?_⟩ <;> simp

/-- C2, at two overlapping cubes. -/
theorem collide_intersection_witness :
    gjk cubeMesh (bodyAt 0) overlapB [] 0 = .ok overlapRun ∧ overlapRun.collided = true ∧
    Polytope.ofSimplex ratNum overlapRun.simplex = .ok overlapSeed ∧
    epa ratNum cubeMesh (bodyAt 0) overlapB 10 overlapSeed = .ok overlapEpa ∧
    ∃ front r,
      overlapEpa.2.front = some front ∧
      collide ratNum cubeMesh noBarycentric 10 (bodyAt 0) overlapB (fun _ => zeroContact) = .ok r ∧
      r.1 = 1 ∧
      r.2.1.position = (bodyAt 0).position - Vec3.scale front.distance front.normal ∧
      r.2.2.1.position = overlapB.position ∧
      (r.2.2.2 0).normal = front.normal ∧ (r.2.2.2 0).depth = front.distance :=
  ⟨overlapRun_eq, rfl, overlapSeed_eq, overlapEpa_eq,
    collide_intersection ratNum cubeMesh noBarycentric 10 (bodyAt 0) overlapB
      (fun _ => zeroContact) 0 overlapRun overlapSeed overlapEpa.2 overlapEpa.1
      overlapRun_eq rfl overlapSeed_eq overlapEpa_eq⟩

/-- C3: with a maximising oracle and unit quaternions, `getSupportPoint` returns witness
indices of hull vertices, its vector is the difference of their world positions, and no
difference of world positions of hull vertices lies farther along `dir`. -/
theorem getSupportPoint_farthest (mesh : Mesh K) (bodyA bodyB : Rigid K) (dir : Vec3 K)
    (hmesh : mesh.Maximising) (hA : bodyA.rotation.IsUnit) (hB : bodyB.rotation.IsUnit) :
    (getSupportPoint mesh bodyA bodyB dir).indexA < mesh.uniqueVerts.length ∧
    (getSupportPoint mesh bodyA bodyB dir).indexB < mesh.uniqueVerts.length ∧
    (getSupportPoint mesh bodyA bodyB dir).mink
      = transform mesh (getSupportPoint mesh bodyA bodyB dir).indexA bodyA
        - transform mesh (getSupportPoint mesh bodyA bodyB dir).indexB bodyB ∧
    ∀ i j, i < mesh.uniqueVerts.length → j < mesh.uniqueVerts.length →
      dot (transform mesh i bodyA - transform mesh j bodyB) dir
        ≤ dot (getSupportPoint mesh bodyA bodyB dir).mink dir := by
  refine ⟨(hmesh _).1, (hmesh _).1, rfl, ?_⟩
  intro i j hi hj
  have h1 := (hmesh (bodyA.rotation.inverse.rotate dir)).2 i hi
  have h2 := (hmesh (bodyB.rotation.inverse.rotate (-dir))).2 j hj
  have e1 := dot_transform mesh bodyB hB j (-dir)
  have e2 := dot_transform mesh bodyB hB (mesh.bestDot (bodyB.rotation.inverse.rotate (-dir))) (-dir)
  simp only [dot_neg_right] at e1 e2
  simp only [getSupportPoint, bestDot, dot_sub_left, dot_transform mesh bodyA hA]
  linarith

/-- C3, at the cube in the origin and a turned cube, along `(1, 2, 3)`. -/
theorem getSupportPoint_farthest_witness :
    cubeMesh.Maximising ∧ (bodyAt 0).rotation.IsUnit ∧ edgeB.rotation.IsUnit ∧
    (getSupportPoint cubeMesh (bodyAt 0) edgeB ⟨1, 2, 3⟩).indexA < cubeMesh.uniqueVerts.length ∧
    (getSupportPoint cubeMesh (bodyAt 0) edgeB ⟨1, 2, 3⟩).indexB < cubeMesh.uniqueVerts.length ∧
    (getSupportPoint cubeMesh (bodyAt 0) edgeB ⟨1, 2, 3⟩).mink
      = transform cubeMesh (getSupportPoint cubeMesh (bodyAt 0) edgeB ⟨1, 2, 3⟩).indexA (bodyAt 0)
        - transform cubeMesh (getSupportPoint cubeMesh (bodyAt 0) edgeB ⟨1, 2, 3⟩).indexB edgeB ∧
    ∀ i j, i < cubeMesh.uniqueVerts.length → j < cubeMesh.uniqueVerts.length →
      dot (transform cubeMesh i (bodyAt 0) - transform cubeMesh j edgeB) ⟨1, 2, 3⟩
        ≤ dot (getSupportPoint cubeMesh (bodyAt 0) edgeB ⟨1, 2, 3⟩).mink ⟨1, 2, 3⟩ :=
  ⟨bruteMesh_maximising cubeVerts (by decide),
    (by show (1 : ℚ) * 1 + 0 * 0 + 0 * 0 + 0 * 0 = 1; norm_num),
    (by show (0 : ℚ) * 0 + 1 * 1 + 0 * 0 + 0 * 0 = 1; norm_num),
    getSupportPoint_farthest cubeMesh (bodyAt 0) edgeB ⟨1, 2, 3⟩
      (bruteMesh_maximising cubeVerts (by decide))
      (by show (1 : ℚ) * 1 + 0 * 0 + 0 * 0 + 0 * 0 = 1; norm_num)
      (by show (0 : ℚ) * 0 + 1 * 1 + 0 * 0 + 0 * 0 = 1; norm_num)⟩

/-- C4: from every simplex of at most four points `gjk` returns after at most 20 rounds of
its loop and at most 20 calls of `getSupportPoint`; when none of the 20 rounds reports
containment or fails the progress test, it returns `false`. -/
theorem gjk_at_most_20_rounds (mesh : Mesh K) (bodyA bodyB : Rigid K) (simplex : Simplex K)
    (dir0 : Vec3 K) (hsize : simplex.size ≤ 4) :
    ∃ run, gjk mesh bodyA bodyB simplex dir0 = .ok run ∧ run.rounds ≤ 20 ∧ run.calls ≤ 20 ∧
      (allRoundsGoOn mesh bodyA bodyB 20 simplex dir0 = true →
        run.collided = false ∧ run.rounds = 20 ∧ run.calls = 20) := by
  obtain ⟨run, h, hr, hc, hall⟩ := gjkLoop_ok mesh bodyA bodyB 20 simplex dir0 0 0 hsize
  refine ⟨run, h, by omega, by omega, fun hgo => ?_⟩
  obtain ⟨h1, _, h3, h4⟩ := hall hgo
  exact ⟨h1, by omega, by omega⟩

/-- C4, at two cubes touching along an edge, where all 20 rounds go on. -/
theorem gjk_at_most_20_rounds_witness :
    Simplex.size ([] : Simplex ℚ) ≤ 4 ∧
    allRoundsGoOn cubeMesh (bodyAt 0) edgeB 20 [] 0 = true ∧
    ∃ run, gjk cubeMesh (bodyAt 0) edgeB [] 0 = .ok run ∧ run.rounds ≤ 20 ∧ run.calls ≤ 20 ∧
      run.collided = false ∧ run.rounds = 20 ∧ run.calls = 20 :=
  ⟨by decide, edge_goOn,
    (gjk_at_most_20_rounds cubeMesh (bodyAt 0) edgeB [] 0 (by decide)).imp
      (fun _ h => ⟨h.1, h.2.1, h.2.2.1, h.2.2.2 edge_goOn⟩)⟩

/-- C7: in every run of `gjk` started on the empty simplex, the simplex has at most four
points at each call of `handleSimplex` and after each `add`; `handleSimplex` never takes
its throwing branch, and `gjk` returns. -/
theorem gjk_simplex_size_invariant (mesh : Mesh K) (bodyA bodyB : Rigid K) (dir0 : Vec3 K)
    (s : Simplex K) (d : Vec3 K) (hreach : GjkReach mesh bodyA bodyB [] dir0 s d) :
    s.size ≤ 4 ∧
    (∃ det s1 d1, handleSimplex s bodyA bodyB d = .ok (det, s1, d1) ∧
      (det = false → (s1.add (getSupportPoint mesh bodyA bodyB d1)).size ≤ 4)) ∧
    ∃ run, gjk mesh bodyA bodyB [] dir0 = .ok run := by
  have hs : s.length ≤ 4 :=
    gjkReach_length mesh bodyA bodyB [] dir0 (Nat.zero_le _) s d hreach
  obtain ⟨det, s1, d1, hh, h3, _⟩ := handleSimplex_ok s bodyA bodyB d hs
  obtain ⟨run, hrun, _⟩ := gjkLoop_ok mesh bodyA bodyB 20 [] dir0 0 0 (Nat.zero_le _)
  refine ⟨hs, ⟨det, s1, d1, hh, fun hd => ?_⟩, run, hrun⟩
  have := h3 hd
  simp only [Simplex.size, Simplex.add, List.length_append, List.length_singleton]
  omega

/-- C7, at the loop head reached after seven rounds on two cubes touching along an edge. -/
theorem gjk_simplex_size_invariant_witness :
    GjkReach cubeMesh (bodyAt 0) edgeB [] 0 edgeState.1 edgeState.2 ∧
    edgeState.1.size = 4 ∧
    (∃ det s1 d1, handleSimplex edgeState.1 (bodyAt 0) edgeB edgeState.2 = .ok (det, s1, d1) ∧
      (det = false → (s1.add (getSupportPoint cubeMesh (bodyAt 0) edgeB d1)).size ≤ 4)) ∧
    ∃ run, gjk cubeMesh (bodyAt 0) edgeB [] 0 = .ok run :=
  ⟨gjkStateAfter_reach cubeMesh (bodyAt 0) edgeB [] 0 7 [] 0 edgeState GjkReach.start
      edgeState_eq,
    rfl,
    (gjk_simplex_size_invariant cubeMesh (bodyAt 0) edgeB 0 edgeState.1 edgeState.2
      (gjkStateAfter_reach cubeMesh (bodyAt 0) edgeB [] 0 7 [] 0 edgeState GjkReach.start
        edgeState_eq)).2⟩

/-- C5: when `gjk` returns `false` through the progress test and the oracle maximises,
every difference of hull vertices has a negative dot product with the final direction;
hence the origin is no convex combination of those differences, and no point is a convex
combination of the hull vertices of both bodies. -/
theorem gjk_no_progress_separates (mesh : Mesh K) (bodyA bodyB : Rigid K) (simplex : Simplex K)
    (dir0 : Vec3 K) (run : GjkRun K) (hmesh : mesh.Maximising) (hA : bodyA.rotation.IsUnit)
    (hB : bodyB.rotation.IsUnit) (hrun : gjk mesh bodyA bodyB simplex dir0 = .ok run)
    (hexit : run.exit = .noProgress) :
    run.collided = false ∧
    (∀ i j, i < mesh.uniqueVerts.length → j < mesh.uniqueVerts.length →
      dot (transform mesh i bodyA - transform mesh j bodyB) run.dir < 0) ∧
    ¬ InHull (minkVertex mesh bodyA bodyB) 0 ∧
    ∀ x, ¬ (InHull (worldVertex mesh bodyA) x ∧ InHull (worldVertex mesh bodyB) x) := by
  obtain ⟨hfalse, hp⟩ := gjkLoop_noProgress mesh bodyA bodyB 20 simplex dir0 0 0 run hrun hexit
  have hall : ∀ i j, i < mesh.uniqueVerts.length → j < mesh.uniqueVerts.length →
      dot (transform mesh i bodyA - transform mesh j bodyB) run.dir < 0 := fun i j hi hj =>
    lt_of_le_of_lt (getSupportPoint_max mesh bodyA bodyB run.dir hmesh hA hB i j hi hj) hp
  refine ⟨hfalse, hall, ?_, ?_⟩
  · rintro ⟨terms, hterms, hsum, hcombo⟩
    have hle := dot_combo_le run.dir
      (dot (getSupportPoint mesh bodyA bodyB run.dir).mink run.dir) terms (fun t ht => by
        obtain ⟨h0, i, j, hi, hj, hpt⟩ := hterms t ht
        rw [hpt]
        exact ⟨h0, getSupportPoint_max mesh bodyA bodyB run.dir hmesh hA hB i j hi hj⟩)
    rw [hsum, hcombo, dot_zero_left, mul_one] at hle
    exact absurd hp (not_lt.mpr hle)
  · rintro x ⟨⟨ta, hta, hsa, hca⟩, ⟨tb, htb, hsb, hcb⟩⟩
    have hle := dot_combo_le run.dir
      (dot (transform mesh (bestDot mesh bodyA run.dir) bodyA) run.dir) ta (fun t ht => by
        obtain ⟨h0, i, hi, hpt⟩ := hta t ht
        rw [hpt]
        exact ⟨h0, transform_le_support mesh bodyA hmesh hA run.dir i hi⟩)
    have hge := dot_combo_ge run.dir
      (dot (transform mesh (bestDot mesh bodyB (-run.dir)) bodyB) run.dir) tb (fun t ht => by
        obtain ⟨h0, j, hj, hpt⟩ := htb t ht
        have := transform_le_support mesh bodyB hmesh hB (-run.dir) j hj
        simp only [dot_neg_right] at this
        rw [hpt]
        exact ⟨h0, by linarith⟩)
    rw [hsa, hca, mul_one] at hle
    rw [hsb, hcb, mul_one] at hge
    have hp2 : dot (getSupportPoint mesh bodyA bodyB run.dir).mink run.dir
        = dot (transform mesh (bestDot mesh bodyA run.dir) bodyA) run.dir
          - dot (transform mesh (bestDot mesh bodyB (-run.dir)) bodyB) run.dir := by
      simp only [getSupportPoint, dot_sub_left]
    rw [hp2] at hp
    linarith

/-- C5, at two unit cubes ten units apart on the X axis. -/
theorem gjk_no_progress_separates_witness :
    cubeMesh.Maximising ∧ (bodyAt 0).rotation.IsUnit ∧ (bodyAt ⟨10, 0, 0⟩).rotation.IsUnit ∧
    gjk cubeMesh (bodyAt 0) (bodyAt ⟨10, 0, 0⟩) [] 0
      = .ok ⟨false, [⟨1, 0, ⟨-8, 0, 0⟩⟩], ⟨10, 0, 0⟩, 1, 1, .noProgress⟩ ∧
    (∀ i j, i < cubeMesh.uniqueVerts.length → j < cubeMesh.uniqueVerts.length →
      dot (transform cubeMesh i (bodyAt 0) - transform cubeMesh j (bodyAt ⟨10, 0, 0⟩))
        ⟨10, 0, 0⟩ < 0) ∧
    ¬ InHull (minkVertex cubeMesh (bodyAt 0) (bodyAt ⟨10, 0, 0⟩)) 0 ∧
    ∀ x, ¬ (InHull (worldVertex cubeMesh (bodyAt 0)) x ∧
      InHull (worldVertex cubeMesh (bodyAt ⟨10, 0, 0⟩)) x) :=
  ⟨bruteMesh_maximising cubeVerts (by decide),
    (by show (1 : ℚ) * 1 + 0 * 0 + 0 * 0 + 0 * 0 = 1; norm_num),
    (by show (1 : ℚ) * 1 + 0 * 0 + 0 * 0 + 0 * 0 = 1; norm_num),
    farRun_eq,
    (gjk_no_progress_separates cubeMesh (bodyAt 0) (bodyAt ⟨10, 0, 0⟩) [] 0
      ⟨false, [⟨1, 0, ⟨-8, 0, 0⟩⟩], ⟨10, 0, 0⟩, 1, 1, .noProgress⟩
      (bruteMesh_maximising cubeVerts (by decide))
      (by show (1 : ℚ) * 1 + 0 * 0 + 0 * 0 + 0 * 0 = 1; norm_num)
      (by show (1 : ℚ) * 1 + 0 * 0 + 0 * 0 + 0 * 0 = 1; norm_num)
      farRun_eq rfl).2⟩

/-- C6, as stated, fails: on this simplex `simplex4` reports containment although the
origin lies beyond the face ABC, which `simplex4` does not test. -/
theorem simplex4_true_origin_outside :
    (simplex4 [⟨0, 0, ⟨0, -1, -1⟩⟩, ⟨1, 0, ⟨-1, 0, -1⟩⟩, ⟨2, 0, ⟨-1, -1, 0⟩⟩, ⟨3, 0, ⟨-1, -1, -1⟩⟩]
      (bodyAt 0) (bodyAt 0) 0).1 = true ∧
    ¬ InTetra (⟨0, -1, -1⟩ : Vec3 ℚ) ⟨-1, 0, -1⟩ ⟨-1, -1, 0⟩ ⟨-1, -1, -1⟩ 0 := by
  refine ⟨by decide!, ?_⟩
  rintro ⟨wa, wb, wc, wd, ha, hb, hc, hd, hsum, hv⟩
  have hx := congrArg Vec3.x hv
  have hy := congrArg Vec3.y hv
  have hz := congrArg Vec3.z hv
  simp only [Vec3.add_x, Vec3.scale_x, Vec3.zero_x, Vec3.add_y, Vec3.scale_y, Vec3.zero_y,
    Vec3.add_z, Vec3.scale_z, Vec3.zero_z] at hx hy hz
  linarith

/-- C6, amended: for a simplex with points A, B, C, D such that the origin is not on the far
side of the triangle ABC from D (with `n = cross(B - C, A - C)`: `dot(n, -C) ≥ 0` and
`dot(n, D - C) > 0`), if `simplex4` reports containment then the origin lies in the closed
tetrahedron of the four points. -/
theorem simplex4_contains_origin (pa pb pc pd : SupportPoint K) (bodyA bodyB : Rigid K)
    (dir : Vec3 K)
    (hside : 0 ≤ dot (cross (pb.mink - pc.mink) (pa.mink - pc.mink)) (-pc.mink))
    (hapex : 0 < dot (cross (pb.mink - pc.mink) (pa.mink - pc.mink)) (pd.mink - pc.mink))
    (h : (simplex4 [pa, pb, pc, pd] bodyA bodyB dir).1 = true) :
    InTetra pa.mink pb.mink pc.mink pd.mink 0 := by
  obtain ⟨h1, h2, h3⟩ := simplex4_true pa pb pc pd bodyA bodyB dir h
  obtain ⟨hsum, hzero⟩ := tetra_weights pa.mink pb.mink pc.mink pd.mink
  exact inTetra_of_weights _ _ _ _ _ _ _ _ _ hapex (by linarith) (by linarith) (by linarith)
    hside hsum hzero

/-- C6 amended, at a tetrahedron around the origin. -/
theorem simplex4_contains_origin_witness :
    (0 : ℚ) ≤ dot (cross ((⟨1, -1, -1⟩ : Vec3 ℚ) - ⟨-1, -1, -1⟩) (⟨0, 1, -1⟩ - ⟨-1, -1, -1⟩))
      (-⟨-1, -1, -1⟩) ∧
    (0 : ℚ) < dot (cross ((⟨1, -1, -1⟩ : Vec3 ℚ) - ⟨-1, -1, -1⟩) (⟨0, 1, -1⟩ - ⟨-1, -1, -1⟩))
      (⟨0, 0, 1⟩ - ⟨-1, -1, -1⟩) ∧
    (simplex4 [⟨0, 0, ⟨0, 1, -1⟩⟩, ⟨1, 0, ⟨1, -1, -1⟩⟩, ⟨2, 0, ⟨-1, -1, -1⟩⟩, ⟨3, 0, ⟨0, 0, 1⟩⟩]
      (bodyAt 0) (bodyAt 0) 0).1 = true ∧
    InTetra (⟨0, 1, -1⟩ : Vec3 ℚ) ⟨1, -1, -1⟩ ⟨-1, -1, -1⟩ ⟨0, 0, 1⟩ 0 := by
  have hside : (0 : ℚ) ≤ dot (cross ((⟨1, -1, -1⟩ : Vec3 ℚ) - ⟨-1, -1, -1⟩)
      (⟨0, 1, -1⟩ - ⟨-1, -1, -1⟩)) (-⟨-1, -1, -1⟩) := by decide!
  have hapex : (0 : ℚ) < dot (cross ((⟨1, -1, -1⟩ : Vec3 ℚ) - ⟨-1, -1, -1⟩)
      (⟨0, 1, -1⟩ - ⟨-1, -1, -1⟩)) (⟨0, 0, 1⟩ - ⟨-1, -1, -1⟩) := by decide!
  have h : (simplex4 [⟨0, 0, ⟨0, 1, -1⟩⟩, ⟨1, 0, ⟨1, -1, -1⟩⟩, ⟨2, 0, ⟨-1, -1, -1⟩⟩,
      ⟨3, 0, ⟨0, 0, 1⟩⟩] (bodyAt 0) (bodyAt 0) (0 : Vec3 ℚ)).1 = true := by decide!
  exact ⟨hside, hapex, h,
    simplex4_contains_origin ⟨0, 0, ⟨0, 1, -1⟩⟩ ⟨1, 0, ⟨1, -1, -1⟩⟩ ⟨2, 0, ⟨-1, -1, -1⟩⟩
      ⟨3, 0, ⟨0, 0, 1⟩⟩ (bodyAt 0) (bodyAt 0) 0 hside hapex h⟩

/-- C8 fails on the code: in the constructor run for the cubes `bodyAt 0` and `deepB`,
`buildFace` reverses the normal to `(0, 0, -1)` and keeps the distance `-7/3` computed with
the normal before the reversal, while the stored normal dotted with the first vertex is
`7/3`; `collide` then reports that face with depth `-7/3`. -/
theorem buildFace_flip_keeps_distance :
    Polytope.buildFace ratNum
        ⟨[⟨7, 0, ⟨1, 3 / 2, 5 / 3⟩⟩, ⟨0, 7, ⟨-3, -5 / 2, -7 / 3⟩⟩, ⟨1, 6, ⟨1, -5 / 2, -7 / 3⟩⟩,
          ⟨2, 4, ⟨-1, 3 / 2, -7 / 3⟩⟩], [], ⟨-2, -2, -16 / 3⟩⟩
        ⟨0, 7, ⟨-3, -5 / 2, -7 / 3⟩⟩ ⟨1, 6, ⟨1, -5 / 2, -7 / 3⟩⟩ ⟨2, 4, ⟨-1, 3 / 2, -7 / 3⟩⟩
      = .ok ⟨⟨0, 0, -1⟩, -7 / 3, ⟨0, 7, ⟨-3, -5 / 2, -7 / 3⟩⟩, ⟨2, 4, ⟨-1, 3 / 2, -7 / 3⟩⟩,
          ⟨1, 6, ⟨1, -5 / 2, -7 / 3⟩⟩⟩ ∧
    dot (⟨0, 0, -1⟩ : Vec3 ℚ) ⟨-3, -5 / 2, -7 / 3⟩ = 7 / 3 ∧
    (Polytope.ofSimplex ratNum
        (okOr ⟨false, [], 0, 0, 0, .exhausted⟩ (gjk cubeMesh (bodyAt 0) deepB [] 0)).simplex).toOption.map
      (fun P => P.front)
      = some (some ⟨⟨0, 0, -1⟩, -7 / 3, ⟨0, 7, ⟨-3, -5 / 2, -7 / 3⟩⟩,
          ⟨2, 4, ⟨-1, 3 / 2, -7 / 3⟩⟩, ⟨1, 6, ⟨1, -5 / 2, -7 / 3⟩⟩⟩) ∧
    (collide ratNum cubeMesh noBarycentric 10 (bodyAt 0) deepB (fun _ => zeroContact)).toOption.map
      (fun r => ((r.2.2.2 0).normal, (r.2.2.2 0).depth, r.2.1.position))
      = some (⟨0, 0, -1⟩, -7 / 3, ⟨0, 0, -7 / 3⟩) := by
  have hfront : deepEpa.2.front = some ⟨⟨0, 0, -1⟩, -7 / 3, ⟨0, 7, ⟨-3, -5 / 2, -7 / 3⟩⟩,
      ⟨2, 4, ⟨-1, 3 / 2, -7 / 3⟩⟩, ⟨1, 6, ⟨1, -5 / 2, -7 / 3⟩⟩⟩ := rfl
  obtain ⟨r, hr, _, hpos, hn, hd⟩ := collide_eq ratNum cubeMesh noBarycentric 10 (bodyAt 0)
    deepB (fun _ => zeroContact) deepRun deepSeed deepEpa.2 deepEpa.1 _ deepRun_eq rfl
    deepSeed_eq deepEpa_eq hfront
  refine ⟨by decide!, by decide!, ?_, ?_⟩
  · rw [deepRun_eq]
    show (Polytope.ofSimplex ratNum deepRun.simplex).toOption.map (fun P => P.front) = _
    rw [deepSeed_eq]
    rfl
  · rw [hr]
    show some ((r.2.2.2 0).normal, (r.2.2.2 0).depth, r.2.1.position) = _
    rw [hn, hd, hpos]
    decide!

/-- C9: after the constructor and any sequence of calls of `insert`, every face `f` has
`dot(f.normal, f.sps[0].mink - ref) ≥ 0`, where `ref` is the origin, or the centroid
`vertTot / sps.size()` when the plane of the face passes within `1e-6` of the origin. -/
theorem polytope_faces_outward (N : Num K) (simplex : Simplex K)
    (points : List (SupportPoint K)) (P0 P : Polytope K)
    (hseed : Polytope.ofSimplex N simplex = .ok P0) (hins : insertAll N P0 points = .ok P) :
    ∀ f ∈ P.pq, 0 ≤ dot f.normal (f.s0.mink -
      (if |dot f.normal f.s0.mink| < eps then P.vertTot.divs (P.sps.length : K) else 0)) :=
  (insertAll_wound N points P0 P (ofSimplex_wound N simplex P0 hseed) hins).2

/-- C9, at the polytope that `epa` builds on two overlapping cubes: three insertions and a
converged one. -/
theorem polytope_faces_outward_witness :
    Polytope.ofSimplex ratNum overlapRun.simplex = .ok overlapSeed ∧
    insertAll ratNum overlapSeed overlapPoints = .ok overlapEpa.2 ∧
    overlapEpa.2.pq.length = 10 ∧
    ∀ f ∈ overlapEpa.2.pq, 0 ≤ dot f.normal (f.s0.mink -
      (if |dot f.normal f.s0.mink| < eps
        then overlapEpa.2.vertTot.divs (overlapEpa.2.sps.length : ℚ) else 0)) :=
  ⟨overlapSeed_eq, overlapAll_eq, rfl,
    polytope_faces_outward ratNum overlapRun.simplex overlapPoints overlapSeed overlapEpa.2
      overlapSeed_eq overlapAll_eq⟩

/-- C10: on a polytope with a face, and without NaN, `insert` returns; it returns `true`
exactly when the witness pair of the point is stored already or the point lies less than
`1e-6` beyond the plane of the closest face, and then points, sum and faces are unchanged;
otherwise it returns `false`. -/
theorem insert_converged_iff (N : Num K) (hnan : ∀ x, N.isnan x = false) (P : Polytope K)
    (sp : SupportPoint K) (front : Face K) (hfront : P.front = some front) :
    ∃ b P1, P.insert N sp = .ok (b, P1) ∧
      (b = true ↔ ((∃ q ∈ P.sps, q.indexA = sp.indexA ∧ q.indexB = sp.indexB) ∨
        dot front.normal sp.mink - front.distance < eps)) ∧
      (b = true → P1.sps = P.sps ∧ P1.vertTot = P.vertTot ∧ P1.pq = P.pq) := by
  have hkey : (P.find sp).isSome = true ↔
      ∃ q ∈ P.sps, q.indexA = sp.indexA ∧ q.indexB = sp.indexB := by
    simp [Polytope.find, SupportPoint.sameKey]
  cases h1 : (P.find sp).isSome with
  | true =>
    refine ⟨true, P, insert_found N P sp h1, ?_, fun _ => ⟨rfl, rfl, rfl⟩⟩
    exact ⟨fun _ => Or.inl (hkey.mp h1), fun _ => rfl⟩
  | false =>
    have hnot : ¬ ∃ q ∈ P.sps, q.indexA = sp.indexA ∧ q.indexB = sp.indexB := by
      intro h; rw [← hkey, h1] at h; simp at h
    by_cases hc : projectedDistance front.normal sp.mink - front.distance < eps
    · refine ⟨true, P, insert_close N P sp front h1 hfront hc, ?_, fun _ => ⟨rfl, rfl, rfl⟩⟩
      exact ⟨fun _ => Or.inr hc, fun _ => rfl⟩
    · obtain ⟨P3, h3⟩ := addHorizonFaces_ok N hnan sp (scanFaces sp P.pq []).2
        ⟨P.sps ++ [sp], (scanFaces sp P.pq []).1, P.vertTot + sp.mink⟩
      refine ⟨false, P3, ?_, ?_, fun h => by simp at h⟩
      · rw [insert_grow N P sp front h1 hfront hc, h3]
      · constructor
        · intro h; simp at h
        · rintro (h | h)
          · exact absurd h hnot
          · exact absurd h hc

/-- C10, at the first point that `epa` hands to `insert` on two overlapping cubes. -/
theorem insert_converged_iff_witness :
    (∀ x, ratNum.isnan x = false) ∧
    overlapSeed.front = some ⟨⟨2 / 3, 2 / 3, 1 / 3⟩, -8 / 9, ⟨2, 4, ⟨1, 3 / 2, -7 / 3⟩⟩,
      ⟨6, 1, ⟨-1, 3 / 2, 5 / 3⟩⟩, ⟨4, 0, ⟨1, -1 / 2, 5 / 3⟩⟩⟩ ∧
    ∃ b P1, overlapSeed.insert ratNum ⟨7, 0, ⟨3, 3 / 2, 5 / 3⟩⟩ = .ok (b, P1) ∧
      (b = true ↔ ((∃ q ∈ overlapSeed.sps, q.indexA = 7 ∧ q.indexB = 0) ∨
        dot (⟨2 / 3, 2 / 3, 1 / 3⟩ : Vec3 ℚ) ⟨3, 3 / 2, 5 / 3⟩ - -8 / 9 < eps)) ∧
      (b = true → P1.sps = overlapSeed.sps ∧ P1.vertTot = overlapSeed.vertTot ∧
        P1.pq = overlapSeed.pq) :=
  ⟨fun _ => rfl, rfl,
    insert_converged_iff ratNum (fun _ => rfl) overlapSeed ⟨7, 0, ⟨3, 3 / 2, 5 / 3⟩⟩
      ⟨⟨2 / 3, 2 / 3, 1 / 3⟩, -8 / 9, ⟨2, 4, ⟨1, 3 / 2, -7 / 3⟩⟩,
        ⟨6, 1, ⟨-1, 3 / 2, 5 / 3⟩⟩, ⟨4, 0, ⟨1, -1 / 2, 5 / 3⟩⟩⟩ rfl⟩

/-- C13: for every contact produced in `Manifold::initialize` and each direction `d` among
its normal, `t1` and `t2`, the row of body A is `(d, cross(rA, d))` and the row of body B is
`(-d, -cross(rB, d))`. -/
theorem initialize_jacobians (N : Num K) (mesh : Mesh K)
    (barycentric : Polytope K → Rigid K → Rigid K → Vec3 K × Vec3 K) (fuel : Nat)
    (M M1 : Manifold K) (b : Bool) (h : Manifold.initialize N mesh barycentric fuel M = .ok (b, M1))
    (i : Nat) (hi : (i : Int) < M1.numContacts) :
    (M1.contacts i).JAn = ⟨(M1.contacts i).normal, cross (M1.contacts i).rA (M1.contacts i).normal⟩ ∧
    (M1.contacts i).JBn
      = ⟨-(M1.contacts i).normal, -cross (M1.contacts i).rB (M1.contacts i).normal⟩ ∧
    (M1.contacts i).JAt1 = ⟨(M1.contacts i).t1, cross (M1.contacts i).rA (M1.contacts i).t1⟩ ∧
    (M1.contacts i).JBt1 = ⟨-(M1.contacts i).t1, -cross (M1.contacts i).rB (M1.contacts i).t1⟩ ∧
    (M1.contacts i).JAt2 = ⟨(M1.contacts i).t2, cross (M1.contacts i).rA (M1.contacts i).t2⟩ ∧
    (M1.contacts i).JBt2 = ⟨-(M1.contacts i).t2, -cross (M1.contacts i).rB (M1.contacts i).t2⟩ := by
  obtain ⟨c, hc⟩ := initialize_contacts N mesh barycentric fuel M M1 b h i hi
  rw [hc]
  exact ⟨rfl, rfl, rfl, rfl, rfl, rfl⟩

/-- C13, at the contact of two overlapping cubes. -/
theorem initialize_jacobians_witness :
    Manifold.initialize ratNum cubeMesh noBarycentric 10 overlapManifold = .ok overlapInit ∧
    ((0 : Nat) : Int) < overlapInit.2.numContacts ∧
    (overlapInit.2.contacts 0).JAn
      = ⟨(overlapInit.2.contacts 0).normal,
          cross (overlapInit.2.contacts 0).rA (overlapInit.2.contacts 0).normal⟩ ∧
    (overlapInit.2.contacts 0).JBn
      = ⟨-(overlapInit.2.contacts 0).normal,
          -cross (overlapInit.2.contacts 0).rB (overlapInit.2.contacts 0).normal⟩ ∧
    (overlapInit.2.contacts 0).JAt1
      = ⟨(overlapInit.2.contacts 0).t1,
          cross (overlapInit.2.contacts 0).rA (overlapInit.2.contacts 0).t1⟩ ∧
    (overlapInit.2.contacts 0).JBt1
      = ⟨-(overlapInit.2.contacts 0).t1,
          -cross (overlapInit.2.contacts 0).rB (overlapInit.2.contacts 0).t1⟩ ∧
    (overlapInit.2.contacts 0).JAt2
      = ⟨(overlapInit.2.contacts 0).t2,
          cross (overlapInit.2.contacts 0).rA (overlapInit.2.contacts 0).t2⟩ ∧
    (overlapInit.2.contacts 0).JBt2
      = ⟨-(overlapInit.2.contacts 0).t2,
          -cross (overlapInit.2.contacts 0).rB (overlapInit.2.contacts 0).t2⟩ :=
  ⟨overlapInit_eq.1, overlapInit_eq.2,
    initialize_jacobians ratNum cubeMesh noBarycentric 10 overlapManifold overlapInit.2
      overlapInit.1 overlapInit_eq.1 0 overlapInit_eq.2⟩

/-- C12 fails on the code: for the unit normal `(0, -1, 0)` the test `dot(normal, up) > 0.95`
picks world-up, whose part orthogonal to the normal is the zero vector; whatever the square
root, the normalised `t1` and `t2` are zero and not of unit length.  `initialize` produces
such a contact for the cubes `bodyAt 0` and `lowB`. -/
theorem initialize_tangent_degenerate :
    length2 (⟨0, -1, 0⟩ : Vec3 ℚ) = 1 ∧
    (∀ (N : Num ℚ) (c : Contact ℚ), c.normal = ⟨0, -1, 0⟩ →
      (initContact N c).t1 = 0 ∧ (initContact N c).t2 = 0 ∧
        length2 (initContact N c).t1 ≠ 1) ∧
    ( Manifold.initialize ratNum cubeMesh noBarycentric 10 lowManifold).toOption.map
      (fun r => (r.2.numContacts, (r.2.contacts 0).normal, (r.2.contacts 0).t1,
        (r.2.contacts 0).t2))
      = some (1, ⟨0, -1, 0⟩, 0, 0) := by
  have hgen : ∀ (N : Num ℚ) (c : Contact ℚ), c.normal = ⟨0, -1, 0⟩ →
      (initContact N c).t1 = 0 ∧ (initContact N c).t2 = 0 ∧
        length2 (initContact N c).t1 ≠ 1 := by
    intro N c hc
    have h1 : (initContact N c).t1 = 0 := by
      simp only [initContact, hc, normalize]
      ext <;> norm_num [dot]
    have h2 : (initContact N c).t2 = 0 := by
      have : (initContact N c).t2 = cross (initContact N c).t1 c.normal := rfl
      rw [this, h1]
      ext <;> simp [cross]
    refine ⟨h1, h2, ?_⟩
    rw [h1]
    norm_num [length2, dot]
  refine ⟨by decide!, hgen, ?_⟩
  obtain ⟨r, hr, h1, _, hn, _⟩ := collide_eq ratNum cubeMesh noBarycentric 10 (bodyAt 0) lowB
    (fun _ => zeroContact) lowRun lowSeed lowEpa.2 lowEpa.1 lowFront lowRun_eq.1 rfl
    lowEpa_rat.1 lowEpa_rat.2 rfl
  have hc : (r.2.2.2 0).normal = ⟨0, -1, 0⟩ := hn
  rw [initialize_of_collide ratNum cubeMesh noBarycentric 10 lowManifold r hr]
  show some (r.1, (initContacts ratNum r.1.toNat r.2.2.2 0).normal,
    (initContacts ratNum r.1.toNat r.2.2.2 0).t1, (initContacts ratNum r.1.toNat r.2.2.2 0).t2)
      = _
  have h0 : initContacts ratNum r.1.toNat r.2.2.2 0 = initContact ratNum (r.2.2.2 0) := by
    rw [initContacts_apply, h1]
    rfl
  have hkeep : (initContact ratNum (r.2.2.2 0)).normal = (r.2.2.2 0).normal := rfl
  rw [h0, hkeep, hc, (hgen ratNum (r.2.2.2 0) hc).1, (hgen ratNum (r.2.2.2 0) hc).2.1, h1]

/-- C14 fails on the code: when the closest face after `epa` has a normal that `hasNaN`
flags, `collide` still returns 1, moves body A and writes the contact; the exception object
of the `hasNaN` line is built and never thrown. -/
theorem collide_ignores_nan_normal (N : Num K) (mesh : Mesh K)
    (barycentric : Polytope K → Rigid K → Rigid K → Vec3 K × Vec3 K) (fuel : Nat)
    (bodyA bodyB : Rigid K) (contacts : Nat → Contact K) (run : GjkRun K)
    (P0 P : Polytope K) (b : Bool) (front : Face K)
    (hgjk : gjk mesh bodyA bodyB [] 0 = .ok run) (hyes : run.collided = true)
    (hseed : Polytope.ofSimplex N run.simplex = .ok P0)
    (hepa : epa N mesh bodyA bodyB fuel P0 = .ok (b, P)) (hfront : P.front = some front)
    (_hnan : hasNaN N front.normal = true) :
    ∃ r, collide N mesh barycentric fuel bodyA bodyB contacts = .ok r ∧ r.1 = 1 ∧
      r.2.1.position = bodyA.position - Vec3.scale front.distance front.normal ∧
      (r.2.2.2 0).normal = front.normal ∧ (r.2.2.2 0).depth = front.distance :=
  collide_eq N mesh barycentric fuel bodyA bodyB contacts run P0 P b front hgjk hyes hseed hepa
    hfront

/-- C14, with `markNum` standing in for a number system with a NaN: the closest face on the
cubes `bodyAt 0` and `lowB` has the normal `(0, -1, 0)`, which `hasNaN` flags. -/
theorem collide_ignores_nan_normal_witness :
    gjk cubeMesh (bodyAt 0) lowB [] 0 = .ok lowRun ∧ lowRun.collided = true ∧
    Polytope.ofSimplex markNum lowRun.simplex = .ok lowSeed ∧
    epa markNum cubeMesh (bodyAt 0) lowB 10 lowSeed = .ok lowEpa ∧
    lowEpa.2.front = some lowFront ∧ lowFront.normal = ⟨0, -1, 0⟩ ∧
    hasNaN markNum lowFront.normal = true ∧
    ∃ r, collide markNum cubeMesh noBarycentric 10 (bodyAt 0) lowB (fun _ => zeroContact) = .ok r ∧
      r.1 = 1 ∧
      r.2.1.position = (bodyAt 0).position - Vec3.scale lowFront.distance lowFront.normal ∧
      (r.2.2.2 0).normal = lowFront.normal ∧ (r.2.2.2 0).depth = lowFront.distance :=
  ⟨lowRun_eq.1, lowRun_eq.2, lowEpa_eq.1, lowEpa_eq.2.1, lowEpa_eq.2.2, rfl, lowFront_nan,
    collide_ignores_nan_normal markNum cubeMesh noBarycentric 10 (bodyAt 0) lowB
      (fun _ => zeroContact) lowRun lowSeed lowEpa.2 lowEpa.1 lowFront
      lowRun_eq.1 lowRun_eq.2 lowEpa_eq.1 lowEpa_eq.2.1 lowEpa_eq.2.2 lowFront_nan⟩

/-- C15, as stated, fails: in the second round of `gjk` on two overlapping cubes the simplex
holds the point `(-1, 3/2, 5/3)` and `simplex1` sets the direction `(1, -1/2, -1/3)`, which
is not the negation of that point. -/
theorem simplex1_not_minus_point :
    gjkStateAfter cubeMesh (bodyAt 0) overlapB 1 [] 0
      = some ([⟨6, 1, ⟨-1, 3 / 2, 5 / 3⟩⟩], ⟨-1, 1 / 2, 1 / 3⟩) ∧
    handleSimplex [⟨6, 1, ⟨-1, 3 / 2, 5 / 3⟩⟩] (bodyAt 0) overlapB (⟨-1, 1 / 2, 1 / 3⟩ : Vec3 ℚ)
      = .ok (false, [⟨6, 1, ⟨-1, 3 / 2, 5 / 3⟩⟩], ⟨1, -1 / 2, -1 / 3⟩) ∧
    (⟨1, -1 / 2, -1 / 3⟩ : Vec3 ℚ) ≠ -(⟨-1, 3 / 2, 5 / 3⟩ : Vec3 ℚ) := by
  refine ⟨overlapFirst_eq, by decide!, by decide!⟩

/-- C15, amended: for every 1-point simplex the direction set by `simplex1` is the negation
of the direction it receives; reached from `handleSimplex` in the second round of a run of
`gjk` started on the empty simplex, that is `bodyA.position - bodyB.position`, the negation
of the direction set by `simplex0`. -/
theorem simplex1_direction (mesh : Mesh K) (bodyA bodyB : Rigid K) (dir0 : Vec3 K)
    (s : Simplex K) (d : Vec3 K)
    (hfirst : gjkStateAfter mesh bodyA bodyB 1 [] dir0 = some (s, d)) :
    s.size = 1 ∧ d = bodyB.position - bodyA.position ∧
    (∀ dir, handleSimplex s bodyA bodyB dir = .ok (false, s, -dir)) ∧
    handleSimplex s bodyA bodyB d = .ok (false, s, bodyA.position - bodyB.position) := by
  have hb : gjkBody mesh bodyA bodyB [] dir0
      = (if dot (getSupportPoint mesh bodyA bodyB (bodyB.position - bodyA.position)).mink
            (bodyB.position - bodyA.position) < 0
          then .ok (.separated [getSupportPoint mesh bodyA bodyB (bodyB.position - bodyA.position)]
            (bodyB.position - bodyA.position))
          else .ok (.next [getSupportPoint mesh bodyA bodyB (bodyB.position - bodyA.position)]
            (bodyB.position - bodyA.position))) := rfl
  unfold gjkStateAfter at hfirst
  rw [hb] at hfirst
  split_ifs at hfirst with hp
  simp only [gjkStateAfter, Option.some.injEq, Prod.mk.injEq] at hfirst
  obtain ⟨hs, hd⟩ := hfirst
  subst hs hd
  have hneg : ∀ dir : Vec3 K, handleSimplex
      [getSupportPoint mesh bodyA bodyB (bodyB.position - bodyA.position)] bodyA bodyB dir
        = .ok (false, [getSupportPoint mesh bodyA bodyB (bodyB.position - bodyA.position)],
            -dir) := by
    intro dir
    show Except.ok (simplex1 _ bodyA bodyB dir) = _
    simp only [simplex1, scale_neg_one]
  refine ⟨rfl, rfl, hneg, ?_⟩
  rw [hneg]
  congr 3
  ext <;> simp

/-- C15 amended, at the second round of `gjk` on two overlapping cubes. -/
theorem simplex1_direction_witness :
    gjkStateAfter cubeMesh (bodyAt 0) overlapB 1 [] 0 = some overlapFirst ∧
    overlapFirst.1.size = 1 ∧ overlapFirst.2 = overlapB.position - (bodyAt 0).position ∧
    (∀ dir, handleSimplex overlapFirst.1 (bodyAt 0) overlapB dir
      = .ok (false, overlapFirst.1, -dir)) ∧
    handleSimplex overlapFirst.1 (bodyAt 0) overlapB overlapFirst.2
      = .ok (false, overlapFirst.1, (bodyAt 0).position - overlapB.position) :=
  ⟨overlapFirst_eq,
    simplex1_direction cubeMesh (bodyAt 0) overlapB 0 overlapFirst.1 overlapFirst.2
      overlapFirst_eq⟩

/-- C16: for every 2-point simplex with points A and B, `simplex2` (also through
`handleSimplex`) sets the direction `(AB × AO) × AB` with `AB = B - A` and `AO = -A`; it is
orthogonal to `AB` and its dot products with `AO` and with `BO = -B` agree and are not
negative. -/
theorem simplex2_direction (pa pb : SupportPoint K) (bodyA bodyB : Rigid K) (dir : Vec3 K) :
    handleSimplex [pa, pb] bodyA bodyB dir = .ok (simplex2 [pa, pb] bodyA bodyB dir) ∧
    (simplex2 [pa, pb] bodyA bodyB dir).1 = false ∧
    (simplex2 [pa, pb] bodyA bodyB dir).2.2
      = cross (cross (pb.mink - pa.mink) (-pa.mink)) (pb.mink - pa.mink) ∧
    dot (simplex2 [pa, pb] bodyA bodyB dir).2.2 (pb.mink - pa.mink) = 0 ∧
    0 ≤ dot (simplex2 [pa, pb] bodyA bodyB dir).2.2 (-pa.mink) ∧
    dot (simplex2 [pa, pb] bodyA bodyB dir).2.2 (-pb.mink)
      = dot (simplex2 [pa, pb] bodyA bodyB dir).2.2 (-pa.mink) := by
  have hdir : (simplex2 [pa, pb] bodyA bodyB dir).2.2
      = cross (cross (pb.mink - pa.mink) (-pa.mink)) (pb.mink - pa.mink) := by
    show cross (cross (pa.mink - pb.mink) (-pb.mink)) (pa.mink - pb.mink) = _
    ext <;> simp only [cross, Vec3.sub_x, Vec3.sub_y, Vec3.sub_z, Vec3.neg_x, Vec3.neg_y,
      Vec3.neg_z] <;> ring
  have horth : dot (cross (cross (pb.mink - pa.mink) (-pa.mink)) (pb.mink - pa.mink))
      (pb.mink - pa.mink) = 0 := by
    simp only [dot, cross, Vec3.sub_x, Vec3.sub_y, Vec3.sub_z, Vec3.neg_x, Vec3.neg_y,
      Vec3.neg_z]
    ring
  refine ⟨rfl, rfl, hdir, ?_, ?_, ?_⟩
  · rw [hdir]; exact horth
  · rw [hdir, dot_double_cross]; exact length2_nonneg _
  · rw [hdir]
    have e : -pb.mink = -pa.mink - (pb.mink - pa.mink) := by
      ext <;> simp only [Vec3.sub_x, Vec3.sub_y, Vec3.sub_z, Vec3.neg_x, Vec3.neg_y,
        Vec3.neg_z] <;> ring
    rw [e, dot_sub_right, horth, sub_zero]

/-- C11 fails on the code: for two coincident cubes `gjk` reports intersection with a
simplex of four copies of one support point; the constructor stores that point once, so the
walk over the stored points collects one pointer and `pts[1]`, `pts[2]`, `pts[3]` are read
past the collected list. -/
theorem ofSimplex_reads_past_points :
    gjk cubeMesh (bodyAt 0) (bodyAt 0) [] 0 = .ok sameRun ∧ sameRun.collided = true ∧
    sameRun.simplex = [⟨0, 0, 0⟩, ⟨0, 0, 0⟩, ⟨0, 0, 0⟩, ⟨0, 0, 0⟩] ∧
    (((((⟨[], [], 0⟩ : Polytope ℚ).add (sameRun.simplex.at 0)).2.add (sameRun.simplex.at 1)).2.add
      (sameRun.simplex.at 2)).2.add (sameRun.simplex.at 3)).2.sps = [⟨0, 0, 0⟩] ∧
    Polytope.ofSimplex ratNum sameRun.simplex = .error Fault.undefinedBehaviour ∧
    (collide ratNum cubeMesh noBarycentric 10 (bodyAt 0) (bodyAt 0)
      (fun _ => zeroContact)).toOption.isNone = true := by
  have hseed : Polytope.ofSimplex ratNum sameRun.simplex = .error Fault.undefinedBehaviour := by
    decide!
  refine ⟨sameRun_eq, rfl, rfl, by decide!, hseed, ?_⟩
  simp only [collide, sameRun_eq]
  rw [hseed]
  rfl

/-- C17: for every triple without NaN whose cross product `cross(q - p, r - p)` has squared
length at least `1e-6`, `buildFace` returns a face whose normal is the unit vector of
`cross(s1 - s0, s2 - s0)` for its stored vertices `(s0, s1, s2)`: these are `(p, q, r)` with
the normal of `cross(q - p, r - p)`, or, with the reversed normal, `(p, r, q)`. -/
theorem buildFace_winding (N : Num K) (P : Polytope K) (pa pb pc : SupportPoint K)
    (hna : hasNaN N pa.mink = false) (hnb : hasNaN N pb.mink = false)
    (hnc : hasNaN N pc.mink = false)
    (hlen : eps ≤ length2 (cross (pb.mink - pa.mink) (pc.mink - pa.mink))) :
    ∃ f, P.buildFace N pa pb pc = .ok f ∧
      f.normal = normalize N (cross (f.s1.mink - f.s0.mink) (f.s2.mink - f.s0.mink)) ∧
      ((f.s0 = pa ∧ f.s1 = pb ∧ f.s2 = pc ∧
          f.normal = normalize N (cross (pb.mink - pa.mink) (pc.mink - pa.mink))) ∨
        (f.s0 = pa ∧ f.s1 = pc ∧ f.s2 = pb ∧
          f.normal
            = Vec3.scale (-1) (normalize N (cross (pb.mink - pa.mink) (pc.mink - pa.mink))))) := by
  have hl : ¬ length2 (cross (pb.mink - pa.mink) (pc.mink - pa.mink)) < eps := not_lt.mpr hlen
  unfold Polytope.buildFace
  simp only [hna, hnb, hnc, Bool.false_eq_true, if_false, hl]
  have hflip : Vec3.scale (-1) (normalize N (cross (pb.mink - pa.mink) (pc.mink - pa.mink)))
      = normalize N (cross (pc.mink - pa.mink) (pb.mink - pa.mink)) := by
    rw [cross_swap (pb.mink - pa.mink) (pc.mink - pa.mink), normalize_neg]
  split_ifs
  all_goals first
    | exact ⟨_, rfl, rfl, Or.inl ⟨rfl, rfl, rfl, rfl⟩⟩
    | exact ⟨_, rfl, hflip, Or.inr ⟨rfl, rfl, rfl, rfl⟩⟩

/-- C17, at a triangle in the plane `y = -1`, where the normal is reversed. -/
theorem buildFace_winding_witness :
    hasNaN ratNum (⟨0, -1, 0⟩ : Vec3 ℚ) = false ∧ hasNaN ratNum (⟨0, -1, 1⟩ : Vec3 ℚ) = false ∧
    hasNaN ratNum (⟨1, -1, 0⟩ : Vec3 ℚ) = false ∧
    (eps : ℚ) ≤ length2 (cross ((⟨0, -1, 1⟩ : Vec3 ℚ) - ⟨0, -1, 0⟩) (⟨1, -1, 0⟩ - ⟨0, -1, 0⟩)) ∧
    ∃ f, overlapSeed.buildFace ratNum ⟨0, 0, ⟨0, -1, 0⟩⟩ ⟨1, 0, ⟨0, -1, 1⟩⟩ ⟨2, 0, ⟨1, -1, 0⟩⟩
        = .ok f ∧
      f.normal = normalize ratNum (cross (f.s1.mink - f.s0.mink) (f.s2.mink - f.s0.mink)) ∧
      ((f.s0 = ⟨0, 0, ⟨0, -1, 0⟩⟩ ∧ f.s1 = ⟨1, 0, ⟨0, -1, 1⟩⟩ ∧ f.s2 = ⟨2, 0, ⟨1, -1, 0⟩⟩ ∧
          f.normal = normalize ratNum
            (cross ((⟨0, -1, 1⟩ : Vec3 ℚ) - ⟨0, -1, 0⟩) (⟨1, -1, 0⟩ - ⟨0, -1, 0⟩))) ∨
        (f.s0 = ⟨0, 0, ⟨0, -1, 0⟩⟩ ∧ f.s1 = ⟨2, 0, ⟨1, -1, 0⟩⟩ ∧ f.s2 = ⟨1, 0, ⟨0, -1, 1⟩⟩ ∧
          f.normal = Vec3.scale (-1) (normalize ratNum
            (cross ((⟨0, -1, 1⟩ : Vec3 ℚ) - ⟨0, -1, 0⟩) (⟨1, -1, 0⟩ - ⟨0, -1, 0⟩))))) :=
  ⟨rfl, rfl, rfl, unitTriangle_length,
    buildFace_winding ratNum overlapSeed ⟨0, 0, ⟨0, -1, 0⟩⟩ ⟨1, 0, ⟨0, -1, 1⟩⟩
      ⟨2, 0, ⟨1, -1, 0⟩⟩ rfl rfl rfl unitTriangle_length⟩

/-- C18: when `insert` returns `false` for `sp`, no stored point had its witness pair and
the point set gains exactly `sp`; the faces removed are exactly the faces `f` with
`dot(f.normal, sp.mink - f.sps[0].mink) > 0` and the other faces stay; the faces added are
exactly `buildFace(e.first, e.second, sp)`, one for each edge `e` of the horizon edge set,
and each of them has `sp` as a vertex. -/
theorem insert_false_effect (N : Num K) (P P1 : Polytope K) (sp : SupportPoint K)
    (h : P.insert N sp = .ok (false, P1)) :
    (∀ q ∈ P.sps, ¬ (q.indexA = sp.indexA ∧ q.indexB = sp.indexB)) ∧
    P1.sps = P.sps ++ [sp] ∧ P1.sps.length = P.sps.length + 1 ∧
    ∃ faces : List (Face K),
      List.Forall₂ (fun e f => P1.buildFace N e.1 e.2 sp = .ok f) (horizonEdges sp P.pq) faces ∧
      P1.pq.Perm
        (faces ++ P.pq.filter (fun f => !decide (dot f.normal (sp.mink - f.s0.mink) > 0))) ∧
      ∀ f ∈ faces, f.s0 = sp ∨ f.s1 = sp ∨ f.s2 = sp := by
  obtain ⟨hkey, hsps, _, faces, hall, hperm⟩ := insert_false_spec N P P1 sp h
  refine ⟨?_, hsps, by rw [hsps]; simp, faces, hall, hperm, ?_⟩
  · intro q hq hk
    have := hkey q hq
    simp [SupportPoint.sameKey, hk.1, hk.2] at this
  · intro f hf
    obtain ⟨e, _, hb⟩ := forall₂_mem_right hall f hf
    obtain ⟨n, ⟨_, hform⟩ | ⟨_, hform⟩⟩ := buildFace_form N P1 e.1 e.2 sp f hb
    · right; left; rw [hform]
    · right; right; rw [hform]

/-- C18, at the first insertion of `epa` on two overlapping cubes. -/
theorem insert_false_effect_witness :
    overlapSeed.insert ratNum overlapPoint = .ok (false, overlapGrown.2) ∧
    (horizonEdges overlapPoint overlapSeed.pq).length = 4 ∧
    (∀ q ∈ overlapSeed.sps,
      ¬ (q.indexA = overlapPoint.indexA ∧ q.indexB = overlapPoint.indexB)) ∧
    overlapGrown.2.sps = overlapSeed.sps ++ [overlapPoint] ∧
    overlapGrown.2.sps.length = overlapSeed.sps.length + 1 ∧
    ∃ faces : List (Face ℚ),
      List.Forall₂ (fun e f => overlapGrown.2.buildFace ratNum e.1 e.2 overlapPoint = .ok f)
        (horizonEdges overlapPoint overlapSeed.pq) faces ∧
      overlapGrown.2.pq.Perm
        (faces ++ overlapSeed.pq.filter
          (fun f => !decide (dot f.normal (overlapPoint.mink - f.s0.mink) > 0))) ∧
      ∀ f ∈ faces, f.s0 = overlapPoint ∨ f.s1 = overlapPoint ∨ f.s2 = overlapPoint :=
  ⟨overlapGrown_eq, overlapHorizon_length,
    insert_false_effect ratNum overlapSeed overlapGrown.2 overlapPoint overlapGrown_eq⟩

/-- C19: on every polytope made by the constructor and calls of `insert`, the horizon edge
set of a further `insert` is what the loop body leaves after the directed edges of the faces
turned towards the point; at no stage does it hold an edge together with its reverse; and
when no directed edge occurs twice among those faces, it ends as exactly the directed edges
of those faces whose reverse is not a directed edge of any of them. -/
theorem horizon_edges_boundary (N : Num K) (simplex : Simplex K)
    (points : List (SupportPoint K)) (P0 P : Polytope K) (sp : SupportPoint K)
    (hseed : Polytope.ofSimplex N simplex = .ok P0) (hins : insertAll N P0 points = .ok P) :
    horizonEdges sp P.pq = (visibleEdges sp P.pq).foldl toggleEdge [] ∧
    (∀ e, e ∈ visibleEdges sp P.pq ↔
      ∃ f ∈ P.pq, dot f.normal (sp.mink - f.s0.mink) > 0 ∧
        (e = (f.s0, f.s1) ∨ e = (f.s1, f.s2) ∨ e = (f.s2, f.s0))) ∧
    (∀ k, NoReverse (((visibleEdges sp P.pq).take k).foldl toggleEdge [])) ∧
    NoReverse (horizonEdges sp P.pq) ∧
    ((visibleEdges sp P.pq).Nodup →
      ∀ e, e ∈ horizonEdges sp P.pq ↔
        (e ∈ visibleEdges sp P.pq ∧ revEdge e ∉ visibleEdges sp P.pq)) := by
  have hwf : P.WellFormed :=
    insertAll_wellFormed N points P0 P (ofSimplex_wellFormed N simplex P0 hseed) hins
  have hproper : ∀ e ∈ visibleEdges sp P.pq, e.1 ≠ e.2 := fun e he =>
    (visibleEdges_proper sp P.sps P.pq hwf.2 e he).1
  have hfold : horizonEdges sp P.pq = (visibleEdges sp P.pq).foldl toggleEdge [] :=
    scanFaces_snd sp P.pq []
  refine ⟨hfold, fun e => ?_, fun k => ?_, ?_, fun hnd e => ?_⟩
  · rw [mem_visibleEdges]
    simp only [Face.visibleFrom, sameDirection, decide_eq_true_eq, Face.overrideEdge]
  · exact foldl_toggleEdge_noReverse _ [] (fun e he => hproper e (List.mem_of_mem_take he))
      (fun e he => by simp at he)
  · rw [hfold]
    exact foldl_toggleEdge_noReverse _ [] hproper (fun e he => by simp at he)
  · rw [hfold]
    exact (foldl_toggleEdge_boundary _ hproper hnd).2 e

/-- C19, at the first insertion of `epa` on two overlapping cubes. -/
theorem horizon_edges_boundary_witness :
    Polytope.ofSimplex ratNum overlapRun.simplex = .ok overlapSeed ∧
    insertAll ratNum overlapSeed [] = .ok overlapSeed ∧
    (visibleEdges overlapPoint overlapSeed.pq).Nodup ∧
    (horizonEdges overlapPoint overlapSeed.pq).length = 4 ∧
    horizonEdges overlapPoint overlapSeed.pq
      = (visibleEdges overlapPoint overlapSeed.pq).foldl toggleEdge [] ∧
    (∀ e, e ∈ visibleEdges overlapPoint overlapSeed.pq ↔
      ∃ f ∈ overlapSeed.pq, dot f.normal (overlapPoint.mink - f.s0.mink) > 0 ∧
        (e = (f.s0, f.s1) ∨ e = (f.s1, f.s2) ∨ e = (f.s2, f.s0))) ∧
    (∀ k, NoReverse (((visibleEdges overlapPoint overlapSeed.pq).take k).foldl toggleEdge [])) ∧
    NoReverse (horizonEdges overlapPoint overlapSeed.pq) ∧
    ((visibleEdges overlapPoint overlapSeed.pq).Nodup →
      ∀ e, e ∈ horizonEdges overlapPoint overlapSeed.pq ↔
        (e ∈ visibleEdges overlapPoint overlapSeed.pq ∧
          revEdge e ∉ visibleEdges overlapPoint overlapSeed.pq)) :=
  ⟨overlapSeed_eq, rfl, by decide!, overlapHorizon_length,
    horizon_edges_boundary ratNum overlapRun.simplex [] overlapSeed overlapSeed overlapPoint
      overlapSeed_eq rfl⟩

/-- C20: with an oracle that returns indices of hull vertices (`n` of them for either body,
the mesh being shared), without NaN and as long as the face set does not run empty, `epa`
returns within `n * n + 1` rounds of its loop, that is, calls of `insert`; and every call of
`insert` that returns `false` stores a witness pair that was not stored before. -/
theorem epa_terminates (N : Num K) (hnan : ∀ x, N.isnan x = false) (mesh : Mesh K)
    (hrange : ∀ v, mesh.bestDot v < mesh.uniqueVerts.length) (bodyA bodyB : Rigid K)
    (P0 : Polytope K)
    (hfaces : epa N mesh bodyA bodyB (mesh.uniqueVerts.length * mesh.uniqueVerts.length + 1) P0
      ≠ .error Fault.undefinedBehaviour) :
    (∃ P, epa N mesh bodyA bodyB (mesh.uniqueVerts.length * mesh.uniqueVerts.length + 1) P0
      = .ok (false, P)) ∧
    ∀ (P P1 : Polytope K) (sp : SupportPoint K), P.insert N sp = .ok (false, P1) →
      (∀ q ∈ P.sps, ¬ (q.indexA = sp.indexA ∧ q.indexB = sp.indexB)) ∧
        P1.sps = P.sps ++ [sp] := by
  refine ⟨?_, fun P P1 sp h => ?_⟩
  · rcases epa_result N hnan mesh hrange bodyA bodyB _ P0 (Nat.le_add_right _ _) with h | h
    · exact h
    · exact absurd h hfaces
  · obtain ⟨hkey, hsps, _⟩ := insert_false_spec N P P1 sp h
    refine ⟨fun q hq hk => ?_, hsps⟩
    have := hkey q hq
    simp [SupportPoint.sameKey, hk.1, hk.2] at this

/-- C20, at two overlapping cubes: 8 vertices each, 65 rounds allowed, 4 used. -/
theorem epa_terminates_witness :
    (∀ x, ratNum.isnan x = false) ∧
    (∀ v, cubeMesh.bestDot v < cubeMesh.uniqueVerts.length) ∧
    epa ratNum cubeMesh (bodyAt 0) overlapB
        (cubeMesh.uniqueVerts.length * cubeMesh.uniqueVerts.length + 1) overlapSeed
      ≠ .error Fault.undefinedBehaviour ∧
    epa ratNum cubeMesh (bodyAt 0) overlapB 4 overlapSeed = .ok overlapEpa ∧
    (∃ P, epa ratNum cubeMesh (bodyAt 0) overlapB
        (cubeMesh.uniqueVerts.length * cubeMesh.uniqueVerts.length + 1) overlapSeed
      = .ok (false, P)) ∧
    ∀ (P P1 : Polytope ℚ) (sp : SupportPoint ℚ), P.insert ratNum sp = .ok (false, P1) →
      (∀ q ∈ P.sps, ¬ (q.indexA = sp.indexA ∧ q.indexB = sp.indexB)) ∧
        P1.sps = P.sps ++ [sp] := by
  have hmax : epa ratNum cubeMesh (bodyAt 0) overlapB
      (cubeMesh.uniqueVerts.length * cubeMesh.uniqueVerts.length + 1) overlapSeed
        ≠ .error Fault.undefinedBehaviour := by decide!
  exact ⟨fun _ => rfl, fun v => (bruteMesh_maximising cubeVerts (by decide) v).1, hmax,
    by decide!,
    epa_terminates ratNum (fun _ => rfl) cubeMesh
      (fun v => (bruteMesh_maximising cubeVerts (by decide) v).1) (bodyAt 0) overlapB overlapSeed
      hmax⟩

/-- C21, as stated, fails: for the contact that `initialize` makes on two overlapping cubes
the normal is `(-1, 0, 0)`, `t1` is `(0, 1, 0)` and `t2` is `(0, 0, 1)`, while
`cross(normal, t1)` is `(0, 0, -1)`. -/
theorem initialize_t2_not_normal_cross_t1 :
    Manifold.initialize ratNum cubeMesh noBarycentric 10 overlapManifold = .ok overlapInit ∧
    ((0 : Nat) : Int) < overlapInit.2.numContacts ∧
    (overlapInit.2.contacts 0).normal = ⟨-1, 0, 0⟩ ∧ (overlapInit.2.contacts 0).t1 = ⟨0, 1, 0⟩ ∧
    (overlapInit.2.contacts 0).t2 = ⟨0, 0, 1⟩ ∧
    cross (overlapInit.2.contacts 0).normal (overlapInit.2.contacts 0).t1 = ⟨0, 0, -1⟩ ∧
    (overlapInit.2.contacts 0).t2
      ≠ cross (overlapInit.2.contacts 0).normal (overlapInit.2.contacts 0).t1 := by
  obtain ⟨hn, h1, h2⟩ := overlapInit_frame
  refine ⟨overlapInit_eq.1, overlapInit_eq.2, hn, h1, h2, ?_, ?_⟩
  · rw [hn, h1]; decide!
  · rw [hn, h1, h2]; decide!

/-- C21, amended: for every contact produced in `Manifold::initialize`, the second tangent
is `cross(t1, normal)`, which is the negation of `cross(normal, t1)`. -/
theorem initialize_t2 (N : Num K) (mesh : Mesh K)
    (barycentric : Polytope K → Rigid K → Rigid K → Vec3 K × Vec3 K) (fuel : Nat)
    (M M1 : Manifold K) (b : Bool) (h : Manifold.initialize N mesh barycentric fuel M = .ok (b, M1))
    (i : Nat) (hi : (i : Int) < M1.numContacts) :
    (M1.contacts i).t2 = cross (M1.contacts i).t1 (M1.contacts i).normal ∧
    (M1.contacts i).t2 = -cross (M1.contacts i).normal (M1.contacts i).t1 := by
  obtain ⟨c, hc⟩ := initialize_contacts N mesh barycentric fuel M M1 b h i hi
  have h1 : (M1.contacts i).t2 = cross (M1.contacts i).t1 (M1.contacts i).normal := by
    rw [hc]
    rfl
  exact ⟨h1, by rw [h1, cross_swap]⟩

/-- C21 amended, at the contact of two overlapping cubes. -/
theorem initialize_t2_witness :
    Manifold.initialize ratNum cubeMesh noBarycentric 10 overlapManifold = .ok overlapInit ∧
    ((0 : Nat) : Int) < overlapInit.2.numContacts ∧
    (overlapInit.2.contacts 0).t2
      = cross (overlapInit.2.contacts 0).t1 (overlapInit.2.contacts 0).normal ∧
    (overlapInit.2.contacts 0).t2
      = -cross (overlapInit.2.contacts 0).normal (overlapInit.2.contacts 0).t1 :=
  ⟨overlapInit_eq.1, overlapInit_eq.2,
    initialize_t2 ratNum cubeMesh noBarycentric 10 overlapManifold overlapInit.2 overlapInit.1
      overlapInit_eq.1 0 overlapInit_eq.2⟩

/-- C22: after the constructor on a 4-point simplex and any sequence of calls of `insert`,
`vertTot` is the sum of the `mink` vectors of the stored points, of which there are at least
four, so `vertTot / sps.size()`, which `buildFace` takes as the centre, is their centroid. -/
theorem vertTot_sum_of_stored_points (N : Num K) (simplex : Simplex K)
    (points : List (SupportPoint K)) (P0 P : Polytope K) (_hsize : simplex.size = 4)
    (hseed : Polytope.ofSimplex N simplex = .ok P0) (hins : insertAll N P0 points = .ok P) :
    P.vertTot = minkSum P.sps ∧ 4 ≤ P.sps.length ∧
    P.vertTot.divs (P.sps.length : K) = (minkSum P.sps).divs (P.sps.length : K) ∧
    ∀ pa pb pc, P.buildFace N pa pb pc
      = (⟨P.sps, P.pq, minkSum P.sps⟩ : Polytope K).buildFace N pa pb pc := by
  obtain ⟨h4, h0⟩ := ofSimplex_sum N simplex P0 hseed
  obtain ⟨hle, hP⟩ := insertAll_sum N points P0 P h0 hins
  refine ⟨hP, by omega, by rw [hP], fun pa pb pc => ?_⟩
  exact buildFace_congr N _ _ pa pb pc rfl hP

/-- C22, at the polytope that `epa` builds on two overlapping cubes. -/
theorem vertTot_sum_of_stored_points_witness :
    overlapRun.simplex.size = 4 ∧
    Polytope.ofSimplex ratNum overlapRun.simplex = .ok overlapSeed ∧
    insertAll ratNum overlapSeed overlapPoints = .ok overlapEpa.2 ∧
    overlapEpa.2.sps.length = 7 ∧
    overlapEpa.2.vertTot = minkSum overlapEpa.2.sps ∧ 4 ≤ overlapEpa.2.sps.length ∧
    overlapEpa.2.vertTot.divs (overlapEpa.2.sps.length : ℚ)
      = (minkSum overlapEpa.2.sps).divs (overlapEpa.2.sps.length : ℚ) ∧
    ∀ pa pb pc, overlapEpa.2.buildFace ratNum pa pb pc
      = (⟨overlapEpa.2.sps, overlapEpa.2.pq, minkSum overlapEpa.2.sps⟩ : Polytope ℚ).buildFace
          ratNum pa pb pc :=
  ⟨rfl, overlapSeed_eq, overlapAll_eq, rfl,
    vertTot_sum_of_stored_points ratNum overlapRun.simplex overlapPoints overlapSeed overlapEpa.2
      rfl overlapSeed_eq overlapAll_eq⟩

end Claims

end CPPPhysics
